import Mathlib

/-!
# The scalar codecs of `xmltv`: `XMLTVBool` and `XMLTVTime`

A shallow embedding of `internal/types/bool.go` and `internal/types/time.go`,
with the part of Go's `encoding/xml` and `time` packages these two files call.

Conventions of the embedding

* A Go pointer receiver that may be `nil` is an `Option`; a method that assigns
  through its receiver returns the new receiver value next to its error.
* A Go `error` result is an `Option Error` (`none` is the `nil` error).
* `xml.Encoder.EncodeElement` is a parameter of the element encoders: what a
  codec emits is the value it hands to that call.  `xml.Decoder.DecodeElement`
  is the result it had on the element: an error, or the character data read.
* Go strings hold bytes; the texts handled here are lists of characters.  Every
  text the date/time parser accepts is made of ASCII characters only, where the
  two views agree.
-/

namespace xml

/-- Go `xml.Name`: a namespace identifier and a local name. -/
structure Name where
  Space : String
  Local : String
deriving DecidableEq, Repr

/-- Go `xml.Attr`. -/
structure Attr where
  Name : xml.Name
  Value : String
deriving DecidableEq, Repr

/-- Go `xml.StartElement`. -/
structure StartElement where
  Name : xml.Name
  Attr : List xml.Attr
deriving DecidableEq, Repr

/-- The zero value `xml.Attr{}`: the marshaller omits such an attribute. -/
def Attr.zero : Attr := { Name := { Space := "", Local := "" }, Value := "" }

/-- The first argument of `Encoder.EncodeElement` as the codecs use it: the
untyped `nil`, or a string that becomes the character data of the element. -/
inductive ElemValue where
  | nil
  | text (s : String)
deriving DecidableEq, Repr

end xml

/-- The errors the decoders can return: the one `Decoder.DecodeElement` gave, or
the `*time.ParseError` of `time.Parse` with its `Layout` and `Value`. -/
inductive Error where
  | decode (msg : String)
  | parse (layout value : String)
deriving DecidableEq, Repr

/-! ## `bool.go` -/

/-- Go `type XMLTVBool bool`. -/
abbrev XMLTVBool := Bool

namespace XMLTVBool

/-- Go `func (b *XMLTVBool) MarshalXMLAttr(name xml.Name) (xml.Attr, error)`. -/
def MarshalXMLAttr (b : Option XMLTVBool) (name : xml.Name) : xml.Attr × Option Error :=
  match b with
  | none => (xml.Attr.zero, none)
  | some v =>
    let attributeValue := if v then "yes" else "no"
    ({ Name := name, Value := attributeValue }, none)

/-- Go `func (b *XMLTVBool) UnmarshalXMLAttr(attr xml.Attr) error`; the first
argument is the value the receiver held before the call. -/
def UnmarshalXMLAttr (_b : XMLTVBool) (attr : xml.Attr) : XMLTVBool × Option Error :=
  let b1 : XMLTVBool := false
  let b2 : XMLTVBool := if attr.Value = "yes" then true else b1
  (b2, none)

/-- Go `func (b *XMLTVBool) MarshalXML(e *xml.Encoder, start xml.StartElement) error`. -/
def MarshalXML {ε : Type} (b : Option XMLTVBool)
    (EncodeElement : xml.ElemValue → xml.StartElement → ε) (start : xml.StartElement) : ε :=
  match b with
  | none => EncodeElement xml.ElemValue.nil start
  | some v =>
    let elementText : String :=
      if start.Name.Local = "new" then ""
      else if v then "yes"
      else "no"
    EncodeElement (xml.ElemValue.text elementText) start

/-- Go `func (b *XMLTVBool) UnmarshalXML(d *xml.Decoder, start xml.StartElement) error`;
`decoded` is the outcome of `d.DecodeElement(&elementText, &start)`. -/
def UnmarshalXML (b : XMLTVBool) (decoded : Except Error String) (start : xml.StartElement) :
    XMLTVBool × Option Error :=
  match decoded with
  | .error err => (b, some err)
  | .ok elementText =>
    let v : Bool :=
      if start.Name.Local = "new" then true
      else if elementText = "yes" then true
      else false
    (v, none)

end XMLTVBool

/-! ## Go `time`: the part reached by `Format` and `Parse` with the two layouts

`time.Time` is kept as the instant (seconds since January 1 of year 1, 00:00:00
UTC, and nanoseconds within the second) and the offset its location has at that
instant, which is all `IsZero`, `Format` and `Parse` read or set.  Arithmetic is
on unbounded integers: within the years a four-digit field can hold, Go's 64-bit
integers do not wrap. -/

namespace time

/-- Go `time.Time`: `sec` counts seconds since January 1, year 1 00:00:00 UTC,
`nsec` is in `[0, 999999999]`, `offset` is seconds east of UTC. -/
structure Time where
  sec : Int
  nsec : Int
  offset : Int
deriving DecidableEq, Repr

/-- The zero value `time.Time{}`: January 1, year 1, 00:00:00 UTC. -/
def Time.zero : Time := { sec := 0, nsec := 0, offset := 0 }

/-- Go `func (t Time) IsZero() bool`: the instant alone decides. -/
def Time.IsZero (t : Time) : Bool := t.sec == 0 && t.nsec == 0

def secondsPerMinute : Int := 60
def secondsPerHour : Int := 60 * secondsPerMinute
def secondsPerDay : Int := 24 * secondsPerHour
def daysPer400Years : Int := 365 * 400 + 97
def daysPer100Years : Int := 365 * 100 + 24
def daysPer4Years : Int := 365 * 4 + 1

/-- Go `func isLeap(year int) bool`. -/
def isLeap (year : Int) : Bool :=
  year % 4 == 0 && (year % 100 != 0 || year % 400 == 0)

/-- The table `daysBefore`: `daysBefore m` counts the days of a non-leap year
before month `m + 1`; it has an entry for `m = 12`. -/
def daysBefore (m : Int) : Int :=
  [0, 31, 59, 90, 120, 151, 181, 212, 243, 273, 304, 334, 365].getD m.toNat 0

/-- Go `func daysIn(m Month, year int) int`. -/
def daysIn (m : Int) (year : Int) : Int :=
  if m = 2 ∧ isLeap year = true then 29
  else daysBefore m - daysBefore (m - 1)

/-- Go `func daysSinceEpoch(year int) uint64`, counted from year 1 (Go counts from
an earlier year congruent to 1 modulo 400 and shifts the result back). -/
def daysSinceEpoch (year : Int) : Int :=
  let y := year - 1
  let n := y / 400
  let y := y - 400 * n
  let d := daysPer400Years * n
  let n := y / 100
  let y := y - 100 * n
  let d := d + daysPer100Years * n
  let n := y / 4
  let y := y - 4 * n
  let d := d + daysPer4Years * n
  let n := y
  d + 365 * n

/-- Go `func norm(hi, lo, base int) (nhi, nlo int)`. -/
def norm (hi lo base : Int) : Int × Int :=
  let (hi, lo) :=
    if lo < 0 then
      let n := (-lo - 1) / base + 1
      (hi - n, lo + n * base)
    else (hi, lo)
  if lo ≥ base then
    let n := lo / base
    (hi + n, lo - n * base)
  else (hi, lo)

/-- Go `func Date(year int, month Month, day, hour, min, sec, nsec int, loc *Location) Time`
for `loc = UTC`. -/
def Date (year month day hour min sec nsec : Int) : Time :=
  let m := month - 1
  let (year, m) := norm year m 12
  let month := m + 1
  let (sec, nsec) := norm sec nsec 1000000000
  let (min, sec) := norm min sec 60
  let (hour, min) := norm hour min 60
  let (day, hour) := norm day hour 24
  let d := daysSinceEpoch year
  let d := d + daysBefore (month - 1)
  let d := if isLeap year = true ∧ month ≥ 3 then d + 1 else d
  let d := d + (day - 1)
  let abs := d * secondsPerDay
  let abs := abs + (hour * secondsPerHour + min * secondsPerMinute + sec)
  { sec := abs, nsec := nsec, offset := 0 }

/-- Go `func (t Time) abs() uint64`: the wall-clock reading in the time's own
offset, in seconds since year 1. -/
def Time.abs (t : Time) : Int := t.sec + t.offset

/-- The year and the day within the year of `absDate`. -/
def absYear (abs : Int) : Int × Int :=
  let d := abs / secondsPerDay
  let n := d / daysPer400Years
  let y := 400 * n
  let d := d - daysPer400Years * n
  let n := d / daysPer100Years
  let n := n - n / 4
  let y := y + 100 * n
  let d := d - daysPer100Years * n
  let n := d / daysPer4Years
  let y := y + 4 * n
  let d := d - daysPer4Years * n
  let n := d / 365
  let n := n - n / 4
  let y := y + n
  let d := d - 365 * n
  (y + 1, d)

/-- The second half of `absDate`: the month and the day of the month of day
`yday` (counted from 0) of a year that is a leap year or not. -/
def monthDay (leap : Bool) (yday : Int) : Int × Int :=
  let day := yday
  if leap = true ∧ day = 31 + 29 - 1 then (2, 29)
  else
    let day := if leap = true ∧ day > 31 + 29 - 1 then day - 1 else day
    let month := day / 31
    let stop := daysBefore (month + 1)
    let (month, begin) :=
      if day ≥ stop then (month + 1, stop) else (month, daysBefore month)
    (month + 1, day - begin + 1)

/-- Go `func absDate(abs uint64, full bool) (year int, month Month, day int, yday int)`
with `full = true`. -/
def absDate (abs : Int) : Int × Int × Int × Int :=
  let (year, yday) := absYear abs
  let (month, day) := monthDay (isLeap year) yday
  (year, month, day, yday)

/-- Go `func absClock(abs uint64) (hour, min, sec int)`. -/
def absClock (abs : Int) : Int × Int × Int :=
  let sec := abs % secondsPerDay
  let hour := sec / secondsPerHour
  let sec := sec - hour * secondsPerHour
  let min := sec / secondsPerMinute
  let sec := sec - min * secondsPerMinute
  (hour, min, sec)

def Time.Year (t : Time) : Int := (absDate t.abs).1
def Time.Month (t : Time) : Int := (absDate t.abs).2.1
def Time.Day (t : Time) : Int := (absDate t.abs).2.2.1
def Time.Hour (t : Time) : Int := (absClock t.abs).1
def Time.Minute (t : Time) : Int := (absClock t.abs).2.1
def Time.Second (t : Time) : Int := (absClock t.abs).2.2


/-- The ASCII digit of `d < 10`: Go's `byte('0' + d)`. -/
def digit (d : Nat) : Char := Char.ofNat (d + 48)

/-- The decimal form of `n` in exactly `width` digits, zero-padded (the digits
above `width` are dropped): the shape the grammar of the format asks for. -/
def decimal : Nat → Nat → List Char
  | 0, _ => []
  | w + 1, n => decimal w (n / 10) ++ [digit (n % 10)]

/-- Go `func appendInt(b []byte, x int, width int) []byte`: the decimal form of
`x`, zero-padded to `width` digits after the sign, appended to `b`. -/
def appendInt (b : List Char) (x : Int) (width : Nat) : List Char :=
  let u := x.natAbs
  let b := if x < 0 then b ++ ['-'] else b
  if width = 2 ∧ u < 100 then
    b ++ [digit (u / 10), digit (u % 10)]
  else if width = 4 ∧ u < 10000 then
    b ++ [digit (u / 100 / 10), digit (u / 100 % 10), digit (u % 100 / 10), digit (u % 100 % 10)]
  else
    let ds := Nat.toDigits 10 u
    b ++ List.replicate (width - ds.length) '0' ++ ds

/-- The layout elements `nextStdChunk` finds in the two layouts of `time.go`. -/
inductive Std where
  | stdLongYear
  | stdZeroMonth
  | stdZeroDay
  | stdHour
  | stdZeroMinute
  | stdZeroSecond
  | stdNumTZ
deriving DecidableEq, Repr

/-- One step of `nextStdChunk`: the literal text before a layout element, and
the element. -/
structure Chunk where
  lit : List Char
  std : Std
deriving DecidableEq, Repr

/-- The layout `"20060102150405 -0700"` as `nextStdChunk` cuts it: `2006`, `01`,
`02`, `15`, `04`, `05`, then the literal space before `-0700`; nothing is left
after the last element. -/
def layoutAttr : List Chunk :=
  [⟨[], .stdLongYear⟩, ⟨[], .stdZeroMonth⟩, ⟨[], .stdZeroDay⟩, ⟨[], .stdHour⟩,
   ⟨[], .stdZeroMinute⟩, ⟨[], .stdZeroSecond⟩, ⟨[' '], .stdNumTZ⟩]

/-- The layout `"20060102"` as `nextStdChunk` cuts it: `2006`, `01`, `02`. -/
def layoutElem : List Chunk :=
  [⟨[], .stdLongYear⟩, ⟨[], .stdZeroMonth⟩, ⟨[], .stdZeroDay⟩]

/-- The `switch std & stdMask` of `Time.appendFormat` on one layout element. -/
def appendStd (b : List Char) (t : Time) (std : Std) : List Char :=
  match std with
  | .stdLongYear => appendInt b t.Year 4
  | .stdZeroMonth => appendInt b t.Month 2
  | .stdZeroDay => appendInt b t.Day 2
  | .stdHour => appendInt b t.Hour 2
  | .stdZeroMinute => appendInt b t.Minute 2
  | .stdZeroSecond => appendInt b t.Second 2
  | .stdNumTZ =>
    let zone := Int.tdiv t.offset 60
    let (b, zone) := if zone < 0 then (b ++ ['-'], -zone) else (b ++ ['+'], zone)
    let b := appendInt b (Int.tdiv zone 60) 2
    appendInt b (Int.tmod zone 60) 2

/-- The loop of `Time.appendFormat` over the chunks of the layout. -/
def appendFormat (b : List Char) (t : Time) : List Chunk → List Char
  | [] => b
  | c :: rest => appendFormat (appendStd (b ++ c.lit) t c.std) t rest

/-- Go `func (t Time) Format(layout string) string` on a layout given by its chunks. -/
def Time.Format (t : Time) (layout : List Chunk) : String :=
  String.mk (appendFormat [] t layout)

/-! ### `time.Parse` -/

/-- Go `func isDigit(s string, i int) bool`. -/
def isDigit (s : List Char) (i : Nat) : Bool :=
  match s.get? i with
  | none => false
  | some c => decide ('0' ≤ c) && decide (c ≤ '9')

/-- Go `func commaOrPeriod(b byte) bool`. -/
def commaOrPeriod (b : Char) : Bool := b == '.' || b == ','

/-- Go `func leadingInt(s string) (x uint64, rem string, err error)`, as a loop
carrying `x`; `none` is `errLeadingInt`. -/
def leadingInt (x : Nat) : List Char → Option (Nat × List Char)
  | [] => some (x, [])
  | c :: cs =>
    if c < '0' ∨ c > '9' then some (x, c :: cs)
    else if x > 2 ^ 63 / 10 then none
    else
      let x := x * 10 + (c.toNat - 48)
      if x > 2 ^ 63 then none
      else leadingInt x cs

/-- Go `func atoi(s string) (x int, err error)`; `none` is `errAtoi`. -/
def atoi (s : List Char) : Option Int :=
  let (neg, s) :=
    match s with
    | c :: cs => if c = '-' ∨ c = '+' then (decide (c = '-'), cs) else (false, s)
    | [] => (false, s)
  match leadingInt 0 s with
  | none => none
  | some (q, rem) =>
    if rem ≠ [] then none
    else if neg then some (-(q : Int))
    else some (q : Int)

/-- Go `func getnum(s string, fixed bool) (int, string, error)`; `none` is `errBad`. -/
def getnum (s : List Char) (fixed : Bool) : Option (Int × List Char) :=
  if !isDigit s 0 then none
  else if !isDigit s 1 then
    if fixed then none
    else
      match s with
      | c0 :: rest => some (((c0.toNat - 48 : Nat) : Int), rest)
      | [] => none
  else
    match s with
    | c0 :: c1 :: rest => some ((((c0.toNat - 48) * 10 + (c1.toNat - 48) : Nat) : Int), rest)
    | _ => none

/-- Go `func cutspace(s string) string`. -/
def cutspace (s : List Char) : List Char := s.dropWhile (fun c => c == ' ')

/-- The loop of `skip`, bounded by the length of the literal text, which every
round shortens. -/
def skipLoop : Nat → List Char → List Char → Option (List Char)
  | _, value, [] => some value
  | 0, _, _ :: _ => none
  | fuel + 1, value, p :: ps =>
    if p = ' ' then
      match value with
      | v :: vs =>
        if v ≠ ' ' then none
        else skipLoop fuel (cutspace (v :: vs)) (cutspace (p :: ps))
      | [] => skipLoop fuel (cutspace []) (cutspace (p :: ps))
    else
      match value with
      | v :: vs => if v ≠ p then none else skipLoop fuel vs ps
      | [] => none

/-- Go `func skip(value, prefix string) (string, error)`: remove the literal text
of the layout from the front of `value`; a space of the layout stands for any
run of spaces, an empty one included.  `none` is `errBad`. -/
def skip (value lit : List Char) : Option (List Char) :=
  skipLoop lit.length value lit

/-- Go `func parseNanoseconds(value string, nbytes int) (ns int, rangeErrString string, err error)`;
`none` is either failure. -/
def parseNanoseconds (value : List Char) (nbytes : Nat) : Option Int :=
  match value with
  | [] => none
  | c :: _ =>
    if !commaOrPeriod c then none
    else
      let (value, nbytes) := if nbytes > 10 then (value.take 10, 10) else (value, nbytes)
      match atoi ((value.take nbytes).drop 1) with
      | none => none
      | some ns =>
        if ns < 0 then none
        else
          let scaleDigits := 10 - nbytes
          some (ns * 10 ^ scaleDigits)

/-- The fields `parse` fills while it walks the layout, with their initial
values: `-1` marks a month, a day or a zone offset not seen. -/
structure Fields where
  year : Int
  month : Int
  day : Int
  hour : Int
  min : Int
  sec : Int
  nsec : Int
  zoneOffset : Int
deriving DecidableEq, Repr

/-- The declarations at the head of `parse`. -/
def Fields.init : Fields :=
  { year := 0, month := -1, day := -1, hour := 0, min := 0, sec := 0, nsec := 0,
    zoneOffset := -1 }

/-- The `switch std & stdMask` of `parse` on one layout element: it reads the
element off the front of `value`.  `none` stands for both ways the step makes
`parse` return a `ParseError`: a syntax error (`errBad`) or a field out of
range. -/
def parseStd (std : Std) (value : List Char) (f : Fields) : Option (Fields × List Char) :=
  match std with
  | .stdLongYear =>
    if value.length < 4 ∨ !isDigit value 0 then none
    else
      match atoi (value.take 4) with
      | none => none
      | some year => some ({ f with year := year }, value.drop 4)
  | .stdZeroMonth =>
    match getnum value true with
    | none => none
    | some (month, value) =>
      if month ≤ 0 ∨ 12 < month then none
      else some ({ f with month := month }, value)
  | .stdZeroDay =>
    match getnum value true with
    | none => none
    | some (day, value) => some ({ f with day := day }, value)
  | .stdHour =>
    match getnum value false with
    | none => none
    | some (hour, value) =>
      if hour < 0 ∨ 24 ≤ hour then none
      else some ({ f with hour := hour }, value)
  | .stdZeroMinute =>
    match getnum value true with
    | none => none
    | some (min, value) =>
      if min < 0 ∨ 60 ≤ min then none
      else some ({ f with min := min }, value)
  | .stdZeroSecond =>
    match getnum value true with
    | none => none
    | some (sec, value) =>
      if sec < 0 ∨ 60 ≤ sec then none
      else
        -- a fractional second in the input where the layout has none
        match value with
        | c :: _ :: _ =>
          if commaOrPeriod c && isDigit value 1 then
            let n := 2 + ((value.drop 2).takeWhile (fun d => decide ('0' ≤ d) && decide (d ≤ '9'))).length
            match parseNanoseconds value n with
            | none => none
            | some nsec => some ({ f with sec := sec, nsec := nsec }, value.drop n)
          else some ({ f with sec := sec }, value)
        | _ => some ({ f with sec := sec }, value)
  | .stdNumTZ =>
    if value.length < 5 then none
    else
      let sign := value.take 1
      let hour := (value.drop 1).take 2
      let min := (value.drop 3).take 2
      let value := value.drop 5
      match getnum hour true with
      | none => none
      | some (hr, _) =>
        match getnum min true with
        | none => none
        | some (mm, _) =>
          -- the seconds of the offset are the constant "00" for this element
          if hr > 24 ∨ mm > 60 then none
          else
            let zoneOffset := (hr * 60 + mm) * 60 + 0
            if sign = ['+'] then some ({ f with zoneOffset := zoneOffset }, value)
            else if sign = ['-'] then some ({ f with zoneOffset := -zoneOffset }, value)
            else none

/-- The loop of `parse` over the chunks of the layout; after the last chunk any
text left in `value` is an error (`extra text`). -/
def parseLoop : List Chunk → List Char → Fields → Option Fields
  | [], value, f => if value ≠ [] then none else some f
  | c :: rest, value, f =>
    match skip value c.lit with
    | none => none
    | some value =>
      match parseStd c.std value f with
      | none => none
      | some (f, value) => parseLoop rest value f

/-- Go `func Parse(layout, value string) (Time, error)` on a layout given by its
chunks; `none` is a `*ParseError`.  With a zone offset in the text the result
carries that offset (`Local` when it has this offset at that instant, a fixed
zone otherwise); without one it is in UTC. -/
def Parse (layout : List Chunk) (value : List Char) : Option Time :=
  match parseLoop layout value Fields.init with
  | none => none
  | some f =>
    let month := if f.month < 0 then 1 else f.month
    let day := if f.day < 0 then 1 else f.day
    if day < 1 ∨ day > daysIn month f.year then none
    else if f.zoneOffset ≠ -1 then
      let t := Date f.year month day f.hour f.min f.sec f.nsec
      some { sec := t.sec - f.zoneOffset, nsec := t.nsec, offset := f.zoneOffset }
    else some (Date f.year month day f.hour f.min f.sec f.nsec)

end time

/-! ## `time.go` -/

/-- Go `type XMLTVTime struct{ time.Time }`. -/
structure XMLTVTime where
  Time : time.Time
deriving DecidableEq, Repr

namespace XMLTVTime

/-- The zero value `XMLTVTime{}`. -/
def zero : XMLTVTime := { Time := time.Time.zero }

/-- Go `func (t *XMLTVTime) MarshalXMLAttr(name xml.Name) (xml.Attr, error)`. -/
def MarshalXMLAttr (t : Option XMLTVTime) (name : xml.Name) : xml.Attr × Option Error :=
  match t with
  | none => (xml.Attr.zero, none)
  | some t =>
    if t.Time.IsZero then (xml.Attr.zero, none)
    else ({ Name := name, Value := t.Time.Format time.layoutAttr }, none)

/-- Go `func (t *XMLTVTime) UnmarshalXMLAttr(attr xml.Attr) error`; the first
argument is the value the receiver held before the call. -/
def UnmarshalXMLAttr (t : XMLTVTime) (attr : xml.Attr) : XMLTVTime × Option Error :=
  if attr.Value = "" then (XMLTVTime.zero, none)
  else
    match time.Parse time.layoutAttr attr.Value.data with
    | none => (t, some (Error.parse "20060102150405 -0700" attr.Value))
    | some tt => ({ Time := tt }, none)

/-- Go `func (t *XMLTVTime) MarshalXML(e *xml.Encoder, start xml.StartElement) error`. -/
def MarshalXML {ε : Type} (t : Option XMLTVTime)
    (EncodeElement : xml.ElemValue → xml.StartElement → ε) (start : xml.StartElement) : ε :=
  match t with
  | none => EncodeElement xml.ElemValue.nil start
  | some t =>
    if t.Time.IsZero then EncodeElement (xml.ElemValue.text "") start
    else EncodeElement (xml.ElemValue.text (t.Time.Format time.layoutElem)) start

/-- Go `func (t *XMLTVTime) UnmarshalXML(d *xml.Decoder, start xml.StartElement) error`;
`decoded` is the outcome of `d.DecodeElement(&v, &start)`. -/
def UnmarshalXML (t : XMLTVTime) (decoded : Except Error String) (_start : xml.StartElement) :
    XMLTVTime × Option Error :=
  match decoded with
  | .error err => (t, some err)
  | .ok v =>
    if v = "" then (XMLTVTime.zero, none)
    else
      match time.Parse time.layoutElem v.data with
      | none => (t, some (Error.parse "20060102" v))
      | some tt => ({ Time := tt }, none)

end XMLTVTime

/-! ## The textual grammars of the specification

The shapes of text the specification names, as recognisers over the characters
of a text; they read no calendar table and call no function of `time`. -/

/-- An ASCII digit, `0` to `9`. -/
def isAsciiDigit (c : Char) : Bool := decide ('0' ≤ c) && decide (c ≤ '9')

/-- The number an ASCII digit stands for. -/
def digitValue (c : Char) : Nat := c.toNat - 48

/-- Take exactly `n` ASCII digits off the front of a text; `none` when fewer
are there. -/
def stripDigits : Nat → List Char → Option (List Char)
  | 0, s => some s
  | _ + 1, [] => none
  | n + 1, c :: s => if isAsciiDigit c then stripDigits n s else none

/-- A sign and four ASCII digits, and nothing after them. -/
def isOffsetText (s : List Char) : Bool :=
  match s with
  | sign :: tz => (sign == '+' || sign == '-') && stripDigits 4 tz == some []
  | [] => false

/-- The full timestamp grammar as the claim words it: exactly 14 ASCII digits,
one space, a sign and 4 ASCII digits. -/
def strictTimestampGrammar (s : List Char) : Bool :=
  match stripDigits 14 s with
  | some (' ' :: rest) => isOffsetText rest
  | _ => false

/-- Take a fractional second off the front of a text: a period or a comma
followed by one or more ASCII digits; a text that does not start with one is
left as it is. -/
def dropFraction (s : List Char) : List Char :=
  match s with
  | p :: d :: ds =>
    if (p == '.' || p == ',') && isAsciiDigit d then ds.dropWhile isAsciiDigit else s
  | _ => s

/-- The full timestamp grammar with what the decoder tolerates: 14 ASCII digits,
then optionally a fractional second (a period or a comma and one or more
digits), then one or more spaces, then a sign and 4 ASCII digits. -/
def timestampGrammar (s : List Char) : Bool :=
  match stripDigits 14 s with
  | none => false
  | some rest =>
    match dropFraction rest with
    | ' ' :: rest => isOffsetText (rest.dropWhile (fun c => c == ' '))
    | _ => false

/-- The leap years of the Gregorian calendar. -/
def isLeapYear (y : Nat) : Bool := y % 4 == 0 && (y % 100 != 0 || y % 400 == 0)

/-- The number of days of month `m` (1 to 12) in year `y`; 0 for no month. -/
def daysOfMonth (y m : Nat) : Nat :=
  match m with
  | 1 => 31
  | 2 => if isLeapYear y then 29 else 28
  | 3 => 31
  | 4 => 30
  | 5 => 31
  | 6 => 30
  | 7 => 31
  | 8 => 31
  | 9 => 30
  | 10 => 31
  | 11 => 30
  | 12 => 31
  | _ => 0

/-- The date-only grammar: exactly 8 ASCII digits `YYYYMMDD` with the month in
01..12 and the day in 01..(days of that month in that year). -/
def dateGrammar (s : List Char) : Bool :=
  match s with
  | [y1, y2, y3, y4, m1, m2, d1, d2] =>
    let y := digitValue y1 * 1000 + digitValue y2 * 100 + digitValue y3 * 10 + digitValue y4
    let m := digitValue m1 * 10 + digitValue m2
    let d := digitValue d1 * 10 + digitValue d2
    [y1, y2, y3, y4, m1, m2, d1, d2].all isAsciiDigit &&
      decide (1 ≤ m) && decide (m ≤ 12) && decide (1 ≤ d) && decide (d ≤ daysOfMonth y m)
  | _ => false

/-- The number a run of ASCII digits writes in decimal. -/
def decimalValue (cs : List Char) : Nat := cs.foldl (fun n c => n * 10 + digitValue c) 0

/-- The number written by the `len` characters of a text that start at
position `i` (counted from 0). -/
def fieldValue (s : List Char) (i len : Nat) : Nat := decimalValue ((s.drop i).take len)

/-! ## `xmltv.go`: the field `IsNew` of `Programme`

`Programme` declares ``IsNew types.XMLTVBool `xml:"new,omitempty"` ``: a field of
kind bool, not a pointer, of a type whose `MarshalXML` and `UnmarshalXML` have a
pointer receiver.  The functions below follow `encoding/xml` on this one field:
`(*printer).marshalValue` as `marshalStruct` calls it for the field, and
`(*Decoder).unmarshal` with `unmarshalPath` on the child elements of a
`programme` element. -/

namespace xml

/-- Go `isEmptyValue` of `encoding/xml` on a value of kind bool. -/
def isEmptyValue (v : Bool) : Bool := !v

/-- Go `strconv.FormatBool`: the text `marshalSimple` gives a value of kind bool. -/
def FormatBool (b : Bool) : String := if b then "true" else "false"

end xml

namespace Programme

/-- Go `defaultStart` for the field: the element is named by the tag, which
gives no namespace, and has no attributes. -/
def startIsNew : xml.StartElement := { Name := { Space := "", Local := "new" }, Attr := [] }

/-- Go `(*printer).marshalValue` on the field `IsNew`, as `marshalStruct` calls
it; `none` when no element is written.  `CanAddr` is `val.CanAddr()` of the
field: true when the `Programme` is reached through a pointer or is an element
of a slice such as `TV.Programmes`, false when it is marshalled by value.
The steps are those of `marshalValue`: a field tagged `omitempty` is left out
when `isEmptyValue`; the type `XMLTVBool` itself has no method, so it is no
`Marshaler`; `*XMLTVBool` is one, and is used when the value is addressable;
neither has `MarshalText`; what is left is the element with the text of
`marshalSimple`, the element `EncodeElement` writes for that text. -/
def marshalIsNew {ε : Type} (CanAddr : Bool) (IsNew : XMLTVBool)
    (EncodeElement : xml.ElemValue → xml.StartElement → ε) : Option ε :=
  if xml.isEmptyValue IsNew then none
  else if CanAddr then some (XMLTVBool.MarshalXML (some IsNew) EncodeElement startIsNew)
  else some (EncodeElement (xml.ElemValue.text (xml.FormatBool IsNew)) startIsNew)

/-- The `new` elements a marshalled `Programme` holds, each with its start
element and its text: the encoder writes an element for a text and nothing for
the nil marker. -/
def newElements (CanAddr : Bool) (IsNew : XMLTVBool) : List (xml.StartElement × String) :=
  match marshalIsNew CanAddr IsNew (fun v start => (v, start)) with
  | some (xml.ElemValue.text t, start) => [(start, t)]
  | _ => []

/-- Go `(*Decoder).unmarshal` into a `Programme`, as far as the field `IsNew`
goes.  `IsNew` is what the field holds before (false in a new `Programme`),
`children` are the child elements of the `programme` element in document order,
each with its start element and its character data.  `unmarshalPath` matches a
child to the field when its local name is the name in the tag (the tag gives no
namespace, so every namespace matches) and hands it to `UnmarshalXML` of the
field, which is addressable; the other children go to other fields or are
skipped.  The first error ends the decoding. -/
def unmarshalIsNew (IsNew : XMLTVBool) (children : List (xml.StartElement × String)) :
    XMLTVBool × Option Error :=
  children.foldl
    (fun acc child =>
      match acc with
      | (b, some err) => (b, some err)
      | (b, none) =>
        if child.1.Name.Local = "new" then XMLTVBool.UnmarshalXML b (.ok child.2) child.1
        else (b, none))
    (IsNew, none)

end Programme

/-! ## Lemmas on the calendar arithmetic of `time` -/

namespace time

theorem secondsPerDay_eq : secondsPerDay = 86400 := by decide
theorem daysPer400Years_eq : daysPer400Years = 146097 := by decide
theorem daysPer100Years_eq : daysPer100Years = 36524 := by decide
theorem daysPer4Years_eq : daysPer4Years = 1461 := by decide

/-- The cycle counts `absYear` cuts off a day number, and what is left. -/
theorem cycles_bounds (d q c n100 e f n : Int)
    (hq : q = d / 146097)
    (hc : c = (d - 146097 * q) / 36524)
    (hn100 : n100 = c - c / 4)
    (he : e = (d - 146097 * q - 36524 * n100) / 1461)
    (hf : f = (d - 146097 * q - 36524 * n100 - 1461 * e) / 365)
    (hn : n = f - f / 4) :
    0 ≤ n100 ∧ n100 ≤ 3 ∧ 0 ≤ e ∧ e ≤ 24 ∧ 0 ≤ n ∧ n ≤ 3 ∧
    0 ≤ d - 146097 * q - 36524 * n100 - 1461 * e - 365 * n ∧
    d - 146097 * q - 36524 * n100 - 1461 * e - 365 * n ≤ 365 ∧
    (d - 146097 * q - 36524 * n100 - 1461 * e - 365 * n = 365 → n = 3 ∧ (e < 24 ∨ n100 = 3)) := by
  have hc4 : c = 0 ∨ c = 1 ∨ c = 2 ∨ c = 3 ∨ c = 4 := by omega
  have hn100b : 0 ≤ n100 ∧ n100 ≤ 3 := by omega
  have hr2 : 0 ≤ d - 146097 * q - 36524 * n100 ∧ d - 146097 * q - 36524 * n100 ≤ 36524 ∧
      (n100 < 3 → d - 146097 * q - 36524 * n100 < 36524) := by
    rcases hc4 with h | h | h | h | h <;> subst h <;> omega
  have heb : 0 ≤ e ∧ e ≤ 24 ∧ (n100 < 3 → e = 24 →
      d - 146097 * q - 36524 * n100 - 1461 * e < 1460) := by omega
  have hf4 : f = 0 ∨ f = 1 ∨ f = 2 ∨ f = 3 ∨ f = 4 := by omega
  have hnb : 0 ≤ n ∧ n ≤ 3 := by omega
  refine ⟨hn100b.1, hn100b.2, heb.1, heb.2.1, hnb.1, hnb.2, ?_, ?_, ?_⟩ <;>
    rcases hf4 with h | h | h | h | h <;> subst h <;> omega

theorem daysSinceEpoch_cycles (q n100 e n : Int) (h1 : 0 ≤ n100) (h2 : n100 ≤ 3)
    (h3 : 0 ≤ e) (h4 : e ≤ 24) (h5 : 0 ≤ n) (h6 : n ≤ 3) :
    daysSinceEpoch (400 * q + 100 * n100 + 4 * e + n + 1) =
      146097 * q + 36524 * n100 + 1461 * e + 365 * n := by
  simp only [daysSinceEpoch, daysPer400Years_eq, daysPer100Years_eq, daysPer4Years_eq]
  omega

theorem isLeap_cycles (q n100 e n : Int) (h1 : 0 ≤ n100) (h2 : n100 ≤ 3)
    (h3 : 0 ≤ e) (h4 : e ≤ 24) (h5 : 0 ≤ n) (h6 : n ≤ 3) :
    isLeap (400 * q + 100 * n100 + 4 * e + n + 1) = true ↔ (n = 3 ∧ (e < 24 ∨ n100 = 3)) := by
  simp only [isLeap, Bool.and_eq_true, Bool.or_eq_true, beq_iff_eq, bne_iff_ne, ne_eq]
  omega

theorem absYear_cycles (abs : Int) :
    ∃ q n100 e n yd : Int, absYear abs = (400 * q + 100 * n100 + 4 * e + n + 1, yd) ∧
      0 ≤ n100 ∧ n100 ≤ 3 ∧ 0 ≤ e ∧ e ≤ 24 ∧ 0 ≤ n ∧ n ≤ 3 ∧ 0 ≤ yd ∧ yd ≤ 365 ∧
      (yd = 365 → n = 3 ∧ (e < 24 ∨ n100 = 3)) ∧
      146097 * q + 36524 * n100 + 1461 * e + 365 * n + yd = abs / 86400 := by
  obtain ⟨q, hq⟩ : ∃ q, q = abs / 86400 / 146097 := ⟨_, rfl⟩
  obtain ⟨c, hc⟩ : ∃ c, c = (abs / 86400 - 146097 * q) / 36524 := ⟨_, rfl⟩
  obtain ⟨n100, hn100⟩ : ∃ n100, n100 = c - c / 4 := ⟨_, rfl⟩
  obtain ⟨e, he⟩ : ∃ e, e = (abs / 86400 - 146097 * q - 36524 * n100) / 1461 := ⟨_, rfl⟩
  obtain ⟨f, hf⟩ : ∃ f, f = (abs / 86400 - 146097 * q - 36524 * n100 - 1461 * e) / 365 :=
    ⟨_, rfl⟩
  obtain ⟨n, hn⟩ : ∃ n, n = f - f / 4 := ⟨_, rfl⟩
  obtain ⟨h1, h2, h3, h4, h5, h6, h7, h8, h9⟩ :=
    cycles_bounds (abs / 86400) q c n100 e f n hq hc hn100 he hf hn
  refine ⟨q, n100, e, n, abs / 86400 - 146097 * q - 36524 * n100 - 1461 * e - 365 * n,
    ?_, h1, h2, h3, h4, h5, h6, h7, h8, h9, ?_⟩
  · simp only [absYear, secondsPerDay_eq, daysPer400Years_eq, daysPer100Years_eq,
      daysPer4Years_eq]
    subst hq hc hn100 he hf hn
    rfl
  · omega

theorem absYear_days (abs : Int) :
    daysSinceEpoch (absYear abs).1 + (absYear abs).2 = abs / 86400 := by
  obtain ⟨q, n100, e, n, yd, h, h1, h2, h3, h4, h5, h6, _, _, _, hd⟩ := absYear_cycles abs
  rw [h]
  simp only
  rw [daysSinceEpoch_cycles q n100 e n h1 h2 h3 h4 h5 h6]
  exact hd

theorem absYear_yday (abs : Int) :
    0 ≤ (absYear abs).2 ∧
      (absYear abs).2 < (if isLeap (absYear abs).1 = true then 366 else 365) := by
  obtain ⟨q, n100, e, n, yd, h, h1, h2, h3, h4, h5, h6, h7, h8, h9, _⟩ := absYear_cycles abs
  rw [h]
  simp only
  refine ⟨h7, ?_⟩
  by_cases hl : isLeap (400 * q + 100 * n100 + 4 * e + n + 1) = true
  · rw [if_pos hl]; omega
  · rw [if_neg hl]
    have := (isLeap_cycles q n100 e n h1 h2 h3 h4 h5 h6).not.mp hl
    omega

theorem daysBefore_vals :
    daysBefore 0 = 0 ∧ daysBefore 1 = 31 ∧ daysBefore 2 = 59 ∧ daysBefore 3 = 90 ∧
    daysBefore 4 = 120 ∧ daysBefore 5 = 151 ∧ daysBefore 6 = 181 ∧ daysBefore 7 = 212 ∧
    daysBefore 8 = 243 ∧ daysBefore 9 = 273 ∧ daysBefore 10 = 304 ∧ daysBefore 11 = 334 ∧
    daysBefore 12 = 365 := by decide

theorem absDate_eq (abs : Int) :
    absDate abs = ((absYear abs).1, (monthDay (isLeap (absYear abs).1) (absYear abs).2).1,
      (monthDay (isLeap (absYear abs).1) (absYear abs).2).2, (absYear abs).2) := rfl

theorem monthDay_spec (leap : Bool) (yd : Int) (h0 : 0 ≤ yd)
    (h1 : yd < if leap = true then 366 else 365) :
    1 ≤ (monthDay leap yd).1 ∧ (monthDay leap yd).1 ≤ 12 ∧ 1 ≤ (monthDay leap yd).2 ∧
    (monthDay leap yd).2 ≤
      (if (monthDay leap yd).1 = 2 ∧ leap = true then 29
       else daysBefore (monthDay leap yd).1 - daysBefore ((monthDay leap yd).1 - 1)) ∧
    daysBefore ((monthDay leap yd).1 - 1) +
      (if leap = true ∧ (monthDay leap yd).1 ≥ 3 then 1 else 0) + ((monthDay leap yd).2 - 1) = yd := by
  obtain ⟨d0, d1, d2, d3, d4, d5, d6, d7, d8, d9, d10, d11, d12⟩ := daysBefore_vals
  cases leap
  · simp only [Bool.false_eq_true, false_and, if_false] at h1 ⊢
    simp only [monthDay, Bool.false_eq_true, false_and, if_false]
    have hk : yd / 31 = 0 ∨ yd / 31 = 1 ∨ yd / 31 = 2 ∨ yd / 31 = 3 ∨ yd / 31 = 4 ∨
        yd / 31 = 5 ∨ yd / 31 = 6 ∨ yd / 31 = 7 ∨ yd / 31 = 8 ∨ yd / 31 = 9 ∨
        yd / 31 = 10 ∨ yd / 31 = 11 := by omega
    rcases hk with h | h | h | h | h | h | h | h | h | h | h | h <;>
      rw [h] <;> norm_num [d0, d1, d2, d3, d4, d5, d6, d7, d8, d9, d10, d11, d12] <;>
      split <;> norm_num [d0, d1, d2, d3, d4, d5, d6, d7, d8, d9, d10, d11, d12] <;> omega
  · simp only [if_true, true_and] at h1 ⊢
    simp only [monthDay, true_and]
    by_cases h59 : yd = 31 + 29 - 1
    · rw [if_pos h59]
      norm_num [d1]
      omega
    · rw [if_neg h59]
      by_cases hgt : yd > 31 + 29 - 1
      · rw [if_pos hgt]
        have hk : (yd - 1) / 31 = 1 ∨ (yd - 1) / 31 = 2 ∨ (yd - 1) / 31 = 3 ∨
            (yd - 1) / 31 = 4 ∨ (yd - 1) / 31 = 5 ∨ (yd - 1) / 31 = 6 ∨ (yd - 1) / 31 = 7 ∨
            (yd - 1) / 31 = 8 ∨ (yd - 1) / 31 = 9 ∨ (yd - 1) / 31 = 10 ∨
            (yd - 1) / 31 = 11 := by omega
        rcases hk with h | h | h | h | h | h | h | h | h | h | h <;>
          rw [h] <;> norm_num [d0, d1, d2, d3, d4, d5, d6, d7, d8, d9, d10, d11, d12] <;>
          split <;> norm_num [d0, d1, d2, d3, d4, d5, d6, d7, d8, d9, d10, d11, d12] <;> omega
      · rw [if_neg hgt]
        have hk : yd / 31 = 0 ∨ yd / 31 = 1 := by omega
        rcases hk with h | h <;>
          rw [h] <;> norm_num [d0, d1, d2, d3, d4, d5, d6, d7, d8, d9, d10, d11, d12] <;>
          split <;> norm_num [d0, d1, d2, d3, d4, d5, d6, d7, d8, d9, d10, d11, d12] <;> omega

theorem norm_id (hi lo base : Int) (h0 : 0 ≤ lo) (h1 : lo < base) :
    norm hi lo base = (hi, lo) := by
  unfold norm
  rw [if_neg (by omega)]
  simp only
  rw [if_neg (by omega)]

theorem Date_valid (year month day hour min sec nsec : Int)
    (hm : 1 ≤ month ∧ month ≤ 12) (hh : 0 ≤ hour ∧ hour < 24) (hmi : 0 ≤ min ∧ min < 60)
    (hs : 0 ≤ sec ∧ sec < 60) (hn : 0 ≤ nsec ∧ nsec < 1000000000) :
    Date year month day hour min sec nsec =
      { sec := (daysSinceEpoch year + daysBefore (month - 1) +
            (if isLeap year = true ∧ month ≥ 3 then 1 else 0) + (day - 1)) * 86400 +
            (hour * 3600 + min * 60 + sec),
        nsec := nsec, offset := 0 } := by
  have e1 := norm_id year (month - 1) 12 (by omega) (by omega)
  have e2 := norm_id sec nsec 1000000000 hn.1 hn.2
  have e3 := norm_id min sec 60 hs.1 hs.2
  have e4 := norm_id hour min 60 hmi.1 hmi.2
  have e5 := norm_id day hour 24 hh.1 hh.2
  unfold Date
  simp only [e1]
  simp only [e2]
  simp only [e3, e4, e5]
  have e6 : month - 1 + 1 = month := by omega
  simp only [e6, secondsPerDay, secondsPerHour, secondsPerMinute]
  congr 1
  split <;> omega

theorem absClock_spec (abs : Int) :
    0 ≤ (absClock abs).1 ∧ (absClock abs).1 < 24 ∧ 0 ≤ (absClock abs).2.1 ∧
    (absClock abs).2.1 < 60 ∧ 0 ≤ (absClock abs).2.2 ∧ (absClock abs).2.2 < 60 ∧
    (absClock abs).1 * 3600 + (absClock abs).2.1 * 60 + (absClock abs).2.2 = abs % 86400 := by
  simp only [absClock, secondsPerDay, secondsPerHour, secondsPerMinute]
  omega

theorem absDate_spec (abs : Int) :
    1 ≤ (absDate abs).2.1 ∧ (absDate abs).2.1 ≤ 12 ∧ 1 ≤ (absDate abs).2.2.1 ∧
    (absDate abs).2.2.1 ≤ daysIn (absDate abs).2.1 (absDate abs).1 ∧
    daysSinceEpoch (absDate abs).1 + daysBefore ((absDate abs).2.1 - 1) +
      (if isLeap (absDate abs).1 = true ∧ (absDate abs).2.1 ≥ 3 then 1 else 0) +
      ((absDate abs).2.2.1 - 1) = abs / 86400 := by
  have hy := absYear_yday abs
  have hd := absYear_days abs
  have hm := monthDay_spec (isLeap (absYear abs).1) (absYear abs).2 hy.1 hy.2
  rw [absDate_eq]
  simp only [daysIn]
  obtain ⟨m1, m2, m3, m4, m5⟩ := hm
  refine ⟨m1, m2, m3, m4, ?_⟩
  omega

theorem Date_absDate (abs nsec : Int) (h0 : 0 ≤ nsec) (h1 : nsec < 1000000000) :
    Date (absDate abs).1 (absDate abs).2.1 (absDate abs).2.2.1 (absClock abs).1
      (absClock abs).2.1 (absClock abs).2.2 nsec = { sec := abs, nsec := nsec, offset := 0 } := by
  obtain ⟨m1, m2, m3, _, m5⟩ := absDate_spec abs
  obtain ⟨c1, c2, c3, c4, c5, c6, c7⟩ := absClock_spec abs
  rw [Date_valid _ _ _ _ _ _ _ ⟨m1, m2⟩ ⟨c1, c2⟩ ⟨c3, c4⟩ ⟨c5, c6⟩ ⟨h0, h1⟩, m5]
  congr 1
  omega

theorem digit_facts (d : Nat) (h : d < 10) :
    (digit d).toNat = d + 48 ∧ ¬ (digit d < '0') ∧ ¬ (digit d > '9') ∧ '0' ≤ digit d ∧
    digit d ≤ '9' ∧ digit d ≠ '-' ∧ digit d ≠ '+' ∧ digit d ≠ ' ' ∧ digit d ≠ '.' ∧
    digit d ≠ ',' := by
  interval_cases d <;> decide

theorem decimal_two (n : Nat) : decimal 2 n = [digit (n / 10 % 10), digit (n % 10)] := by
  simp [decimal]

theorem decimal_four (n : Nat) :
    decimal 4 n = [digit (n / 10 / 10 / 10 % 10), digit (n / 10 / 10 % 10), digit (n / 10 % 10), digit (n % 10)] := by
  simp [decimal]

theorem appendInt_two (b : List Char) (x : Int) (h0 : 0 ≤ x) (h1 : x < 100) :
    appendInt b x 2 = b ++ decimal 2 x.toNat := by
  have hu : x.natAbs = x.toNat := by omega
  have hlt : x.toNat < 100 := by omega
  have hneg : ¬ x < 0 := by omega
  have e1 : x.toNat / 10 % 10 = x.toNat / 10 := by omega
  simp only [appendInt, hu, if_neg hneg, decimal_two, e1, hlt, and_self, if_true]

theorem appendInt_four (b : List Char) (x : Int) (h0 : 0 ≤ x) (h1 : x < 10000) :
    appendInt b x 4 = b ++ decimal 4 x.toNat := by
  have hu : x.natAbs = x.toNat := by omega
  have hlt : x.toNat < 10000 := by omega
  have hneg : ¬ x < 0 := by omega
  have e1 : x.toNat / 10 / 10 / 10 % 10 = x.toNat / 100 / 10 := by omega
  have e2 : x.toNat / 10 / 10 % 10 = x.toNat / 100 % 10 := by omega
  have e3 : x.toNat / 10 % 10 = x.toNat % 100 / 10 := by omega
  have e4 : x.toNat % 10 = x.toNat % 100 % 10 := by omega
  have e5 : ¬ (4 = 2 ∧ x.toNat < 100) := by omega
  simp only [appendInt, hu, if_neg hneg, decimal_four, e1, e2, e3, if_neg e5, hlt, and_self,
    if_true]
  rw [← e4]

theorem tdiv_sixty (x : Int) :
    Int.tdiv x 60 = if 0 ≤ x then x / 60 else -((-x) / 60) := by
  by_cases h : 0 ≤ x
  · rw [if_pos h, Int.tdiv_eq_ediv h (by omega)]
  · rw [if_neg h]
    have h2 : x = -(-x) := by omega
    conv_lhs => rw [h2, Int.neg_tdiv, Int.tdiv_eq_ediv (by omega) (by omega)]

theorem tmod_sixty (x : Int) (h : 0 ≤ x) : Int.tmod x 60 = x % 60 :=
  Int.tmod_eq_emod h (by omega)

/-- The sign, the hours and the minutes the `-0700` element prints. -/
theorem appendStd_numTZ (b : List Char) (t : Time) (h0 : -360000 < t.offset)
    (h1 : t.offset < 360000) :
    appendStd b t .stdNumTZ =
      b ++ [if t.offset ≤ -60 then '-' else '+'] ++ decimal 2 (t.offset.natAbs / 3600) ++
        decimal 2 (t.offset.natAbs / 60 % 60) := by
  simp only [appendStd]
  rw [tdiv_sixty t.offset]
  by_cases hneg : t.offset ≤ -60
  · have e1 : ¬ (0 ≤ t.offset) := by omega
    have e2 : -(-t.offset / 60) < 0 := by omega
    simp only [if_neg e1, if_pos e2, if_pos hneg, neg_neg]
    rw [tdiv_sixty, if_pos (by omega), tmod_sixty _ (by omega),
      appendInt_two _ _ (by omega) (by omega), appendInt_two _ _ (by omega) (by omega)]
    congr 3 <;> omega
  · by_cases hpos : 0 ≤ t.offset
    · have e2 : ¬ (t.offset / 60 < 0) := by omega
      simp only [if_pos hpos, if_neg e2, if_neg hneg]
      rw [tdiv_sixty, if_pos (by omega), tmod_sixty _ (by omega),
        appendInt_two _ _ (by omega) (by omega), appendInt_two _ _ (by omega) (by omega)]
      congr 3 <;> omega
    · have e2 : ¬ (-(-t.offset / 60) < 0) := by omega
      simp only [if_neg hpos, if_neg e2, if_neg hneg]
      rw [tdiv_sixty, if_pos (by omega), tmod_sixty _ (by omega),
        appendInt_two _ _ (by omega) (by omega), appendInt_two _ _ (by omega) (by omega)]
      congr 3 <;> omega

theorem isDigit_zero_digit (d : Nat) (h : d < 10) (rest : List Char) :
    isDigit (digit d :: rest) 0 = true := by
  obtain ⟨_, _, _, h3, h4, _⟩ := digit_facts d h
  simp [isDigit, h3, h4]

theorem isDigit_one_digit (c : Char) (d : Nat) (h : d < 10) (rest : List Char) :
    isDigit (c :: digit d :: rest) 1 = true := by
  obtain ⟨_, _, _, h3, h4, _⟩ := digit_facts d h
  simp [isDigit, h3, h4]

theorem getnum_digits (a b : Nat) (ha : a < 10) (hb : b < 10) (rest : List Char)
    (fixed : Bool) :
    getnum (digit a :: digit b :: rest) fixed = some (((a * 10 + b : Nat) : Int), rest) := by
  simp only [getnum, isDigit_zero_digit a ha, isDigit_one_digit _ b hb, (digit_facts a ha).1,
    (digit_facts b hb).1]
  simp

theorem getnum_decimal (n : Nat) (h : n < 100) (rest : List Char) (fixed : Bool) :
    getnum (decimal 2 n ++ rest) fixed = some ((n : Int), rest) := by
  rw [decimal_two]
  simp only [List.cons_append, List.nil_append]
  rw [getnum_digits _ _ (by omega) (by omega)]
  congr 3
  omega

theorem leadingInt_digit (x d : Nat) (hd : d < 10) (hx : x < 100000) (cs : List Char) :
    leadingInt x (digit d :: cs) = leadingInt (x * 10 + d) cs := by
  obtain ⟨h0, h1, h2, _⟩ := digit_facts d hd
  have e1 : ¬ (digit d < '0' ∨ digit d > '9') := by
    intro h; cases h <;> contradiction
  have e2 : ¬ (x > 2 ^ 63 / 10) := by norm_num; omega
  have e3 : ¬ (x * 10 + d > 2 ^ 63) := by norm_num; omega
  rw [leadingInt, if_neg e1, if_neg e2]
  simp only [h0, Nat.add_sub_cancel, if_neg e3]

theorem atoi_decimal (n : Nat) (h : n < 10000) : atoi (decimal 4 n) = some (n : Int) := by
  rw [decimal_four]
  obtain ⟨_, _, _, _, _, h5, h6, _⟩ := digit_facts (n / 10 / 10 / 10 % 10) (by omega)
  have e : ¬ (digit (n / 10 / 10 / 10 % 10) = '-' ∨ digit (n / 10 / 10 / 10 % 10) = '+') := by
    intro h; cases h <;> contradiction
  simp only [atoi, if_neg e]
  rw [leadingInt_digit _ _ (by omega) (by omega), leadingInt_digit _ _ (by omega) (by omega),
    leadingInt_digit _ _ (by omega) (by omega), leadingInt_digit _ _ (by omega) (by omega)]
  simp only [leadingInt, ne_eq, not_true_eq_false, if_false, Bool.false_eq_true]
  congr 2
  omega

theorem parseStd_year (n : Nat) (h : n < 10000) (rest : List Char) (f : Fields) :
    parseStd .stdLongYear (decimal 4 n ++ rest) f = some ({ f with year := (n : Int) }, rest) := by
  have ha := atoi_decimal n h
  rw [decimal_four] at ha ⊢
  simp only [parseStd, List.cons_append, List.nil_append, List.length_cons, List.take_succ_cons,
    List.take_zero, List.drop_succ_cons, List.drop_zero, ha,
    isDigit_zero_digit _ (show n / 10 / 10 / 10 % 10 < 10 by omega)]
  simp

theorem parseStd_month (n : Nat) (h0 : 1 ≤ n) (h1 : n ≤ 12) (rest : List Char) (f : Fields) :
    parseStd .stdZeroMonth (decimal 2 n ++ rest) f = some ({ f with month := (n : Int) }, rest) := by
  simp only [parseStd, getnum_decimal n (by omega)]
  rw [if_neg (by omega)]

theorem parseStd_day (n : Nat) (h : n < 100) (rest : List Char) (f : Fields) :
    parseStd .stdZeroDay (decimal 2 n ++ rest) f = some ({ f with day := (n : Int) }, rest) := by
  simp only [parseStd, getnum_decimal n h]

theorem parseStd_hour (n : Nat) (h : n < 24) (rest : List Char) (f : Fields) :
    parseStd .stdHour (decimal 2 n ++ rest) f = some ({ f with hour := (n : Int) }, rest) := by
  simp only [parseStd, getnum_decimal n (by omega)]
  rw [if_neg (by omega)]

theorem parseStd_minute (n : Nat) (h : n < 60) (rest : List Char) (f : Fields) :
    parseStd .stdZeroMinute (decimal 2 n ++ rest) f = some ({ f with min := (n : Int) }, rest) := by
  simp only [parseStd, getnum_decimal n (by omega)]
  rw [if_neg (by omega)]

/-- Seconds followed by the space of the layout: no fractional second is read. -/
theorem parseStd_second (n : Nat) (h : n < 60) (rest : List Char) (f : Fields) :
    parseStd .stdZeroSecond (decimal 2 n ++ ' ' :: rest) f =
      some ({ f with sec := (n : Int) }, ' ' :: rest) := by
  simp only [parseStd, getnum_decimal n (by omega)]
  rw [if_neg (by omega)]
  cases rest <;> simp [commaOrPeriod]

theorem parseStd_numTZ (sign : Char) (hh mm : Nat) (h0 : hh ≤ 24) (h1 : mm ≤ 60)
    (hs : sign = '+' ∨ sign = '-') (f : Fields) :
    parseStd .stdNumTZ (sign :: (decimal 2 hh ++ decimal 2 mm)) f =
      some ({ f with zoneOffset :=
        if sign = '-' then -(((hh : Int) * 60 + mm) * 60) else ((hh : Int) * 60 + mm) * 60 }, []) := by
  have g1 := getnum_decimal hh (by omega) [] true
  have g2 := getnum_decimal mm (by omega) [] true
  rw [decimal_two] at g1 g2 ⊢
  rw [decimal_two]
  simp only [List.cons_append, List.nil_append] at g1 g2
  simp only [parseStd, List.cons_append, List.nil_append, List.length_cons, List.length_nil,
    List.take_succ_cons, List.take_zero, List.drop_succ_cons, List.drop_zero, g1, g2]
  rcases hs with h | h <;> subst h <;> simp <;> omega

theorem skip_nil (value : List Char) : skip value [] = some value := by
  simp [skip, skipLoop]

theorem skip_space (c : Char) (rest : List Char) (hc : c ≠ ' ') :
    skip (' ' :: c :: rest) [' '] = some (c :: rest) := by
  simp [skip, skipLoop, cutspace, hc]

/-- The text of the full timestamp grammar for given field values. -/
theorem parseLoop_layoutAttr (y mo d h mi s hh mm : Nat) (sign : Char) (hy : y < 10000)
    (hmo : 1 ≤ mo ∧ mo ≤ 12) (hd : d < 100) (hh24 : h < 24) (hmi : mi < 60) (hs : s < 60)
    (hhh : hh ≤ 24) (hmm : mm ≤ 60) (hsign : sign = '+' ∨ sign = '-') :
    parseLoop layoutAttr
      (decimal 4 y ++ (decimal 2 mo ++ (decimal 2 d ++ (decimal 2 h ++ (decimal 2 mi ++
        (decimal 2 s ++ ' ' :: sign :: (decimal 2 hh ++ decimal 2 mm)))))))
      Fields.init =
    some { year := y, month := mo, day := d, hour := h, min := mi, sec := s, nsec := 0,
           zoneOffset := if sign = '-' then -(((hh : Int) * 60 + mm) * 60)
                         else ((hh : Int) * 60 + mm) * 60 } := by
  have hsp : sign ≠ ' ' := by rcases hsign with h | h <;> subst h <;> decide
  simp only [layoutAttr, parseLoop, skip_nil, parseStd_year y hy, parseStd_month mo hmo.1 hmo.2,
    parseStd_day d hd, parseStd_hour h hh24, parseStd_minute mi hmi, parseStd_second s hs,
    skip_space sign _ hsp, parseStd_numTZ sign hh mm hhh hmm hsign, Fields.init]
  simp

theorem parseLoop_layoutElem (y mo d : Nat) (hy : y < 10000)
    (hmo : 1 ≤ mo ∧ mo ≤ 12) (hd : d < 100) :
    parseLoop layoutElem (decimal 4 y ++ (decimal 2 mo ++ (decimal 2 d ++ []))) Fields.init =
    some { year := y, month := mo, day := d, hour := 0, min := 0, sec := 0, nsec := 0,
           zoneOffset := -1 } := by
  simp only [layoutElem, parseLoop, skip_nil, parseStd_year y hy, parseStd_month mo hmo.1 hmo.2,
    parseStd_day d hd, Fields.init]
  simp

theorem daysIn_le (m y : Int) (h0 : 1 ≤ m) (h1 : m ≤ 12) : daysIn m y ≤ 31 := by
  obtain ⟨d0, d1, d2, d3, d4, d5, d6, d7, d8, d9, d10, d11, d12⟩ := daysBefore_vals
  have hm : m = 1 ∨ m = 2 ∨ m = 3 ∨ m = 4 ∨ m = 5 ∨ m = 6 ∨ m = 7 ∨ m = 8 ∨ m = 9 ∨ m = 10 ∨
      m = 11 ∨ m = 12 := by omega
  simp only [daysIn]
  rcases hm with h | h | h | h | h | h | h | h | h | h | h | h <;> subst h <;>
    split <;> norm_num [d0, d1, d2, d3, d4, d5, d6, d7, d8, d9, d10, d11, d12]

/-- The fields of a time are in the ranges of the calendar and the clock. -/
theorem Time.fields_bounds (t : Time) :
    1 ≤ t.Month ∧ t.Month ≤ 12 ∧ 1 ≤ t.Day ∧ t.Day ≤ 31 ∧ t.Day ≤ daysIn t.Month t.Year ∧
    0 ≤ t.Hour ∧ t.Hour < 24 ∧ 0 ≤ t.Minute ∧ t.Minute < 60 ∧ 0 ≤ t.Second ∧ t.Second < 60 := by
  obtain ⟨m1, m2, m3, m4, _⟩ := absDate_spec t.abs
  obtain ⟨c1, c2, c3, c4, c5, c6, _⟩ := absClock_spec t.abs
  have := daysIn_le _ (absDate t.abs).1 m1 m2
  simp only [Time.Year, Time.Month, Time.Day, Time.Hour, Time.Minute, Time.Second]
  exact ⟨m1, m2, m3, by omega, m4, c1, c2, c3, c4, c5, c6⟩

theorem appendFormat_layoutElem (t : Time) (h0 : 0 ≤ t.Year) (h1 : t.Year ≤ 9999) :
    appendFormat [] t layoutElem =
      decimal 4 t.Year.toNat ++ (decimal 2 t.Month.toNat ++ (decimal 2 t.Day.toNat ++ [])) := by
  obtain ⟨m1, m2, m3, m4, _⟩ := t.fields_bounds
  simp only [layoutElem, appendFormat, appendStd, List.append_nil]
  rw [appendInt_four _ _ h0 (by omega), appendInt_two _ _ (by omega) (by omega),
    appendInt_two _ _ (by omega) (by omega)]
  simp only [List.nil_append, List.append_assoc]

theorem appendFormat_layoutAttr (t : Time) (h0 : 0 ≤ t.Year) (h1 : t.Year ≤ 9999)
    (h2 : -360000 < t.offset) (h3 : t.offset < 360000) :
    appendFormat [] t layoutAttr =
      decimal 4 t.Year.toNat ++ (decimal 2 t.Month.toNat ++ (decimal 2 t.Day.toNat ++
        (decimal 2 t.Hour.toNat ++ (decimal 2 t.Minute.toNat ++ (decimal 2 t.Second.toNat ++
          ' ' :: (if t.offset ≤ -60 then '-' else '+') ::
            (decimal 2 (t.offset.natAbs / 3600) ++ decimal 2 (t.offset.natAbs / 60 % 60))))))) := by
  obtain ⟨m1, m2, m3, m4, _, c1, c2, c3, c4, c5, c6⟩ := t.fields_bounds
  simp only [layoutAttr, appendFormat, List.append_nil]
  rw [appendStd_numTZ _ t h2 h3]
  simp only [appendStd]
  rw [appendInt_four _ _ h0 (by omega), appendInt_two _ _ (by omega) (by omega),
    appendInt_two _ _ (by omega) (by omega), appendInt_two _ _ (by omega) (by omega),
    appendInt_two _ _ (by omega) (by omega), appendInt_two _ _ (by omega) (by omega)]
  simp only [List.nil_append, List.append_assoc, List.cons_append, List.singleton_append]



theorem zoneOffset_eq (off : Int) (h : off % 60 = 0) :
    (if (if off ≤ -60 then '-' else '+') = '-' then
        -((((off.natAbs / 3600 : Nat) : Int) * 60 + ((off.natAbs / 60 % 60 : Nat) : Int)) * 60)
      else (((off.natAbs / 3600 : Nat) : Int) * 60 + ((off.natAbs / 60 % 60 : Nat) : Int)) * 60)
      = off := by
  by_cases hneg : off ≤ -60
  · simp only [if_pos hneg, if_true]
    omega
  · simp only [if_neg hneg]
    rw [if_neg (by decide)]
    omega

/-- Parsing what `Format` printed with the full timestamp layout gives the time
back. -/
theorem Parse_Format_layoutAttr (t : Time) (h0 : 0 ≤ t.Year) (h1 : t.Year ≤ 9999)
    (hn : t.nsec = 0) (hoff : t.offset % 60 = 0) (h2 : -89940 ≤ t.offset)
    (h3 : t.offset ≤ 89940) :
    Parse layoutAttr (appendFormat [] t layoutAttr) = some t := by
  obtain ⟨m1, m2, m3, m4, m5, c1, c2, c3, c4, c5, c6⟩ := t.fields_bounds
  rw [appendFormat_layoutAttr t h0 h1 (by omega) (by omega)]
  have hp := parseLoop_layoutAttr t.Year.toNat t.Month.toNat t.Day.toNat t.Hour.toNat
    t.Minute.toNat t.Second.toNat (t.offset.natAbs / 3600) (t.offset.natAbs / 60 % 60)
    (if t.offset ≤ -60 then '-' else '+') (by omega) (by omega) (by omega) (by omega)
    (by omega) (by omega) (by omega) (by omega) (by split <;> simp)
  rw [zoneOffset_eq t.offset hoff] at hp
  simp only [Int.toNat_of_nonneg h0, Int.toNat_of_nonneg (show 0 ≤ t.Month by omega),
    Int.toNat_of_nonneg (show 0 ≤ t.Day by omega), Int.toNat_of_nonneg c1,
    Int.toNat_of_nonneg c3, Int.toNat_of_nonneg c5] at hp
  have e1 : ¬ (t.Month < 0) := by omega
  have e2 : ¬ (t.Day < 0) := by omega
  have e3 : ¬ (t.Day < 1 ∨ t.Day > daysIn t.Month t.Year) := by omega
  have e4 : t.offset ≠ -1 := by omega
  simp only [Parse, hp, if_neg e1, if_neg e2]
  rw [if_neg e3, if_pos e4]
  have hD := Date_absDate t.abs 0 (by omega) (by omega)
  simp only [Time.Year, Time.Month, Time.Day, Time.Hour, Time.Minute, Time.Second]
  rw [hD]
  obtain ⟨sec, nsec, offset⟩ := t
  simp only [Time.abs] at *
  subst hn
  simp



/-- Parsing what `Format` printed with the date-only layout gives midnight UTC
of the day the time falls on in its own offset. -/
theorem Parse_Format_layoutElem (t : Time) (h0 : 0 ≤ t.Year) (h1 : t.Year ≤ 9999) :
    Parse layoutElem (appendFormat [] t layoutElem) =
      some { sec := t.abs / 86400 * 86400, nsec := 0, offset := 0 } := by
  obtain ⟨m1, m2, m3, m4, m5, _⟩ := t.fields_bounds
  rw [appendFormat_layoutElem t h0 h1]
  have hp := parseLoop_layoutElem t.Year.toNat t.Month.toNat t.Day.toNat (by omega) (by omega)
    (by omega)
  simp only [Int.toNat_of_nonneg h0, Int.toNat_of_nonneg (show 0 ≤ t.Month by omega),
    Int.toNat_of_nonneg (show 0 ≤ t.Day by omega)] at hp
  have e1 : ¬ (t.Month < 0) := by omega
  have e2 : ¬ (t.Day < 0) := by omega
  have e3 : ¬ (t.Day < 1 ∨ t.Day > daysIn t.Month t.Year) := by omega
  simp only [Parse, hp, if_neg e1, if_neg e2]
  rw [if_neg e3, if_neg (by decide)]
  rw [Date_valid _ _ _ _ _ _ _ ⟨m1, m2⟩ (by omega) (by omega) (by omega) (by omega)]
  have hd := (absDate_spec t.abs).2.2.2.2
  simp only [Time.Year, Time.Month, Time.Day] at *
  rw [hd]
  simp

theorem absDate_day_start (abs : Int) : absDate (abs / 86400 * 86400) = absDate abs := by
  have h : absYear (abs / 86400 * 86400) = absYear abs := by
    simp only [absYear, secondsPerDay_eq]
    rw [Int.mul_ediv_cancel _ (by omega)]
  rw [absDate_eq, absDate_eq, h]

theorem String_mk_cons_ne_empty (c : Char) (l : List Char) : String.mk (c :: l) ≠ "" := by
  intro h
  have := congrArg String.data h
  simp at this

theorem Format_layoutAttr_ne_empty (t : Time) (h0 : 0 ≤ t.Year) (h1 : t.Year ≤ 9999)
    (h2 : -360000 < t.offset) (h3 : t.offset < 360000) : t.Format layoutAttr ≠ "" := by
  rw [Time.Format, appendFormat_layoutAttr t h0 h1 h2 h3, decimal_four]
  exact String_mk_cons_ne_empty _ _

theorem Format_layoutElem_ne_empty (t : Time) (h0 : 0 ≤ t.Year) (h1 : t.Year ≤ 9999) :
    t.Format layoutElem ≠ "" := by
  rw [Time.Format, appendFormat_layoutElem t h0 h1, decimal_four]
  exact String_mk_cons_ne_empty _ _

theorem decimal_length (w n : Nat) : (decimal w n).length = w := by
  induction w generalizing n with
  | zero => rfl
  | succ w ih => simp [decimal, ih]


/-! ### What the layouts accept -/

theorem isAsciiDigit_iff (c : Char) : isAsciiDigit c = true ↔ 48 ≤ c.toNat ∧ c.toNat ≤ 57 := by
  simp only [isAsciiDigit, Bool.and_eq_true, decide_eq_true_eq, Char.le_def, UInt32.le_def,
    Char.toNat]
  exact Iff.rfl

theorem digit_digitValue (c : Char) (h : isAsciiDigit c = true) :
    digitValue c < 10 ∧ digit (digitValue c) = c := by
  obtain ⟨h0, h1⟩ := (isAsciiDigit_iff c).mp h
  refine ⟨by simp only [digitValue]; omega, ?_⟩
  simp only [digit, digitValue, Nat.sub_add_cancel h0, Char.ofNat_toNat]

theorem isAsciiDigit_digit (d : Nat) (h : d < 10) :
    isAsciiDigit (digit d) = true ∧ digitValue (digit d) = d := by
  interval_cases d <;> decide

theorem isDigit_zero (c : Char) (rest : List Char) :
    isDigit (c :: rest) 0 = isAsciiDigit c := rfl

theorem isDigit_succ (c : Char) (rest : List Char) (i : Nat) :
    isDigit (c :: rest) (i + 1) = isDigit rest i := rfl

theorem isDigit_nil (i : Nat) : isDigit [] i = false := rfl

theorem getnum_two (a b : Char) (rest : List Char) (fixed : Bool)
    (ha : isAsciiDigit a = true) (hb : isAsciiDigit b = true) :
    getnum (a :: b :: rest) fixed =
      some (((digitValue a * 10 + digitValue b : Nat) : Int), rest) := by
  simp only [getnum, isDigit_zero, isDigit_succ, ha, hb, digitValue]
  simp

theorem getnum_fixed_some (s rest : List Char) (n : Int) (h : getnum s true = some (n, rest)) :
    ∃ a b, s = a :: b :: rest ∧ isAsciiDigit a = true ∧ isAsciiDigit b = true ∧
      n = ((digitValue a * 10 + digitValue b : Nat) : Int) := by
  match s with
  | [] => simp [getnum, isDigit_nil] at h
  | [a] => 
    cases ha : isAsciiDigit a <;> simp [getnum, isDigit_zero, isDigit_succ, isDigit_nil, ha] at h
  | a :: b :: r =>
    cases ha : isAsciiDigit a
    · simp [getnum, isDigit_zero, ha] at h
    · cases hb : isAsciiDigit b
      · simp [getnum, isDigit_zero, isDigit_succ, ha, hb] at h
      · rw [getnum_two a b r true ha hb] at h
        simp only [Option.some.injEq, Prod.mk.injEq] at h
        exact ⟨a, b, by rw [h.2], ha, hb, h.1.symm⟩

theorem getnum_some (s rest : List Char) (n : Int) (h : getnum s false = some (n, rest)) :
    (∃ a b, s = a :: b :: rest ∧ isAsciiDigit a = true ∧ isAsciiDigit b = true ∧
      n = ((digitValue a * 10 + digitValue b : Nat) : Int)) ∨
    (∃ a, s = a :: rest ∧ isAsciiDigit a = true ∧ isDigit rest 0 = false ∧
      n = ((digitValue a : Nat) : Int)) := by
  match s with
  | [] => simp [getnum, isDigit_nil] at h
  | [a] =>
    cases ha : isAsciiDigit a
    · simp [getnum, isDigit_zero, ha] at h
    · simp only [getnum, isDigit_zero, isDigit_succ, isDigit_nil, ha, Bool.not_true,
        Bool.false_eq_true, if_false, Bool.not_false, if_true, Option.some.injEq,
        Prod.mk.injEq] at h
      exact Or.inr ⟨a, by rw [h.2], ha, by rw [← h.2]; rfl, by rw [← h.1]; rfl⟩
  | a :: b :: r =>
    cases ha : isAsciiDigit a
    · simp [getnum, isDigit_zero, ha] at h
    · cases hb : isAsciiDigit b
      · simp only [getnum, isDigit_zero, isDigit_succ, ha, hb, Bool.not_true,
          Bool.false_eq_true, if_false, Bool.not_false, if_true, Option.some.injEq,
          Prod.mk.injEq] at h
        exact Or.inr ⟨a, by rw [h.2], ha, by rw [← h.2]; exact hb, by rw [← h.1]; rfl⟩
      · rw [getnum_two a b r false ha hb] at h
        simp only [Option.some.injEq, Prod.mk.injEq] at h
        exact Or.inl ⟨a, b, by rw [h.2], ha, hb, h.1.symm⟩

theorem getnum_not_digit (c : Char) (rest : List Char) (fixed : Bool)
    (h : isAsciiDigit c = false) : getnum (c :: rest) fixed = none := by
  simp [getnum, isDigit_zero, h]

theorem not_digit_iff (c : Char) : (c < '0' ∨ c > '9') ↔ isAsciiDigit c = false := by
  rw [← Bool.not_eq_true, isAsciiDigit_iff]
  simp only [Char.lt_def, GT.gt, UInt32.lt_def]
  show (c.toNat < 48 ∨ 57 < c.toNat) ↔ _
  omega

theorem leadingInt_some_nil (s : List Char) (x q : Nat) (h : leadingInt x s = some (q, [])) :
    ∀ c ∈ s, isAsciiDigit c = true := by
  induction s generalizing x with
  | nil => simp
  | cons c cs ih =>
    cases hc : isAsciiDigit c
    · rw [leadingInt, if_pos ((not_digit_iff c).mpr hc)] at h
      simp at h
    · have hn : ¬ (c < '0' ∨ c > '9') := by rw [not_digit_iff, hc]; simp
      rw [leadingInt, if_neg hn] at h
      intro d hd
      rcases List.mem_cons.mp hd with rfl | hd
      · exact hc
      · split at h
        · simp at h
        · simp only at h
          split at h
          · simp at h
          · exact ih _ h d hd

theorem digits_decimal_four (a b c d : Char) (ha : isAsciiDigit a = true)
    (hb : isAsciiDigit b = true) (hc : isAsciiDigit c = true) (hd : isAsciiDigit d = true) :
    [a, b, c, d] =
      decimal 4 (digitValue a * 1000 + digitValue b * 100 + digitValue c * 10 + digitValue d) ∧
    digitValue a * 1000 + digitValue b * 100 + digitValue c * 10 + digitValue d < 10000 := by
  obtain ⟨a1, a2⟩ := digit_digitValue a ha
  obtain ⟨b1, b2⟩ := digit_digitValue b hb
  obtain ⟨c1, c2⟩ := digit_digitValue c hc
  obtain ⟨d1, d2⟩ := digit_digitValue d hd
  refine ⟨?_, by omega⟩
  rw [decimal_four]
  have e1 : (digitValue a * 1000 + digitValue b * 100 + digitValue c * 10 + digitValue d)
      / 10 / 10 / 10 % 10 = digitValue a := by omega
  have e2 : (digitValue a * 1000 + digitValue b * 100 + digitValue c * 10 + digitValue d)
      / 10 / 10 % 10 = digitValue b := by omega
  have e3 : (digitValue a * 1000 + digitValue b * 100 + digitValue c * 10 + digitValue d)
      / 10 % 10 = digitValue c := by omega
  have e4 : (digitValue a * 1000 + digitValue b * 100 + digitValue c * 10 + digitValue d)
      % 10 = digitValue d := by omega
  rw [e1, e2, e3, e4, a2, b2, c2, d2]

theorem digits_decimal_two (a b : Char) (ha : isAsciiDigit a = true)
    (hb : isAsciiDigit b = true) :
    [a, b] = decimal 2 (digitValue a * 10 + digitValue b) ∧
    digitValue a * 10 + digitValue b < 100 := by
  obtain ⟨a1, a2⟩ := digit_digitValue a ha
  obtain ⟨b1, b2⟩ := digit_digitValue b hb
  refine ⟨?_, by omega⟩
  rw [decimal_two]
  have e1 : (digitValue a * 10 + digitValue b) / 10 % 10 = digitValue a := by omega
  have e2 : (digitValue a * 10 + digitValue b) % 10 = digitValue b := by omega
  rw [e1, e2, a2, b2]

/-- What the `2006` element reads: four ASCII digits, nothing else. -/
theorem parseStd_year_some (v rest : List Char) (f g : Fields)
    (h : parseStd .stdLongYear v f = some (g, rest)) :
    ∃ a b c d, v = a :: b :: c :: d :: rest ∧ isAsciiDigit a = true ∧ isAsciiDigit b = true ∧
      isAsciiDigit c = true ∧ isAsciiDigit d = true ∧
      g = { f with year := ((digitValue a * 1000 + digitValue b * 100 + digitValue c * 10 +
        digitValue d : Nat) : Int) } := by
  match v with
  | [] | [_] | [_, _] | [_, _, _] => simp [parseStd] at h
  | a :: b :: c :: d :: r =>
    simp only [parseStd, List.length_cons, isDigit_zero, List.take_succ_cons, List.take_zero,
      List.drop_succ_cons, List.drop_zero] at h
    split at h
    · simp at h
    · rename_i hcond
      have ha : isAsciiDigit a = true := by
        cases hx : isAsciiDigit a
        · exact absurd (Or.inr (by simp [hx])) hcond
        · rfl
      cases hat : atoi [a, b, c, d] with
      | none => simp [hat] at h
      | some y =>
        have hall : ∀ x ∈ [a, b, c, d], isAsciiDigit x = true := by
          have hne : ¬ (a = '-' ∨ a = '+') := by
            rintro (rfl | rfl) <;> simp [isAsciiDigit] at ha
          simp only [atoi, if_neg hne] at hat
          cases hl : leadingInt 0 [a, b, c, d] with
          | none => simp [hl] at hat
          | some p =>
            obtain ⟨q, rem⟩ := p
            simp only [hl] at hat
            by_cases hrem : rem = []
            · subst hrem
              exact leadingInt_some_nil _ _ _ hl
            · simp [hrem] at hat
        have hb := hall b (by simp)
        have hc := hall c (by simp)
        have hd := hall d (by simp)
        obtain ⟨e1, e2⟩ := digits_decimal_four a b c d ha hb hc hd
        have hat2 := atoi_decimal _ e2
        rw [← e1, hat] at hat2
        simp only [hat, Option.some.injEq, Prod.mk.injEq] at h
        simp only [Option.some.injEq] at hat2
        exact ⟨a, b, c, d, by rw [h.2], ha, hb, hc, hd, by rw [← h.1, hat2]⟩

theorem parseStd_year_not_digit (c : Char) (rest : List Char) (f : Fields)
    (h : isAsciiDigit c = false) : parseStd .stdLongYear (c :: rest) f = none := by
  simp [parseStd, isDigit_zero, h]

/-- What the `01` element reads: two ASCII digits making a month 1..12. -/
theorem parseStd_month_some (v rest : List Char) (f g : Fields)
    (h : parseStd .stdZeroMonth v f = some (g, rest)) :
    ∃ a b, v = a :: b :: rest ∧ isAsciiDigit a = true ∧ isAsciiDigit b = true ∧
      1 ≤ digitValue a * 10 + digitValue b ∧ digitValue a * 10 + digitValue b ≤ 12 ∧
      g = { f with month := ((digitValue a * 10 + digitValue b : Nat) : Int) } := by
  simp only [parseStd] at h
  cases hg : getnum v true with
  | none => simp [hg] at h
  | some p =>
    obtain ⟨n, r⟩ := p
    obtain ⟨a, b, hv, ha, hb, hn⟩ := getnum_fixed_some v r n hg
    simp only [hg] at h
    split at h
    · simp at h
    · rename_i hr
      simp only [Option.some.injEq, Prod.mk.injEq] at h
      subst hn
      exact ⟨a, b, by rw [hv, h.2], ha, hb, by omega, by omega, h.1.symm⟩

/-- What the `02` element reads: two ASCII digits. -/
theorem parseStd_day_some (v rest : List Char) (f g : Fields)
    (h : parseStd .stdZeroDay v f = some (g, rest)) :
    ∃ a b, v = a :: b :: rest ∧ isAsciiDigit a = true ∧ isAsciiDigit b = true ∧
      g = { f with day := ((digitValue a * 10 + digitValue b : Nat) : Int) } := by
  simp only [parseStd] at h
  cases hg : getnum v true with
  | none => simp [hg] at h
  | some p =>
    obtain ⟨n, r⟩ := p
    obtain ⟨a, b, hv, ha, hb, hn⟩ := getnum_fixed_some v r n hg
    simp only [hg, Option.some.injEq, Prod.mk.injEq] at h
    subst hn
    exact ⟨a, b, by rw [hv, h.2], ha, hb, h.1.symm⟩

/-- What the `04` element reads: two ASCII digits making a minute under 60. -/
theorem parseStd_minute_some (v rest : List Char) (f g : Fields)
    (h : parseStd .stdZeroMinute v f = some (g, rest)) :
    ∃ a b, v = a :: b :: rest ∧ isAsciiDigit a = true ∧ isAsciiDigit b = true ∧
      digitValue a * 10 + digitValue b < 60 ∧
      g = { f with min := ((digitValue a * 10 + digitValue b : Nat) : Int) } := by
  simp only [parseStd] at h
  cases hg : getnum v true with
  | none => simp [hg] at h
  | some p =>
    obtain ⟨n, r⟩ := p
    obtain ⟨a, b, hv, ha, hb, hn⟩ := getnum_fixed_some v r n hg
    simp only [hg] at h
    split at h
    · simp at h
    · rename_i hr
      simp only [Option.some.injEq, Prod.mk.injEq] at h
      subst hn
      exact ⟨a, b, by rw [hv, h.2], ha, hb, by omega, h.1.symm⟩

/-- What the `15` element reads: two ASCII digits making an hour under 24, or
one ASCII digit that no digit follows. -/
theorem parseStd_hour_some (v rest : List Char) (f g : Fields)
    (h : parseStd .stdHour v f = some (g, rest)) :
    (∃ a b, v = a :: b :: rest ∧ isAsciiDigit a = true ∧ isAsciiDigit b = true ∧
      digitValue a * 10 + digitValue b < 24 ∧
      g = { f with hour := ((digitValue a * 10 + digitValue b : Nat) : Int) }) ∨
    (∃ a, v = a :: rest ∧ isDigit rest 0 = false) := by
  simp only [parseStd] at h
  cases hg : getnum v false with
  | none => simp [hg] at h
  | some p =>
    obtain ⟨n, r⟩ := p
    simp only [hg] at h
    split at h
    · simp at h
    · rename_i hr
      simp only [Option.some.injEq, Prod.mk.injEq] at h
      rcases getnum_some v r n hg with ⟨a, b, hv, ha, hb, hn⟩ | ⟨a, hv, _, hd, _⟩
      · subst hn
        exact Or.inl ⟨a, b, by rw [hv, h.2], ha, hb, by omega, h.1.symm⟩
      · exact Or.inr ⟨a, by rw [hv, h.2], by rw [← h.2]; exact hd⟩

/-- What the `-0700` element reads: a sign and four ASCII digits, the hours at
most 24 and the minutes at most 60. -/
theorem parseStd_numTZ_some (v rest : List Char) (f g : Fields)
    (h : parseStd .stdNumTZ v f = some (g, rest)) :
    ∃ sg a b c d, v = sg :: a :: b :: c :: d :: rest ∧ (sg = '+' ∨ sg = '-') ∧
      isAsciiDigit a = true ∧ isAsciiDigit b = true ∧ isAsciiDigit c = true ∧
      isAsciiDigit d = true ∧ digitValue a * 10 + digitValue b ≤ 24 ∧
      digitValue c * 10 + digitValue d ≤ 60 ∧
      g = { f with zoneOffset :=
        if sg = '-' then
          -((((digitValue a * 10 + digitValue b : Nat) : Int) * 60 +
            ((digitValue c * 10 + digitValue d : Nat) : Int)) * 60)
        else (((digitValue a * 10 + digitValue b : Nat) : Int) * 60 +
            ((digitValue c * 10 + digitValue d : Nat) : Int)) * 60 } := by
  match v with
  | [] | [_] | [_, _] | [_, _, _] | [_, _, _, _] => simp [parseStd] at h
  | sg :: a :: b :: c :: d :: r =>
    simp only [parseStd, List.length_cons, List.take_succ_cons, List.take_zero,
      List.drop_succ_cons, List.drop_zero, List.take_nil] at h
    split at h
    · omega
    · cases h1 : getnum [a, b] true with
      | none => simp [h1] at h
      | some p1 =>
        obtain ⟨hr, r1⟩ := p1
        obtain ⟨a', b', e1, ha, hb, hhr⟩ := getnum_fixed_some _ _ _ h1
        simp only [List.cons.injEq] at e1
        obtain ⟨rfl, rfl, _⟩ := e1
        cases h2 : getnum [c, d] true with
        | none => simp [h1, h2] at h
        | some p2 =>
          obtain ⟨mm, r2⟩ := p2
          obtain ⟨c', d', e2, hc, hd, hmm⟩ := getnum_fixed_some _ _ _ h2
          simp only [List.cons.injEq] at e2
          obtain ⟨rfl, rfl, _⟩ := e2
          simp only [h1, h2] at h
          subst hhr hmm
          split at h
          · simp at h
          · rename_i hrange
            simp only [add_zero] at h
            by_cases hp : sg = '+'
            · subst hp
              simp only [if_true, Option.some.injEq, Prod.mk.injEq] at h
              refine ⟨'+', a, b, c, d, by rw [h.2], Or.inl rfl, ha, hb, hc, hd, by omega,
                by omega, ?_⟩
              rw [← h.1, if_neg (by decide)]
            · by_cases hm : sg = '-'
              · subst hm
                simp only [List.cons.injEq, and_true, if_neg (show ¬ ('-' = '+') by decide),
                  if_true, Option.some.injEq, Prod.mk.injEq] at h
                refine ⟨'-', a, b, c, d, by rw [h.2], Or.inr rfl, ha, hb, hc, hd, by omega,
                  by omega, ?_⟩
                rw [← h.1, if_pos rfl]
              · simp [hp, hm] at h

theorem drop_length_takeWhile (p : Char → Bool) (l : List Char) :
    l.drop (l.takeWhile p).length = l.dropWhile p := by
  induction l with
  | nil => rfl
  | cons c cs ih =>
    cases hc : p c <;> simp [List.takeWhile, List.dropWhile, hc, ih]

theorem take_le_takeWhile (p : Char → Bool) (l : List Char) (j : Nat)
    (h : j ≤ (l.takeWhile p).length) :
    (l.take j).length = j ∧ ∀ c ∈ l.take j, p c = true := by
  induction l generalizing j with
  | nil => simp at h; subst h; simp
  | cons c cs ih =>
    cases j with
    | zero => simp
    | succ j =>
      cases hc : p c
      · simp [List.takeWhile, hc] at h
      · simp only [List.takeWhile, hc, List.length_cons, Nat.add_le_add_iff_right] at h
        obtain ⟨h1, h2⟩ := ih j h
        refine ⟨by simp [h1], ?_⟩
        intro d hd
        simp only [List.take_succ_cons, List.mem_cons] at hd
        rcases hd with rfl | hd
        · exact hc
        · exact h2 d hd

/-- On a run of ASCII digits `leadingInt` reads them all and stays under the
power of ten of their number. -/
theorem leadingInt_digits (ds : List Char) (x k : Nat)
    (hd : ∀ c ∈ ds, isAsciiDigit c = true) (hx : x < 10 ^ k) (hk : k + ds.length ≤ 10) :
    ∃ q, leadingInt x ds = some (q, []) ∧ q < 10 ^ (k + ds.length) := by
  induction ds generalizing x k with
  | nil => exact ⟨x, rfl, by simpa using hx⟩
  | cons c cs ih =>
    have hc := hd c (by simp)
    obtain ⟨c1, c2⟩ := (isAsciiDigit_iff c).mp hc
    have hn : ¬ (c < '0' ∨ c > '9') := by rw [not_digit_iff, hc]; simp
    simp only [List.length_cons] at hk
    have hp : 10 ^ k ≤ 10 ^ 9 := Nat.pow_le_pow_right (by omega) (by omega)
    have hp9 : (10 : Nat) ^ 9 = 1000000000 := by norm_num
    have e2 : ¬ (x > 2 ^ 63 / 10) := by norm_num; omega
    have e3 : ¬ (x * 10 + (c.toNat - 48) > 2 ^ 63) := by norm_num; omega
    have hx2 : x * 10 + (c.toNat - 48) < 10 ^ (k + 1) := by
      rw [Nat.pow_succ]; omega
    obtain ⟨q, hq1, hq2⟩ := ih (x * 10 + (c.toNat - 48)) (k + 1)
      (fun d hd2 => hd d (by simp [hd2])) hx2 (by omega)
    refine ⟨q, ?_, ?_⟩
    · rw [leadingInt, if_neg hn, if_neg e2]
      simp only [if_neg e3]
      exact hq1
    · have : k + 1 + cs.length = k + (cs.length + 1) := by omega
      rw [List.length_cons, ← this]
      exact hq2

theorem atoi_digits (d : Char) (ds : List Char) (hd : isAsciiDigit d = true)
    (hds : ∀ c ∈ ds, isAsciiDigit c = true) (hlen : ds.length ≤ 8) :
    ∃ q : Nat, atoi (d :: ds) = some (q : Int) ∧ q < 10 ^ (ds.length + 1) := by
  have hne : ¬ (d = '-' ∨ d = '+') := by
    rintro (rfl | rfl) <;> simp [isAsciiDigit] at hd
  obtain ⟨q, h1, h2⟩ := leadingInt_digits (d :: ds) 0 0
    (fun c hc => by rcases List.mem_cons.mp hc with rfl | hc; exact hd; exact hds c hc)
    (by norm_num) (by simp; omega)
  refine ⟨q, ?_, by simpa [Nat.add_comm] using h2⟩
  simp only [atoi, if_neg hne, h1]
  simp

/-- A fractional second in the text gives nanoseconds under one second. -/
theorem parseNanoseconds_fraction (p d : Char) (ds : List Char)
    (hp : commaOrPeriod p = true) (hd : isAsciiDigit d = true) :
    ∃ ns : Int, parseNanoseconds (p :: d :: ds) (2 + (ds.takeWhile isAsciiDigit).length) =
      some ns ∧ 0 ≤ ns ∧ ns < 1000000000 := by
  obtain ⟨k, hk⟩ : ∃ k, k = (ds.takeWhile isAsciiDigit).length := ⟨_, rfl⟩
  rw [← hk]
  simp only [parseNanoseconds, hp, Bool.not_true, Bool.false_eq_true, if_false]
  by_cases hbig : 2 + k > 10
  · obtain ⟨t1, t2⟩ := take_le_takeWhile isAsciiDigit ds 8 (by omega)
    obtain ⟨q, hq1, hq2⟩ := atoi_digits d (ds.take 8) hd t2 (by omega)
    have e : (List.take 10 (List.take 10 (p :: d :: ds))).drop 1 = d :: ds.take 8 := by
      simp [List.take_take]
    simp only [if_pos hbig, e, hq1]
    rw [t1] at hq2
    refine ⟨(q : Int), ?_, by omega, ?_⟩
    · rw [if_neg (by omega)]
      simp
    · norm_num at hq2
      omega
  · obtain ⟨t1, t2⟩ := take_le_takeWhile isAsciiDigit ds k (by omega)
    obtain ⟨q, hq1, hq2⟩ := atoi_digits d (ds.take k) hd t2 (by omega)
    have e : (List.take (2 + k) (p :: d :: ds)).drop 1 = d :: ds.take k := by
      have : 2 + k = k + 1 + 1 := by omega
      rw [this]
      simp
    simp only [if_neg hbig, e, hq1]
    rw [t1] at hq2
    refine ⟨(q : Int) * 10 ^ (10 - (2 + k)), ?_, by positivity, ?_⟩
    · rw [if_neg (by omega)]
    · have hk8 : k ≤ 8 := by omega
      have h10 : 10 - (2 + k) = 8 - k := by omega
      rw [h10]
      have hpow : 10 ^ (k + 1) * 10 ^ (8 - k) = 10 ^ 9 := by
        rw [← Nat.pow_add]
        congr 1
        omega
      have hpos : 0 < 10 ^ (8 - k) := by positivity
      have hlt : q * 10 ^ (8 - k) < 10 ^ 9 := by
        rw [← hpow]
        exact Nat.mul_lt_mul_of_pos_right hq2 hpos
      have : ((q * 10 ^ (8 - k) : Nat) : Int) < ((10 ^ 9 : Nat) : Int) := by exact_mod_cast hlt
      push_cast at this
      norm_num at this ⊢
      exact this

/-- What the `05` element reads: two ASCII digits making a second under 60, and
after them a fractional second when the text has one. -/
theorem parseStd_second_some (v rest : List Char) (f g : Fields)
    (hf : 0 ≤ f.nsec ∧ f.nsec < 1000000000)
    (h : parseStd .stdZeroSecond v f = some (g, rest)) :
    ∃ a b v1 ns, v = a :: b :: v1 ∧ isAsciiDigit a = true ∧ isAsciiDigit b = true ∧
      digitValue a * 10 + digitValue b < 60 ∧ rest = dropFraction v1 ∧
      0 ≤ ns ∧ ns < 1000000000 ∧
      g = { f with sec := ((digitValue a * 10 + digitValue b : Nat) : Int), nsec := ns } := by
  simp only [parseStd] at h
  cases hg : getnum v true with
  | none => simp [hg] at h
  | some p =>
    obtain ⟨n, r⟩ := p
    obtain ⟨a, b, hv, ha, hb, hn⟩ := getnum_fixed_some v r n hg
    simp only [hg] at h
    split at h
    · simp at h
    · rename_i hr
      subst hn
      match r, h with
      | [], h =>
        simp only [Option.some.injEq, Prod.mk.injEq] at h
        exact ⟨a, b, [], f.nsec, hv, ha, hb, by omega, by rw [← h.2]; rfl, hf.1, hf.2,
          h.1.symm⟩
      | [c], h =>
        simp only [Option.some.injEq, Prod.mk.injEq] at h
        exact ⟨a, b, [c], f.nsec, hv, ha, hb, by omega, by rw [← h.2]; rfl, hf.1, hf.2,
          h.1.symm⟩
      | p :: d :: ds, h =>
        simp only [isDigit_succ, isDigit_zero, List.drop_succ_cons, List.drop_zero] at h
        by_cases hfr : (commaOrPeriod p && isAsciiDigit d) = true
        · rw [if_pos hfr] at h
          simp only [Bool.and_eq_true] at hfr
          obtain ⟨ns, hns, h0, h1⟩ := parseNanoseconds_fraction p d ds hfr.1 hfr.2
          have efun : (fun d => decide ('0' ≤ d) && decide (d ≤ '9')) = isAsciiDigit := rfl
          simp only [efun, hns, Option.some.injEq, Prod.mk.injEq] at h
          refine ⟨a, b, p :: d :: ds, ns, hv, ha, hb, by omega, ?_, h0, h1, h.1.symm⟩
          have hdf : dropFraction (p :: d :: ds) = ds.dropWhile isAsciiDigit := by
            have : ((p == '.' || p == ',') && isAsciiDigit d) = true := by
              simpa [commaOrPeriod] using hfr
            simp only [dropFraction, this, if_true]
          rw [hdf, ← h.2]
          have : 2 + (List.takeWhile isAsciiDigit ds).length =
              (List.takeWhile isAsciiDigit ds).length + 1 + 1 := by omega
          rw [this, List.drop_succ_cons, List.drop_succ_cons, drop_length_takeWhile]
        · rw [if_neg hfr] at h
          simp only [Option.some.injEq, Prod.mk.injEq] at h
          refine ⟨a, b, p :: d :: ds, f.nsec, hv, ha, hb, by omega, ?_, hf.1, hf.2, h.1.symm⟩
          have : ¬ (((p == '.' || p == ',') && isAsciiDigit d) = true) := by
            simpa [commaOrPeriod] using hfr
          simp only [dropFraction, if_neg this]
          exact h.2.symm

theorem skip_space_some (v w : List Char) (h : skip v [' '] = some w) :
    w = cutspace v ∧ (v = [] ∨ ∃ r, v = ' ' :: r) := by
  match v with
  | [] =>
    simp [skip, skipLoop, cutspace] at h
    exact ⟨by rw [h]; rfl, Or.inl rfl⟩
  | c :: r =>
    by_cases hc : c = ' '
    · subst hc
      simp [skip, skipLoop, cutspace] at h
      exact ⟨by rw [← h]; simp [cutspace], Or.inr ⟨r, rfl⟩⟩
    · simp [skip, skipLoop, hc] at h

theorem parseLoop_cons_some (c : Chunk) (cs : List Chunk) (v : List Char) (f g : Fields)
    (h : parseLoop (c :: cs) v f = some g) :
    ∃ v1 f1 v2, skip v c.lit = some v1 ∧ parseStd c.std v1 f = some (f1, v2) ∧
      parseLoop cs v2 f1 = some g := by
  simp only [parseLoop] at h
  cases h1 : skip v c.lit with
  | none => simp [h1] at h
  | some v1 =>
    simp only [h1] at h
    cases h2 : parseStd c.std v1 f with
    | none => simp [h2] at h
    | some p =>
      obtain ⟨f1, v2⟩ := p
      simp only [h2] at h
      exact ⟨v1, f1, v2, rfl, h2, h⟩

theorem parseLoop_nil_some (v : List Char) (f g : Fields) (h : parseLoop [] v f = some g) :
    v = [] ∧ g = f := by
  simp only [parseLoop] at h
  split at h
  · simp at h
  · rename_i hv
    simp only [ne_eq, Decidable.not_not] at hv
    simp only [Option.some.injEq] at h
    exact ⟨hv, h.symm⟩

/-- The year, month and day elements at the head of both layouts read eight
ASCII digits. -/
theorem parseLoop_date_some (cs : List Chunk) (s : List Char) (f g : Fields)
    (h : parseLoop (⟨[], .stdLongYear⟩ :: ⟨[], .stdZeroMonth⟩ :: ⟨[], .stdZeroDay⟩ :: cs) s f =
      some g) :
    ∃ y1 y2 y3 y4 m1 m2 d1 d2 rest,
      s = y1 :: y2 :: y3 :: y4 :: m1 :: m2 :: d1 :: d2 :: rest ∧
      isAsciiDigit y1 = true ∧ isAsciiDigit y2 = true ∧ isAsciiDigit y3 = true ∧
      isAsciiDigit y4 = true ∧ isAsciiDigit m1 = true ∧ isAsciiDigit m2 = true ∧
      isAsciiDigit d1 = true ∧ isAsciiDigit d2 = true ∧
      1 ≤ digitValue m1 * 10 + digitValue m2 ∧ digitValue m1 * 10 + digitValue m2 ≤ 12 ∧
      parseLoop cs rest
        { f with
          year := ((digitValue y1 * 1000 + digitValue y2 * 100 + digitValue y3 * 10 +
            digitValue y4 : Nat) : Int),
          month := ((digitValue m1 * 10 + digitValue m2 : Nat) : Int),
          day := ((digitValue d1 * 10 + digitValue d2 : Nat) : Int) } = some g := by
  obtain ⟨v1, f1, v2, k1, p1, h⟩ := parseLoop_cons_some _ _ _ _ _ h
  obtain ⟨v3, f2, v4, k2, p2, h⟩ := parseLoop_cons_some _ _ _ _ _ h
  obtain ⟨v5, f3, v6, k3, p3, h⟩ := parseLoop_cons_some _ _ _ _ _ h
  simp only [skip_nil, Option.some.injEq] at k1 k2 k3
  subst k1 k2 k3
  obtain ⟨y1, y2, y3, y4, e1, hy1, hy2, hy3, hy4, g1⟩ := parseStd_year_some _ _ _ _ p1
  obtain ⟨m1, m2, e2, hm1, hm2, r1, r2, g2⟩ := parseStd_month_some _ _ _ _ p2
  obtain ⟨d1, d2, e3, hd1, hd2, g3⟩ := parseStd_day_some _ _ _ _ p3
  subst e1 e2 e3 g1 g2 g3
  exact ⟨y1, y2, y3, y4, m1, m2, d1, d2, v6, rfl, hy1, hy2, hy3, hy4, hm1, hm2, hd1, hd2,
    r1, r2, h⟩

/-- A text the date-only layout accepts is eight ASCII digits with a month in
1..12; the fields are the numbers the digits write. -/
theorem parseLoop_layoutElem_some (s : List Char) (g : Fields)
    (h : parseLoop layoutElem s Fields.init = some g) :
    ∃ y1 y2 y3 y4 m1 m2 d1 d2,
      s = [y1, y2, y3, y4, m1, m2, d1, d2] ∧
      isAsciiDigit y1 = true ∧ isAsciiDigit y2 = true ∧ isAsciiDigit y3 = true ∧
      isAsciiDigit y4 = true ∧ isAsciiDigit m1 = true ∧ isAsciiDigit m2 = true ∧
      isAsciiDigit d1 = true ∧ isAsciiDigit d2 = true ∧
      1 ≤ digitValue m1 * 10 + digitValue m2 ∧ digitValue m1 * 10 + digitValue m2 ≤ 12 ∧
      g = { year := ((digitValue y1 * 1000 + digitValue y2 * 100 + digitValue y3 * 10 +
              digitValue y4 : Nat) : Int),
            month := ((digitValue m1 * 10 + digitValue m2 : Nat) : Int),
            day := ((digitValue d1 * 10 + digitValue d2 : Nat) : Int),
            hour := 0, min := 0, sec := 0, nsec := 0, zoneOffset := -1 } := by
  obtain ⟨y1, y2, y3, y4, m1, m2, d1, d2, rest, e, hy1, hy2, hy3, hy4, hm1, hm2, hd1, hd2,
    r1, r2, h⟩ := parseLoop_date_some [] s _ _ h
  obtain ⟨hr, hg⟩ := parseLoop_nil_some _ _ _ h
  subst hr
  exact ⟨y1, y2, y3, y4, m1, m2, d1, d2, e, hy1, hy2, hy3, hy4, hm1, hm2, hd1, hd2, r1, r2,
    by rw [hg]; rfl⟩

/-- Eight ASCII digits with a month in 1..12 are read by the date-only layout. -/
theorem parseLoop_layoutElem_digits (y1 y2 y3 y4 m1 m2 d1 d2 : Char)
    (hy1 : isAsciiDigit y1 = true) (hy2 : isAsciiDigit y2 = true)
    (hy3 : isAsciiDigit y3 = true) (hy4 : isAsciiDigit y4 = true)
    (hm1 : isAsciiDigit m1 = true) (hm2 : isAsciiDigit m2 = true)
    (hd1 : isAsciiDigit d1 = true) (hd2 : isAsciiDigit d2 = true)
    (r1 : 1 ≤ digitValue m1 * 10 + digitValue m2) (r2 : digitValue m1 * 10 + digitValue m2 ≤ 12) :
    parseLoop layoutElem [y1, y2, y3, y4, m1, m2, d1, d2] Fields.init =
      some
        { year := ((digitValue y1 * 1000 + digitValue y2 * 100 + digitValue y3 * 10 +
              digitValue y4 : Nat) : Int),
          month := ((digitValue m1 * 10 + digitValue m2 : Nat) : Int),
          day := ((digitValue d1 * 10 + digitValue d2 : Nat) : Int),
          hour := 0, min := 0, sec := 0, nsec := 0, zoneOffset := -1 } := by
  obtain ⟨e1, b1⟩ := digits_decimal_four y1 y2 y3 y4 hy1 hy2 hy3 hy4
  obtain ⟨e2, b2⟩ := digits_decimal_two m1 m2 hm1 hm2
  obtain ⟨e3, b3⟩ := digits_decimal_two d1 d2 hd1 hd2
  have e : [y1, y2, y3, y4, m1, m2, d1, d2] = [y1, y2, y3, y4] ++ ([m1, m2] ++ ([d1, d2] ++ [])) :=
    rfl
  rw [e, e1, e2, e3]
  exact parseLoop_layoutElem _ _ _ b1 ⟨r1, r2⟩ b3

theorem isLeap_isLeapYear (y : Nat) : isLeap (y : Int) = isLeapYear y := by
  rw [Bool.eq_iff_iff]
  simp only [isLeap, isLeapYear, Bool.and_eq_true, Bool.or_eq_true, beq_iff_eq, bne_iff_ne, ne_eq]
  omega

theorem daysIn_daysOfMonth (y m : Nat) (h1 : 1 ≤ m) (h2 : m ≤ 12) :
    daysIn (m : Int) (y : Int) = (daysOfMonth y m : Int) := by
  obtain ⟨d0, d1, d2, d3, d4, d5, d6, d7, d8, d9, d10, d11, d12⟩ := daysBefore_vals
  simp only [daysIn, isLeap_isLeapYear]
  interval_cases m <;> simp only [daysOfMonth] <;>
    norm_num [d0, d1, d2, d3, d4, d5, d6, d7, d8, d9, d10, d11, d12]

/-- On eight ASCII digits with a month in 1..12 the date-only layout decides by
the day alone. -/
theorem Parse_layoutElem_digits (y1 y2 y3 y4 m1 m2 d1 d2 : Char)
    (hy1 : isAsciiDigit y1 = true) (hy2 : isAsciiDigit y2 = true)
    (hy3 : isAsciiDigit y3 = true) (hy4 : isAsciiDigit y4 = true)
    (hm1 : isAsciiDigit m1 = true) (hm2 : isAsciiDigit m2 = true)
    (hd1 : isAsciiDigit d1 = true) (hd2 : isAsciiDigit d2 = true)
    (r1 : 1 ≤ digitValue m1 * 10 + digitValue m2) (r2 : digitValue m1 * 10 + digitValue m2 ≤ 12) :
    Parse layoutElem [y1, y2, y3, y4, m1, m2, d1, d2] =
      if 1 ≤ digitValue d1 * 10 + digitValue d2 ∧
          digitValue d1 * 10 + digitValue d2 ≤
            daysOfMonth (digitValue y1 * 1000 + digitValue y2 * 100 + digitValue y3 * 10 +
              digitValue y4) (digitValue m1 * 10 + digitValue m2) then
        some (Date ((digitValue y1 * 1000 + digitValue y2 * 100 + digitValue y3 * 10 +
            digitValue y4 : Nat) : Int) ((digitValue m1 * 10 + digitValue m2 : Nat) : Int)
          ((digitValue d1 * 10 + digitValue d2 : Nat) : Int) 0 0 0 0)
      else none := by
  have hp := parseLoop_layoutElem_digits y1 y2 y3 y4 m1 m2 d1 d2 hy1 hy2 hy3 hy4 hm1 hm2 hd1 hd2
    r1 r2
  have hdi := daysIn_daysOfMonth (digitValue y1 * 1000 + digitValue y2 * 100 + digitValue y3 * 10 +
              digitValue y4) (digitValue m1 * 10 + digitValue m2) r1 r2
  obtain ⟨Y, hY⟩ : ∃ Y, Y = digitValue y1 * 1000 + digitValue y2 * 100 + digitValue y3 * 10 +
      digitValue y4 := ⟨_, rfl⟩
  obtain ⟨M, hM⟩ : ∃ M, M = digitValue m1 * 10 + digitValue m2 := ⟨_, rfl⟩
  obtain ⟨D, hD⟩ : ∃ D, D = digitValue d1 * 10 + digitValue d2 := ⟨_, rfl⟩
  rw [← hY, ← hM] at hdi
  rw [← hY, ← hM, ← hD] at hp ⊢
  have e1 : ¬ ((M : Int) < 0) := by omega
  have e2 : ¬ ((D : Int) < 0) := by omega
  simp only [Parse, hp, if_neg e1, if_neg e2, hdi]
  by_cases hd : 1 ≤ D ∧ D ≤ daysOfMonth Y M
  · have e3 : ¬ ((D : Int) < 1 ∨ (D : Int) > (daysOfMonth Y M : Int)) := by omega
    have e4 : ¬ ((-1 : Int) ≠ -1) := by decide
    simp only [if_pos hd, if_neg e3, if_neg e4]
  · have e3 : (D : Int) < 1 ∨ (D : Int) > (daysOfMonth Y M : Int) := by omega
    simp only [if_neg hd, if_pos e3]

/-- The date-only layout accepts exactly the texts of the date-only grammar. -/
theorem Parse_layoutElem_isSome (s : List Char) :
    (Parse layoutElem s).isSome = dateGrammar s := by
  cases hg : dateGrammar s
  · cases hp : Parse layoutElem s with
    | none => rfl
    | some t =>
      exfalso
      cases hl : parseLoop layoutElem s Fields.init with
      | none => simp [Parse, hl] at hp
      | some g =>
        obtain ⟨y1, y2, y3, y4, m1, m2, d1, d2, e, hy1, hy2, hy3, hy4, hm1, hm2, hd1, hd2, r1,
          r2, _⟩ := parseLoop_layoutElem_some s g hl
        subst e
        rw [Parse_layoutElem_digits y1 y2 y3 y4 m1 m2 d1 d2 hy1 hy2 hy3 hy4 hm1 hm2 hd1 hd2
          r1 r2] at hp
        split at hp
        · rename_i hd
          simp [dateGrammar, hy1, hy2, hy3, hy4, hm1, hm2, hd1, hd2, r1, r2, hd.1, hd.2] at hg
        · simp at hp
  · match s, hg with
    | [y1, y2, y3, y4, m1, m2, d1, d2], hg =>
      simp only [dateGrammar, List.all_cons, List.all_nil, Bool.and_true, Bool.and_eq_true,
        decide_eq_true_eq] at hg
      obtain ⟨⟨⟨⟨⟨hy1, hy2, hy3, hy4, hm1, hm2, hd1, hd2⟩, r1⟩, r2⟩, r3⟩, r4⟩ := hg
      rw [Parse_layoutElem_digits y1 y2 y3 y4 m1 m2 d1 d2 hy1 hy2 hy3 hy4 hm1 hm2 hd1 hd2
          r1 r2, if_pos ⟨r3, r4⟩]
      rfl

/-- A text the full timestamp layout accepts: fourteen ASCII digits, then what
is left after an optional fractional second starts with a space, and after the
spaces come a sign and four ASCII digits.  The fields are the numbers the digits
write, within their ranges. -/
theorem parseLoop_layoutAttr_some (s : List Char) (g : Fields)
    (h : parseLoop layoutAttr s Fields.init = some g) :
    ∃ y1 y2 y3 y4 m1 m2 d1 d2 h1 h2 n1 n2 s1 s2 v r sg z1 z2 z3 z4 ns,
      s = y1 :: y2 :: y3 :: y4 :: m1 :: m2 :: d1 :: d2 :: h1 :: h2 :: n1 :: n2 :: s1 :: s2 :: v ∧
      (isAsciiDigit y1 = true ∧ isAsciiDigit y2 = true ∧ isAsciiDigit y3 = true ∧
        isAsciiDigit y4 = true ∧ isAsciiDigit m1 = true ∧ isAsciiDigit m2 = true ∧
        isAsciiDigit d1 = true ∧ isAsciiDigit d2 = true ∧ isAsciiDigit h1 = true ∧
        isAsciiDigit h2 = true ∧ isAsciiDigit n1 = true ∧ isAsciiDigit n2 = true ∧
        isAsciiDigit s1 = true ∧ isAsciiDigit s2 = true) ∧
      dropFraction v = ' ' :: r ∧ cutspace r = [sg, z1, z2, z3, z4] ∧ (sg = '+' ∨ sg = '-') ∧
      (isAsciiDigit z1 = true ∧ isAsciiDigit z2 = true ∧ isAsciiDigit z3 = true ∧
        isAsciiDigit z4 = true) ∧
      (1 ≤ digitValue m1 * 10 + digitValue m2 ∧ digitValue m1 * 10 + digitValue m2 ≤ 12 ∧
        digitValue h1 * 10 + digitValue h2 < 24 ∧ digitValue n1 * 10 + digitValue n2 < 60 ∧
        digitValue s1 * 10 + digitValue s2 < 60 ∧ 0 ≤ ns ∧ ns < 1000000000 ∧
        digitValue z1 * 10 + digitValue z2 ≤ 24 ∧ digitValue z3 * 10 + digitValue z4 ≤ 60) ∧
      g = { year := ((digitValue y1 * 1000 + digitValue y2 * 100 + digitValue y3 * 10 +
              digitValue y4 : Nat) : Int),
            month := ((digitValue m1 * 10 + digitValue m2 : Nat) : Int),
            day := ((digitValue d1 * 10 + digitValue d2 : Nat) : Int),
            hour := ((digitValue h1 * 10 + digitValue h2 : Nat) : Int),
            min := ((digitValue n1 * 10 + digitValue n2 : Nat) : Int),
            sec := ((digitValue s1 * 10 + digitValue s2 : Nat) : Int),
            nsec := ns,
            zoneOffset :=
              if sg = '-' then
                -((((digitValue z1 * 10 + digitValue z2 : Nat) : Int) * 60 +
                  ((digitValue z3 * 10 + digitValue z4 : Nat) : Int)) * 60)
              else (((digitValue z1 * 10 + digitValue z2 : Nat) : Int) * 60 +
                  ((digitValue z3 * 10 + digitValue z4 : Nat) : Int)) * 60 } := by
  obtain ⟨y1, y2, y3, y4, m1, m2, d1, d2, rest, e, hy1, hy2, hy3, hy4, hm1, hm2, hd1, hd2,
    r1, r2, h⟩ := parseLoop_date_some _ s _ _ h
  obtain ⟨v1, f1, v2, k1, p1, h⟩ := parseLoop_cons_some _ _ _ _ _ h
  obtain ⟨v3, f2, v4, k2, p2, h⟩ := parseLoop_cons_some _ _ _ _ _ h
  obtain ⟨v5, f3, v6, k3, p3, h⟩ := parseLoop_cons_some _ _ _ _ _ h
  obtain ⟨v7, f4, v8, k4, p4, h⟩ := parseLoop_cons_some _ _ _ _ _ h
  obtain ⟨hnil, hg⟩ := parseLoop_nil_some _ _ _ h
  simp only [skip_nil, Option.some.injEq] at k1 k2 k3
  subst k1 k2 k3 hnil
  obtain ⟨n1, n2, e2, hn1, hn2, rn, g2⟩ := parseStd_minute_some _ _ _ _ p2
  rcases parseStd_hour_some _ _ _ _ p1 with ⟨h1, h2, e1, hh1, hh2, rh, g1⟩ | ⟨a, _, hbad⟩
  · subst g1
    have hns : 0 ≤ f2.nsec ∧ f2.nsec < 1000000000 := by
      subst g2
      show (0 : Int) ≤ 0 ∧ (0 : Int) < 1000000000
      omega
    obtain ⟨s1, s2, w, ns, e3, hs1, hs2, rs, e4, ns0, ns1, g3⟩ :=
      parseStd_second_some _ _ _ _ hns p3
    obtain ⟨sg, z1, z2, z3, z4, e5, hsg, hz1, hz2, hz3, hz4, rz1, rz2, g4⟩ :=
      parseStd_numTZ_some _ _ _ _ p4
    obtain ⟨e6, e7⟩ := skip_space_some _ _ k4
    have hsp : sg ≠ ' ' := by rcases hsg with rfl | rfl <;> decide
    rcases e7 with e7 | ⟨r, e7⟩
    · rw [e7] at e6
      rw [e5] at e6
      simp [cutspace] at e6
    · rw [e7] at e6
      have e8 : cutspace r = [sg, z1, z2, z3, z4] := by
        rw [← e5, e6]
        simp [cutspace]
      subst e e1 e2 e3 g2 g3
      refine ⟨y1, y2, y3, y4, m1, m2, d1, d2, h1, h2, n1, n2, s1, s2, w, r, sg, z1, z2, z3, z4,
        ns, rfl, ⟨hy1, hy2, hy3, hy4, hm1, hm2, hd1, hd2, hh1, hh2, hn1, hn2, hs1, hs2⟩,
        by rw [← e4, e7], e8, hsg, ⟨hz1, hz2, hz3, hz4⟩,
        ⟨r1, r2, rh, rn, rs, ns0, ns1, rz1, rz2⟩, ?_⟩
      rw [hg, g4]
  · exfalso
    rw [e2] at hbad
    simp [isDigit_zero, hn1] at hbad

/-- Every text the full timestamp layout accepts is in the tolerant timestamp
grammar. -/
theorem Parse_layoutAttr_grammar (s : List Char) (t : Time)
    (h : Parse layoutAttr s = some t) : timestampGrammar s = true := by
  cases hl : parseLoop layoutAttr s Fields.init with
  | none => simp [Parse, hl] at h
  | some g =>
    obtain ⟨y1, y2, y3, y4, m1, m2, d1, d2, h1, h2, n1, n2, s1, s2, v, r, sg, z1, z2, z3, z4,
      ns, e, ⟨hy1, hy2, hy3, hy4, hm1, hm2, hd1, hd2, hh1, hh2, hn1, hn2, hs1, hs2⟩, e1, e2,
      hsg, ⟨hz1, hz2, hz3, hz4⟩, _, _⟩ := parseLoop_layoutAttr_some s g hl
    subst e
    have e3 : List.dropWhile (fun c => c == ' ') r = [sg, z1, z2, z3, z4] := e2
    have hs : (sg == '+' || sg == '-') = true := by
      rcases hsg with rfl | rfl <;> decide
    simp only [timestampGrammar, stripDigits, hy1, hy2, hy3, hy4, hm1, hm2, hd1, hd2, hh1, hh2,
      hn1, hn2, hs1, hs2, if_true, e1, e3, isOffsetText, hs, hz1, hz2, hz3, hz4, Bool.true_and]
    rfl

theorem Parse_layoutAttr_not_digit (c : Char) (rest : List Char)
    (h : isAsciiDigit c = false) : Parse layoutAttr (c :: rest) = none := by
  simp only [Parse, layoutAttr, parseLoop, skip_nil, parseStd_year_not_digit c rest _ h]

theorem Parse_layoutElem_not_digit (c : Char) (rest : List Char)
    (h : isAsciiDigit c = false) : Parse layoutElem (c :: rest) = none := by
  simp only [Parse, layoutElem, parseLoop, skip_nil, parseStd_year_not_digit c rest _ h]

/-- With an offset of zero the last layout element prints `+0000`. -/
theorem appendFormat_layoutAttr_utc (t : Time) (h : t.offset = 0) :
    ∃ b : List Char, appendFormat [] t layoutAttr = b ++ [' ', '+', '0', '0', '0', '0'] := by
  simp only [layoutAttr, appendFormat]
  rw [appendStd_numTZ _ t (by omega) (by omega), h]
  exact ⟨_, by simp [decimal_two]; rfl⟩

theorem daysSinceEpoch_bounds (y : Int) :
    (2 ≤ y → 365 ≤ daysSinceEpoch y) ∧ (y ≤ 0 → daysSinceEpoch y ≤ -366) ∧
    (y = 1 → daysSinceEpoch y = 0) := by
  simp only [daysSinceEpoch, daysPer400Years_eq, daysPer100Years_eq, daysPer4Years_eq]
  refine ⟨fun h => ?_, fun h => ?_, fun h => ?_⟩ <;> omega

/-- The day of the year of a valid month and day: 0 for January 1 only, at most
365. -/
theorem yearDay_bounds (y m d : Int) (hm1 : 1 ≤ m) (hm2 : m ≤ 12) (hd1 : 1 ≤ d)
    (hd2 : d ≤ daysIn m y) :
    0 ≤ daysBefore (m - 1) + (if isLeap y = true ∧ m ≥ 3 then 1 else 0) + (d - 1) ∧
    daysBefore (m - 1) + (if isLeap y = true ∧ m ≥ 3 then 1 else 0) + (d - 1) ≤ 365 ∧
    (daysBefore (m - 1) + (if isLeap y = true ∧ m ≥ 3 then 1 else 0) + (d - 1) = 0 →
      m = 1 ∧ d = 1) := by
  obtain ⟨d0, d1, d2, d3, d4, d5, d6, d7, d8, d9, d10, d11, d12⟩ := daysBefore_vals
  have hm : m = 1 ∨ m = 2 ∨ m = 3 ∨ m = 4 ∨ m = 5 ∨ m = 6 ∨ m = 7 ∨ m = 8 ∨ m = 9 ∨ m = 10 ∨
      m = 11 ∨ m = 12 := by omega
  simp only [daysIn] at hd2
  cases hl : isLeap y <;> simp only [hl, Bool.false_eq_true, false_and, true_and, and_false,
      and_true, if_false, if_true] at hd2 ⊢ <;>
    rcases hm with h | h | h | h | h | h | h | h | h | h | h | h <;> subst h <;>
    norm_num [d0, d1, d2, d3, d4, d5, d6, d7, d8, d9, d10, d11, d12] at hd2 ⊢ <;> omega

theorem char_of_digitValue (c : Char) (h : isAsciiDigit c = true) (k : Nat)
    (hk : digitValue c = k) : c = digit k := by
  rw [← hk, (digit_digitValue c h).2]

theorem IsZero_iff (t : Time) : t.IsZero = true ↔ t.sec = 0 ∧ t.nsec = 0 := by
  simp [Time.IsZero]

/-- The only text of the date-only grammar that decodes to the zero time is
`00010101`. -/
theorem Parse_layoutElem_zero (s : List Char) (t : Time) (h : Parse layoutElem s = some t) :
    t.IsZero = true ↔ s = ['0', '0', '0', '1', '0', '1', '0', '1'] := by
  constructor
  · intro hz
    cases hl : parseLoop layoutElem s Fields.init with
    | none => simp [Parse, hl] at h
    | some g =>
      obtain ⟨y1, y2, y3, y4, m1, m2, d1, d2, e, hy1, hy2, hy3, hy4, hm1, hm2, hd1, hd2, r1,
        r2, _⟩ := parseLoop_layoutElem_some s g hl
      subst e
      rw [Parse_layoutElem_digits y1 y2 y3 y4 m1 m2 d1 d2 hy1 hy2 hy3 hy4 hm1 hm2 hd1 hd2
        r1 r2] at h
      split at h
      · rename_i hd
        have hdi := daysIn_daysOfMonth (digitValue y1 * 1000 + digitValue y2 * 100 +
          digitValue y3 * 10 + digitValue y4) (digitValue m1 * 10 + digitValue m2) r1 r2
        obtain ⟨Y, hY⟩ : ∃ Y, Y = digitValue y1 * 1000 + digitValue y2 * 100 +
          digitValue y3 * 10 + digitValue y4 := ⟨_, rfl⟩
        obtain ⟨M, hM⟩ : ∃ M, M = digitValue m1 * 10 + digitValue m2 := ⟨_, rfl⟩
        obtain ⟨D, hD⟩ : ∃ D, D = digitValue d1 * 10 + digitValue d2 := ⟨_, rfl⟩
        rw [← hY, ← hM] at hdi
        rw [← hY, ← hM, ← hD] at h hd
        rw [← hM] at r1 r2
        rw [Date_valid _ _ _ _ _ _ _ (by omega) (by omega) (by omega) (by omega) (by omega)] at h
        simp only [Option.some.injEq] at h
        rw [← h] at hz
        obtain ⟨hsec, _⟩ := (IsZero_iff _).mp hz
        simp only at hsec
        obtain ⟨b1, b2, b3⟩ := daysSinceEpoch_bounds (Y : Int)
        obtain ⟨c1, c2, c3⟩ := yearDay_bounds (Y : Int) (M : Int) (D : Int) (by omega) (by omega)
          (by omega) (by omega)
        have hY1 : Y = 1 := by
          by_contra hne
          rcases Nat.lt_or_gt_of_ne hne with hlt | hgt
          · have := b2 (by omega)
            omega
          · have := b1 (by omega)
            omega
        have hdse := b3 (by omega)
        obtain ⟨hM1, hD1⟩ := c3 (by omega)
        obtain ⟨v1, _⟩ := digit_digitValue y1 hy1
        obtain ⟨v2, _⟩ := digit_digitValue y2 hy2
        obtain ⟨v3, _⟩ := digit_digitValue y3 hy3
        obtain ⟨v4, _⟩ := digit_digitValue y4 hy4
        obtain ⟨v5, _⟩ := digit_digitValue m1 hm1
        obtain ⟨v6, _⟩ := digit_digitValue m2 hm2
        obtain ⟨v7, _⟩ := digit_digitValue d1 hd1
        obtain ⟨v8, _⟩ := digit_digitValue d2 hd2
        rw [char_of_digitValue y1 hy1 0 (by omega), char_of_digitValue y2 hy2 0 (by omega),
          char_of_digitValue y3 hy3 0 (by omega), char_of_digitValue y4 hy4 1 (by omega),
          char_of_digitValue m1 hm1 0 (by omega), char_of_digitValue m2 hm2 1 (by omega),
          char_of_digitValue d1 hd1 0 (by omega), char_of_digitValue d2 hd2 1 (by omega)]
        rfl
      · simp at h
  · intro hs
    subst hs
    have : Parse layoutElem ['0', '0', '0', '1', '0', '1', '0', '1'] = some Time.zero := by decide
    rw [this] at h
    simp only [Option.some.injEq] at h
    rw [← h]
    rfl

/-- What `Parse` makes of the fields read with a zone offset: the wall-clock
reading of a valid date, moved back by the offset. -/
theorem Parse_of_fields (layout : List Chunk) (s : List Char) (g : Fields) (t : Time)
    (hl : parseLoop layout s Fields.init = some g) (h : Parse layout s = some t)
    (hm : 1 ≤ g.month ∧ g.month ≤ 12) (hd0 : 0 ≤ g.day) (hh : 0 ≤ g.hour ∧ g.hour < 24)
    (hmi : 0 ≤ g.min ∧ g.min < 60) (hs : 0 ≤ g.sec ∧ g.sec < 60)
    (hn : 0 ≤ g.nsec ∧ g.nsec < 1000000000) (hz : g.zoneOffset ≠ -1) :
    1 ≤ g.day ∧ g.day ≤ daysIn g.month g.year ∧
    t = { sec := (daysSinceEpoch g.year + daysBefore (g.month - 1) +
              (if isLeap g.year = true ∧ g.month ≥ 3 then 1 else 0) + (g.day - 1)) * 86400 +
              (g.hour * 3600 + g.min * 60 + g.sec) - g.zoneOffset,
          nsec := g.nsec, offset := g.zoneOffset } := by
  have e1 : ¬ (g.month < 0) := by omega
  have e2 : ¬ (g.day < 0) := by omega
  simp only [Parse, hl, if_neg e1, if_neg e2] at h
  split at h
  · simp at h
  · rename_i hday
    rw [Date_valid _ _ _ _ _ _ _ hm hh hmi hs hn] at h
    simp only [Option.some.injEq] at h
    exact ⟨by omega, by omega, h.symm⟩

/-- A text of the full timestamp grammar that decodes to the zero time has the
year 0000 or 0001. -/
theorem Parse_layoutAttr_zero_year (s : List Char) (t : Time)
    (h : Parse layoutAttr s = some t) (hz : t.IsZero = true) :
    s.take 4 = ['0', '0', '0', '0'] ∨ s.take 4 = ['0', '0', '0', '1'] := by
  cases hl : parseLoop layoutAttr s Fields.init with
  | none => simp [Parse, hl] at h
  | some g =>
    obtain ⟨y1, y2, y3, y4, m1, m2, d1, d2, h1, h2, n1, n2, s1, s2, v, r, sg, z1, z2, z3, z4,
      ns, e, ⟨hy1, hy2, hy3, hy4, _⟩, _, _, hsg, _, ⟨r1, r2, r3, r4, r5, r6, r7, r8, r9⟩, hg⟩ :=
      parseLoop_layoutAttr_some s g hl
    obtain ⟨Y, hY⟩ : ∃ Y, Y = digitValue y1 * 1000 + digitValue y2 * 100 +
      digitValue y3 * 10 + digitValue y4 := ⟨_, rfl⟩
    obtain ⟨M, hM⟩ : ∃ M, M = digitValue m1 * 10 + digitValue m2 := ⟨_, rfl⟩
    obtain ⟨D, hD⟩ : ∃ D, D = digitValue d1 * 10 + digitValue d2 := ⟨_, rfl⟩
    obtain ⟨H, hH⟩ : ∃ H, H = digitValue h1 * 10 + digitValue h2 := ⟨_, rfl⟩
    obtain ⟨N, hN⟩ : ∃ N, N = digitValue n1 * 10 + digitValue n2 := ⟨_, rfl⟩
    obtain ⟨S, hS⟩ : ∃ S, S = digitValue s1 * 10 + digitValue s2 := ⟨_, rfl⟩
    obtain ⟨ZH, hZH⟩ : ∃ ZH, ZH = digitValue z1 * 10 + digitValue z2 := ⟨_, rfl⟩
    obtain ⟨ZM, hZM⟩ : ∃ ZM, ZM = digitValue z3 * 10 + digitValue z4 := ⟨_, rfl⟩
    rw [← hY, ← hM, ← hD, ← hH, ← hN, ← hS, ← hZH, ← hZM] at hg
    rw [← hM] at r1 r2
    rw [← hH] at r3
    rw [← hN] at r4
    rw [← hS] at r5
    rw [← hZH] at r8
    rw [← hZM] at r9
    have hzo : g.zoneOffset ≠ -1 ∧ -90000 ≤ g.zoneOffset ∧ g.zoneOffset ≤ 90000 := by
      rw [hg]
      simp only
      split <;> omega
    obtain ⟨k1, k2, k3⟩ := Parse_of_fields layoutAttr s g t hl h
      (by rw [hg]; simp only; omega) (by rw [hg]; simp only; omega)
      (by rw [hg]; simp only; omega) (by rw [hg]; simp only; omega)
      (by rw [hg]; simp only; omega) (by rw [hg]; exact ⟨r6, r7⟩) hzo.1
    obtain ⟨hsec, _⟩ := (IsZero_iff _).mp hz
    rw [k3] at hsec
    simp only at hsec
    have gy : g.year = (Y : Int) := by rw [hg]
    have gm : g.month = (M : Int) := by rw [hg]
    have gh : g.hour = (H : Int) := by rw [hg]
    have gn : g.min = (N : Int) := by rw [hg]
    have gs : g.sec = (S : Int) := by rw [hg]
    obtain ⟨b1, _, _⟩ := daysSinceEpoch_bounds g.year
    obtain ⟨c1, _, _⟩ := yearDay_bounds g.year g.month g.day (by omega) (by omega) k1 k2
    have hY1 : Y ≤ 1 := by
      by_contra hne
      have := b1 (by omega)
      omega
    obtain ⟨v1, _⟩ := digit_digitValue y1 hy1
    obtain ⟨v2, _⟩ := digit_digitValue y2 hy2
    obtain ⟨v3, _⟩ := digit_digitValue y3 hy3
    obtain ⟨v4, _⟩ := digit_digitValue y4 hy4
    subst e
    simp only [List.take_succ_cons, List.take_zero]
    rw [char_of_digitValue y1 hy1 0 (by omega), char_of_digitValue y2 hy2 0 (by omega),
      char_of_digitValue y3 hy3 0 (by omega)]
    rcases Nat.lt_or_ge Y 1 with hlt | hge
    · left
      rw [char_of_digitValue y4 hy4 0 (by omega)]
      rfl
    · right
      rw [char_of_digitValue y4 hy4 1 (by omega)]
      rfl

/-! ### From a date back to its fields -/

theorem daysSinceEpoch_closed (y : Int) :
    daysSinceEpoch y = 365 * (y - 1) + (y - 1) / 4 - (y - 1) / 100 + (y - 1) / 400 := by
  simp only [daysSinceEpoch, daysPer400Years_eq, daysPer100Years_eq, daysPer4Years_eq]
  omega

theorem daysSinceEpoch_succ (y : Int) :
    daysSinceEpoch (y + 1) = daysSinceEpoch y + (if isLeap y = true then 366 else 365) := by
  rw [daysSinceEpoch_closed, daysSinceEpoch_closed]
  simp only [isLeap, Bool.and_eq_true, Bool.or_eq_true, beq_iff_eq, bne_iff_ne, ne_eq]
  split <;> omega

theorem daysSinceEpoch_mono (a b : Int) (h : a ≤ b) : daysSinceEpoch a ≤ daysSinceEpoch b := by
  rw [daysSinceEpoch_closed, daysSinceEpoch_closed]
  omega

/-- A day number has one year and one day of the year. -/
theorem year_unique (y z yd zd : Int) (h : daysSinceEpoch y + yd = daysSinceEpoch z + zd)
    (hy0 : 0 ≤ yd) (hy1 : yd < (if isLeap y = true then 366 else 365))
    (hz0 : 0 ≤ zd) (hz1 : zd < (if isLeap z = true then 366 else 365)) :
    y = z ∧ yd = zd := by
  have key : y = z := by
    by_contra hne
    rcases Int.lt_or_gt_of_ne hne with hlt | hgt
    · have h1 := daysSinceEpoch_succ y
      have h2 := daysSinceEpoch_mono (y + 1) z (by omega)
      omega
    · have h1 := daysSinceEpoch_succ z
      have h2 := daysSinceEpoch_mono (z + 1) y (by omega)
      omega
  subst key
  exact ⟨rfl, by omega⟩

theorem absYear_of_days (y yd clock : Int) (hy0 : 0 ≤ yd)
    (hy1 : yd < (if isLeap y = true then 366 else 365)) (hc0 : 0 ≤ clock) (hc1 : clock < 86400) :
    absYear ((daysSinceEpoch y + yd) * 86400 + clock) = (y, yd) := by
  have hd := absYear_days ((daysSinceEpoch y + yd) * 86400 + clock)
  have hb := absYear_yday ((daysSinceEpoch y + yd) * 86400 + clock)
  have hdiv : ((daysSinceEpoch y + yd) * 86400 + clock) / 86400 = daysSinceEpoch y + yd := by
    omega
  rw [hdiv] at hd
  obtain ⟨e1, e2⟩ := year_unique _ _ _ _ hd hb.1 hb.2 hy0 hy1
  exact Prod.ext e1 e2

set_option maxHeartbeats 1600000 in
/-- The month and day `absDate` finds for the day of the year of a valid month
and day are that month and that day. -/
theorem monthDay_of_yearDay (leap : Bool) (m d : Int) (hm1 : 1 ≤ m) (hm2 : m ≤ 12)
    (hd1 : 1 ≤ d)
    (hd2 : d ≤ (if m = 2 ∧ leap = true then 29 else daysBefore m - daysBefore (m - 1))) :
    monthDay leap (daysBefore (m - 1) + (if leap = true ∧ m ≥ 3 then 1 else 0) + (d - 1)) =
      (m, d) := by
  obtain ⟨d0, d1, d2, d3, d4, d5, d6, d7, d8, d9, d10, d11, d12⟩ := daysBefore_vals
  have hm : m = 1 ∨ m = 2 ∨ m = 3 ∨ m = 4 ∨ m = 5 ∨ m = 6 ∨ m = 7 ∨ m = 8 ∨ m = 9 ∨ m = 10 ∨
      m = 11 ∨ m = 12 := by omega
  obtain ⟨x, hx⟩ : ∃ x, x = daysBefore (m - 1) + (if leap = true ∧ m ≥ 3 then 1 else 0) +
      (d - 1) := ⟨_, rfl⟩
  rw [← hx]
  have hq : ∀ v : Int, 0 ≤ v → v < 366 → (v / 31 = 0 ∨ v / 31 = 1 ∨ v / 31 = 2 ∨ v / 31 = 3 ∨
      v / 31 = 4 ∨ v / 31 = 5 ∨ v / 31 = 6 ∨ v / 31 = 7 ∨ v / 31 = 8 ∨ v / 31 = 9 ∨
      v / 31 = 10 ∨ v / 31 = 11) := by
    intro v h0 h1
    omega
  cases leap
  · simp only [Bool.false_eq_true, and_false, false_and, if_false] at hd2 hx
    simp only [monthDay, Bool.false_eq_true, false_and, if_false]
    rcases hm with h | h | h | h | h | h | h | h | h | h | h | h <;> subst h <;>
      norm_num [d0, d1, d2, d3, d4, d5, d6, d7, d8, d9, d10, d11, d12] at hd2 hx <;>
      rcases hq x (by omega) (by omega) with k | k | k | k | k | k | k | k | k | k | k | k <;>
      rw [k] <;> norm_num [d0, d1, d2, d3, d4, d5, d6, d7, d8, d9, d10, d11, d12] <;>
      split <;> (try simp only [Prod.fst_zero, Prod.snd_zero]) <;>
      (try simp only [true_and]) <;> omega
  · simp only [true_and, and_true] at hd2 hx
    simp only [monthDay, true_and]
    rcases hm with h | h | h | h | h | h | h | h | h | h | h | h <;> subst h <;>
      norm_num [d0, d1, d2, d3, d4, d5, d6, d7, d8, d9, d10, d11, d12] at hd2 hx
    · have e1 : ¬ (x = 31 + 29 - 1) := by omega
      have e2 : ¬ (x > 31 + 29 - 1) := by omega
      simp only [if_neg e1, if_neg e2]
      rcases hq x (by omega) (by omega) with k | k | k | k | k | k | k | k | k | k | k | k <;>
      rw [k] <;> norm_num [d0, d1, d2, d3, d4, d5, d6, d7, d8, d9, d10, d11, d12] <;>
      split <;> (try simp only [Prod.fst_zero, Prod.snd_zero]) <;>
      (try simp only [true_and]) <;> omega
    · by_cases h59 : x = 31 + 29 - 1
      · rw [if_pos h59]
        simp only [Prod.mk.injEq, true_and]
        omega
      · have e2 : ¬ (x > 31 + 29 - 1) := by omega
        simp only [if_neg h59, if_neg e2]
        rcases hq x (by omega) (by omega) with k | k | k | k | k | k | k | k | k | k | k | k <;>
        rw [k] <;> norm_num [d0, d1, d2, d3, d4, d5, d6, d7, d8, d9, d10, d11, d12] <;>
        split <;> (try simp only [Prod.fst_zero, Prod.snd_zero]) <;> omega
    all_goals
      have e1 : ¬ (x = 31 + 29 - 1) := by omega
      have e2 : x > 31 + 29 - 1 := by omega
      simp only [if_neg e1, if_pos e2]
      rcases hq (x - 1) (by omega) (by omega) with
        k | k | k | k | k | k | k | k | k | k | k | k <;>
      rw [k] <;> norm_num [d0, d1, d2, d3, d4, d5, d6, d7, d8, d9, d10, d11, d12] <;>
      split <;> (try simp only [Prod.fst_zero, Prod.snd_zero]) <;> omega

theorem yearDay_lt (y m d : Int) (hm1 : 1 ≤ m) (hm2 : m ≤ 12) (hd1 : 1 ≤ d)
    (hd2 : d ≤ daysIn m y) :
    daysBefore (m - 1) + (if isLeap y = true ∧ m ≥ 3 then 1 else 0) + (d - 1) <
      (if isLeap y = true then 366 else 365) := by
  obtain ⟨d0, d1, d2, d3, d4, d5, d6, d7, d8, d9, d10, d11, d12⟩ := daysBefore_vals
  have hm : m = 1 ∨ m = 2 ∨ m = 3 ∨ m = 4 ∨ m = 5 ∨ m = 6 ∨ m = 7 ∨ m = 8 ∨ m = 9 ∨ m = 10 ∨
      m = 11 ∨ m = 12 := by omega
  simp only [daysIn] at hd2
  cases hl : isLeap y <;> simp only [hl, Bool.false_eq_true, false_and, true_and, and_false,
      and_true, if_false, if_true] at hd2 ⊢ <;>
    rcases hm with h | h | h | h | h | h | h | h | h | h | h | h <;> subst h <;>
    norm_num [d0, d1, d2, d3, d4, d5, d6, d7, d8, d9, d10, d11, d12] at hd2 ⊢ <;> omega

/-- The date `absDate` reads off the wall-clock seconds of a valid date is that
date. -/
theorem absDate_of_valid (y m d clock : Int) (hm1 : 1 ≤ m) (hm2 : m ≤ 12) (hd1 : 1 ≤ d)
    (hd2 : d ≤ daysIn m y) (hc0 : 0 ≤ clock) (hc1 : clock < 86400) :
    absDate ((daysSinceEpoch y + daysBefore (m - 1) +
        (if isLeap y = true ∧ m ≥ 3 then 1 else 0) + (d - 1)) * 86400 + clock) =
      (y, m, d, daysBefore (m - 1) + (if isLeap y = true ∧ m ≥ 3 then 1 else 0) + (d - 1)) := by
  obtain ⟨b0, _, _⟩ := yearDay_bounds y m d hm1 hm2 hd1 hd2
  have b1 := yearDay_lt y m d hm1 hm2 hd1 hd2
  have hy := absYear_of_days y
    (daysBefore (m - 1) + (if isLeap y = true ∧ m ≥ 3 then 1 else 0) + (d - 1)) clock b0 b1
    hc0 hc1
  have e : (daysSinceEpoch y + daysBefore (m - 1) +
        (if isLeap y = true ∧ m ≥ 3 then 1 else 0) + (d - 1)) =
      daysSinceEpoch y + (daysBefore (m - 1) + (if isLeap y = true ∧ m ≥ 3 then 1 else 0) +
        (d - 1)) := by omega
  rw [absDate_eq, e, hy]
  simp only
  have hmd := monthDay_of_yearDay (isLeap y) m d hm1 hm2 hd1 (by simpa only [daysIn] using hd2)
  rw [hmd]

/-- The clock `absClock` reads off the wall-clock seconds of a valid time of
day is that time of day. -/
theorem absClock_of_valid (days h mi s : Int) (hh : 0 ≤ h ∧ h < 24) (hmi : 0 ≤ mi ∧ mi < 60)
    (hs : 0 ≤ s ∧ s < 60) :
    absClock (days * 86400 + (h * 3600 + mi * 60 + s)) = (h, mi, s) := by
  simp only [absClock, secondsPerDay, secondsPerHour, secondsPerMinute, Prod.mk.injEq]
  omega

/-- The calendar and clock fields of the time `Parse` builds from valid field
values and a zone offset are those field values. -/
theorem fields_of_valid (y m d h mi s ns zo : Int) (hm : 1 ≤ m ∧ m ≤ 12) (hd1 : 1 ≤ d)
    (hd2 : d ≤ daysIn m y) (hh : 0 ≤ h ∧ h < 24) (hmi : 0 ≤ mi ∧ mi < 60)
    (hs : 0 ≤ s ∧ s < 60) (t : Time)
    (ht : t =
      { sec := (daysSinceEpoch y + daysBefore (m - 1) +
            (if isLeap y = true ∧ m ≥ 3 then 1 else 0) + (d - 1)) * 86400 +
            (h * 3600 + mi * 60 + s) - zo,
        nsec := ns, offset := zo }) :
    t.Year = y ∧ t.Month = m ∧ t.Day = d ∧ t.Hour = h ∧ t.Minute = mi ∧ t.Second = s := by
  have habs : t.abs = (daysSinceEpoch y + daysBefore (m - 1) +
      (if isLeap y = true ∧ m ≥ 3 then 1 else 0) + (d - 1)) * 86400 + (h * 3600 + mi * 60 + s) := by
    rw [ht]
    simp only [Time.abs]
    omega
  have hD := absDate_of_valid y m d (h * 3600 + mi * 60 + s) hm.1 hm.2 hd1 hd2 (by omega)
    (by omega)
  have hC := absClock_of_valid (daysSinceEpoch y + daysBefore (m - 1) +
      (if isLeap y = true ∧ m ≥ 3 then 1 else 0) + (d - 1)) h mi s hh hmi hs
  simp only [Time.Year, Time.Month, Time.Day, Time.Hour, Time.Minute, Time.Second, habs, hD, hC,
    and_self]

theorem decimalValue_two (a b : Char) : decimalValue [a, b] = digitValue a * 10 + digitValue b := by
  simp [decimalValue]

theorem decimalValue_four (a b c d : Char) :
    decimalValue [a, b, c, d] =
      digitValue a * 1000 + digitValue b * 100 + digitValue c * 10 + digitValue d := by
  simp only [decimalValue, List.foldl_cons, List.foldl_nil]
  omega

/-- In a text of the strict grammar the fourteen digits are followed by one
space and the offset, with no fractional second and no further space. -/
theorem strict_tail (v r : List Char) (sg z1 z2 z3 z4 : Char)
    (hs : (match some v with
      | some (' ' :: rest) => isOffsetText rest
      | _ => false) = true)
    (hd : dropFraction v = ' ' :: r) (hc : cutspace r = [sg, z1, z2, z3, z4]) :
    v = [' ', sg, z1, z2, z3, z4] := by
  match v, hs, hd with
  | [], hs, _ => simp at hs
  | c :: rest, hs, hd =>
    by_cases hsp : c = ' '
    · subst hsp
      simp only at hs
      have hdf : dropFraction (' ' :: rest) = ' ' :: rest := by
        cases rest with
        | nil => rfl
        | cons a as =>
          simp [dropFraction]
      rw [hdf] at hd
      simp only [List.cons.injEq, true_and] at hd
      subst hd
      match rest, hs, hc with
      | [], hs, _ => simp [isOffsetText] at hs
      | a :: as, hs, hc =>
        simp only [isOffsetText, Bool.and_eq_true, Bool.or_eq_true, beq_iff_eq] at hs
        have ha : a ≠ ' ' := by
          rcases hs.1 with h | h <;> subst h <;> decide
        have hb : (a == ' ') = false := by simpa using ha
        have : cutspace (a :: as) = a :: as := by
          simp only [cutspace, List.dropWhile, hb]
        rw [this] at hc
        rw [hc]
    · exfalso
      revert hs
      split
      · rename_i heq
        simp only [Option.some.injEq, List.cons.injEq] at heq
        exact absurd heq.1 hsp
      · simp

/-- What a text of the strict grammar decodes to: the fields its digits write,
no nanoseconds, the offset its last five characters write. -/
theorem Parse_layoutAttr_strict (s : List Char) (t : Time)
    (hs : strictTimestampGrammar s = true) (hp : Parse layoutAttr s = some t) :
    t.Year = fieldValue s 0 4 ∧ t.Month = fieldValue s 4 2 ∧ t.Day = fieldValue s 6 2 ∧
    t.Hour = fieldValue s 8 2 ∧ t.Minute = fieldValue s 10 2 ∧ t.Second = fieldValue s 12 2 ∧
    t.nsec = 0 ∧
    t.offset = (if s.get? 15 = some '-' then -1 else 1) *
      (((fieldValue s 16 2 * 60 + fieldValue s 18 2) * 60 : Nat) : Int) ∧
    t.sec = (Date (fieldValue s 0 4) (fieldValue s 4 2) (fieldValue s 6 2) (fieldValue s 8 2)
      (fieldValue s 10 2) (fieldValue s 12 2) 0).sec - t.offset := by
  cases hl : parseLoop layoutAttr s Fields.init with
  | none => simp [Parse, hl] at hp
  | some g =>
    obtain ⟨y1, y2, y3, y4, m1, m2, d1, d2, h1, h2, n1, n2, s1, s2, v, r, sg, z1, z2, z3, z4,
      ns, e, ⟨hy1, hy2, hy3, hy4, hm1, hm2, hd1, hd2, hh1, hh2, hn1, hn2, hs1, hs2⟩, e1, e2,
      hsg, ⟨hz1, hz2, hz3, hz4⟩, ⟨r1, r2, r3, r4, r5, _, _, r8, r9⟩, _⟩ :=
      parseLoop_layoutAttr_some s g hl
    subst e
    simp only [strictTimestampGrammar, stripDigits, hy1, hy2, hy3, hy4, hm1, hm2, hd1, hd2,
      hh1, hh2, hn1, hn2, hs1, hs2, if_true] at hs
    have hv := strict_tail v r sg z1 z2 z3 z4 hs e1 e2
    subst hv
    obtain ⟨a1, b1⟩ := digits_decimal_four y1 y2 y3 y4 hy1 hy2 hy3 hy4
    obtain ⟨a2, b2⟩ := digits_decimal_two m1 m2 hm1 hm2
    obtain ⟨a3, b3⟩ := digits_decimal_two d1 d2 hd1 hd2
    obtain ⟨a4, b4⟩ := digits_decimal_two h1 h2 hh1 hh2
    obtain ⟨a5, b5⟩ := digits_decimal_two n1 n2 hn1 hn2
    obtain ⟨a6, b6⟩ := digits_decimal_two s1 s2 hs1 hs2
    obtain ⟨a7, b7⟩ := digits_decimal_two z1 z2 hz1 hz2
    obtain ⟨a8, b8⟩ := digits_decimal_two z3 z4 hz3 hz4
    have f1 : fieldValue [y1, y2, y3, y4, m1, m2, d1, d2, h1, h2, n1, n2, s1, s2, ' ', sg, z1,
        z2, z3, z4] 0 4 =
        digitValue y1 * 1000 + digitValue y2 * 100 + digitValue y3 * 10 + digitValue y4 := by
      simp only [fieldValue, List.drop_zero, List.take_succ_cons, List.take_zero,
        decimalValue_four]
    have f2 : fieldValue [y1, y2, y3, y4, m1, m2, d1, d2, h1, h2, n1, n2, s1, s2, ' ', sg, z1,
        z2, z3, z4] 4 2 = digitValue m1 * 10 + digitValue m2 := by
      simp only [fieldValue, List.drop_succ_cons, List.drop_zero, List.take_succ_cons,
        List.take_zero, decimalValue_two]
    have f3 : fieldValue [y1, y2, y3, y4, m1, m2, d1, d2, h1, h2, n1, n2, s1, s2, ' ', sg, z1,
        z2, z3, z4] 6 2 = digitValue d1 * 10 + digitValue d2 := by
      simp only [fieldValue, List.drop_succ_cons, List.drop_zero, List.take_succ_cons,
        List.take_zero, decimalValue_two]
    have f4 : fieldValue [y1, y2, y3, y4, m1, m2, d1, d2, h1, h2, n1, n2, s1, s2, ' ', sg, z1,
        z2, z3, z4] 8 2 = digitValue h1 * 10 + digitValue h2 := by
      simp only [fieldValue, List.drop_succ_cons, List.drop_zero, List.take_succ_cons,
        List.take_zero, decimalValue_two]
    have f5 : fieldValue [y1, y2, y3, y4, m1, m2, d1, d2, h1, h2, n1, n2, s1, s2, ' ', sg, z1,
        z2, z3, z4] 10 2 = digitValue n1 * 10 + digitValue n2 := by
      simp only [fieldValue, List.drop_succ_cons, List.drop_zero, List.take_succ_cons,
        List.take_zero, decimalValue_two]
    have f6 : fieldValue [y1, y2, y3, y4, m1, m2, d1, d2, h1, h2, n1, n2, s1, s2, ' ', sg, z1,
        z2, z3, z4] 12 2 = digitValue s1 * 10 + digitValue s2 := by
      simp only [fieldValue, List.drop_succ_cons, List.drop_zero, List.take_succ_cons,
        List.take_zero, decimalValue_two]
    have f7 : fieldValue [y1, y2, y3, y4, m1, m2, d1, d2, h1, h2, n1, n2, s1, s2, ' ', sg, z1,
        z2, z3, z4] 16 2 = digitValue z1 * 10 + digitValue z2 := by
      simp only [fieldValue, List.drop_succ_cons, List.drop_zero, List.take_succ_cons,
        List.take_zero, decimalValue_two]
    have f8 : fieldValue [y1, y2, y3, y4, m1, m2, d1, d2, h1, h2, n1, n2, s1, s2, ' ', sg, z1,
        z2, z3, z4] 18 2 = digitValue z3 * 10 + digitValue z4 := by
      simp only [fieldValue, List.drop_succ_cons, List.drop_zero, List.take_succ_cons,
        List.take_zero, List.take_nil, decimalValue_two]
    have f9 : [y1, y2, y3, y4, m1, m2, d1, d2, h1, h2, n1, n2, s1, s2, ' ', sg, z1,
        z2, z3, z4].get? 15 = some sg := rfl
    rw [f1, f2, f3, f4, f5, f6, f7, f8, f9]
    obtain ⟨Y, hY⟩ : ∃ Y, Y = digitValue y1 * 1000 + digitValue y2 * 100 +
      digitValue y3 * 10 + digitValue y4 := ⟨_, rfl⟩
    obtain ⟨M, hM⟩ : ∃ M, M = digitValue m1 * 10 + digitValue m2 := ⟨_, rfl⟩
    obtain ⟨D, hD⟩ : ∃ D, D = digitValue d1 * 10 + digitValue d2 := ⟨_, rfl⟩
    obtain ⟨H, hH⟩ : ∃ H, H = digitValue h1 * 10 + digitValue h2 := ⟨_, rfl⟩
    obtain ⟨N, hN⟩ : ∃ N, N = digitValue n1 * 10 + digitValue n2 := ⟨_, rfl⟩
    obtain ⟨S, hS⟩ : ∃ S, S = digitValue s1 * 10 + digitValue s2 := ⟨_, rfl⟩
    obtain ⟨ZH, hZH⟩ : ∃ ZH, ZH = digitValue z1 * 10 + digitValue z2 := ⟨_, rfl⟩
    obtain ⟨ZM, hZM⟩ : ∃ ZM, ZM = digitValue z3 * 10 + digitValue z4 := ⟨_, rfl⟩
    rw [← hY] at a1 b1 ⊢
    rw [← hM] at a2 b2 r1 r2 ⊢
    rw [← hD] at a3 b3 ⊢
    rw [← hH] at a4 b4 r3 ⊢
    rw [← hN] at a5 b5 r4 ⊢
    rw [← hS] at a6 b6 r5 ⊢
    rw [← hZH] at a7 b7 r8 ⊢
    rw [← hZM] at a8 b8 r9 ⊢
    have hfwd := parseLoop_layoutAttr Y M D H N S ZH ZM sg b1 ⟨r1, r2⟩ b3 r3 r4 r5 r8 r9 hsg
    have elist : [y1, y2, y3, y4, m1, m2, d1, d2, h1, h2, n1, n2, s1, s2, ' ', sg, z1,
        z2, z3, z4] = [y1, y2, y3, y4] ++ ([m1, m2] ++ ([d1, d2] ++ ([h1, h2] ++ ([n1, n2] ++
          ([s1, s2] ++ ' ' :: sg :: ([z1, z2] ++ [z3, z4])))))) := rfl
    rw [elist, a1, a2, a3, a4, a5, a6, a7, a8] at hl hp
    rw [hfwd] at hl
    simp only [Option.some.injEq] at hl
    have hzo : g.zoneOffset = (if sg = '-' then -1 else 1) * (((ZH * 60 + ZM) * 60 : Nat) : Int) := by
      rw [← hl]
      simp only
      split <;> push_cast <;> omega
    have hzne : g.zoneOffset ≠ -1 := by
      rw [hzo]
      split <;> push_cast <;> omega
    obtain ⟨k1, k2, k3⟩ := Parse_of_fields layoutAttr _ g t (by rw [hfwd]; exact congrArg some hl) hp
      (by rw [← hl]; simp only; omega) (by rw [← hl]; simp only; omega)
      (by rw [← hl]; simp only; omega) (by rw [← hl]; simp only; omega)
      (by rw [← hl]; simp only; omega) (by rw [← hl]; simp only; omega) hzne
    have gy : g.year = (Y : Int) := by rw [← hl]
    have gm : g.month = (M : Int) := by rw [← hl]
    have gd : g.day = (D : Int) := by rw [← hl]
    have gh : g.hour = (H : Int) := by rw [← hl]
    have gn : g.min = (N : Int) := by rw [← hl]
    have gs : g.sec = (S : Int) := by rw [← hl]
    have gns : g.nsec = 0 := by rw [← hl]
    rw [gy, gm, gd, gh, gn, gs, gns] at k3
    rw [gy, gm, gd] at k2
    rw [gd] at k1
    obtain ⟨q1, q2, q3, q4, q5, q6⟩ := fields_of_valid (Y : Int) (M : Int) (D : Int) (H : Int)
      (N : Int) (S : Int) 0 g.zoneOffset (by omega) k1 k2 (by omega) (by omega) (by omega) t k3
    refine ⟨q1, q2, q3, q4, q5, q6, by rw [k3], by rw [k3, hzo]; simp only [Option.some.injEq], ?_⟩
    rw [Date_valid _ _ _ _ _ _ _ (by omega) (by omega) (by omega) (by omega) (by omega)]
    rw [k3]

/-! ### The length of what `Format` appends -/

theorem appendInt_length (b : List Char) (x : Int) (width : Nat) :
    b.length + width ≤ (appendInt b x width).length := by
  unfold appendInt
  simp only
  split <;> split
  all_goals (try split)
  all_goals simp only [List.length_append, List.length_cons, List.length_nil,
    List.length_replicate]
  all_goals omega

theorem appendStd_length (b : List Char) (t : Time) (std : Std) :
    b.length + 2 ≤ (appendStd b t std).length := by
  cases std
  · have := appendInt_length b t.Year 4
    simp only [appendStd]
    omega
  · exact appendInt_length b t.Month 2
  · exact appendInt_length b t.Day 2
  · exact appendInt_length b t.Hour 2
  · exact appendInt_length b t.Minute 2
  · exact appendInt_length b t.Second 2
  · simp only [appendStd]
    split
    · have h1 := appendInt_length (b ++ ['-']) (Int.tdiv (-(Int.tdiv t.offset 60)) 60) 2
      have h2 := appendInt_length (appendInt (b ++ ['-']) (Int.tdiv (-(Int.tdiv t.offset 60)) 60) 2)
        (Int.tmod (-(Int.tdiv t.offset 60)) 60) 2
      simp only [List.length_append, List.length_cons, List.length_nil] at h1
      dsimp only
      omega
    · have h1 := appendInt_length (b ++ ['+']) (Int.tdiv (Int.tdiv t.offset 60) 60) 2
      have h2 := appendInt_length (appendInt (b ++ ['+']) (Int.tdiv (Int.tdiv t.offset 60) 60) 2)
        (Int.tmod (Int.tdiv t.offset 60) 60) 2
      simp only [List.length_append, List.length_cons, List.length_nil] at h1
      dsimp only
      omega

theorem appendFormat_length (b : List Char) (t : Time) (l : List Chunk) :
    b.length + 2 * l.length ≤ (appendFormat b t l).length := by
  induction l generalizing b with
  | nil => simp [appendFormat]
  | cons c rest ih =>
    have h1 := appendStd_length (b ++ c.lit) t c.std
    have h2 := ih (appendStd (b ++ c.lit) t c.std)
    simp only [List.length_append, List.length_cons] at h1 ⊢
    simp only [appendFormat]
    omega

theorem String_mk_ne_empty (l : List Char) (h : 0 < l.length) : String.mk l ≠ "" := by
  cases l with
  | nil => simp at h
  | cons c l => exact String_mk_cons_ne_empty c l

/-- Whatever the time, the text `Format` builds for either layout is not empty. -/
theorem Format_ne_empty (t : Time) (l : List Chunk) (h : 0 < l.length) : t.Format l ≠ "" := by
  have := appendFormat_length [] t l
  exact String_mk_ne_empty _ (by simp only [List.length_nil] at this; omega)

/-- What `Parse` accepts with the date-only layout, `Format` writes back. -/
theorem Format_Parse_layoutElem (s : List Char) (t : Time) (h : Parse layoutElem s = some t) :
    appendFormat [] t layoutElem = s := by
  cases hl : parseLoop layoutElem s Fields.init with
  | none => simp [Parse, hl] at h
  | some g =>
    obtain ⟨y1, y2, y3, y4, m1, m2, d1, d2, e, hy1, hy2, hy3, hy4, hm1, hm2, hd1, hd2, r1,
      r2, hg⟩ := parseLoop_layoutElem_some s g hl
    subst e
    rw [Parse_layoutElem_digits y1 y2 y3 y4 m1 m2 d1 d2 hy1 hy2 hy3 hy4 hm1 hm2 hd1 hd2
      r1 r2] at h
    split at h
    · rename_i hd
      have hdi := daysIn_daysOfMonth (digitValue y1 * 1000 + digitValue y2 * 100 +
        digitValue y3 * 10 + digitValue y4) (digitValue m1 * 10 + digitValue m2) r1 r2
      simp only [Option.some.injEq] at h
      obtain ⟨e1, b1⟩ := digits_decimal_four y1 y2 y3 y4 hy1 hy2 hy3 hy4
      obtain ⟨e2, b2⟩ := digits_decimal_two m1 m2 hm1 hm2
      obtain ⟨e3, b3⟩ := digits_decimal_two d1 d2 hd1 hd2
      have e : [y1, y2, y3, y4, m1, m2, d1, d2] =
          [y1, y2, y3, y4] ++ ([m1, m2] ++ ([d1, d2] ++ [])) := rfl
      rw [e, e1, e2, e3]
      obtain ⟨Y, hY⟩ : ∃ Y, Y = digitValue y1 * 1000 + digitValue y2 * 100 +
        digitValue y3 * 10 + digitValue y4 := ⟨_, rfl⟩
      obtain ⟨M, hM⟩ : ∃ M, M = digitValue m1 * 10 + digitValue m2 := ⟨_, rfl⟩
      obtain ⟨D, hD⟩ : ∃ D, D = digitValue d1 * 10 + digitValue d2 := ⟨_, rfl⟩
      rw [← hY, ← hM] at hdi
      rw [← hY, ← hM, ← hD] at h hd ⊢
      rw [← hY] at b1
      rw [← hM] at r1 r2
      rw [Date_valid _ _ _ _ _ _ _ (by omega) (by omega) (by omega) (by omega) (by omega)]
        at h
      obtain ⟨k1, k2, k3, _⟩ := fields_of_valid (Y : Int) (M : Int) (D : Int) 0 0 0 0 0
        (by omega) (by omega) (by omega) (by omega) (by omega) (by omega) t
        (by rw [← h]; simp)
      rw [appendFormat_layoutElem t (by omega) (by omega), k1, k2, k3]
      simp only [Int.toNat_ofNat]
    · simp at h

end time

/-! ## The claims -/

open time

/-- C1 (as stated, refuted): a value in year 10000 is encoded to a text that
does not decode, a value whose offset is not a whole number of minutes decodes
to another offset and another instant, and a value at offset +25:00 is encoded
to a text that does not decode. -/
theorem C1_counterexample :
    ((Date 10000 1 1 0 0 0 0).IsZero = false ∧ (Date 10000 1 1 0 0 0 0).nsec = 0 ∧
      (XMLTVTime.UnmarshalXMLAttr XMLTVTime.zero
        (XMLTVTime.MarshalXMLAttr (some ⟨Date 10000 1 1 0 0 0 0⟩) ⟨"", "start"⟩).1).2 ≠ none) ∧
    ((⟨63784368000, 0, 30⟩ : Time).IsZero = false ∧
      XMLTVTime.UnmarshalXMLAttr XMLTVTime.zero
        (XMLTVTime.MarshalXMLAttr (some ⟨⟨63784368000, 0, 30⟩⟩) ⟨"", "start"⟩).1 =
          (⟨⟨63784368030, 0, 0⟩⟩, none)) ∧
    ((⟨63784368000, 0, 90000⟩ : Time).IsZero = false ∧
      XMLTVTime.MarshalXMLAttr (some ⟨⟨63784368000, 0, 90000⟩⟩) ⟨"", "start"⟩ =
        ({ Name := ⟨"", "start"⟩, Value := "20220402010000 +2500" }, none) ∧
      (XMLTVTime.UnmarshalXMLAttr XMLTVTime.zero
        { Name := ⟨"", "start"⟩, Value := "20220402010000 +2500" }).2 ≠ none) := by
  decide

/-- C1 (amended): for a non-zero value without sub-second part whose year, read
in its own offset, is in 0..9999 and whose offset is a whole number of minutes
of at most 24 h 59 min either way, decoding the attribute `MarshalXMLAttr`
produced succeeds and gives the same instant and the same offset. -/
theorem C1_time_attr_round_trip (v r : XMLTVTime) (n : xml.Name)
    (hz : v.Time.IsZero = false) (hn : v.Time.nsec = 0)
    (hy0 : 0 ≤ v.Time.Year) (hy1 : v.Time.Year ≤ 9999)
    (hm : v.Time.offset % 60 = 0) (ho0 : -89940 ≤ v.Time.offset)
    (ho1 : v.Time.offset ≤ 89940) :
    XMLTVTime.UnmarshalXMLAttr r (XMLTVTime.MarshalXMLAttr (some v) n).1 = (v, none) := by
  have hne := Format_layoutAttr_ne_empty v.Time hy0 hy1 (by omega) (by omega)
  have hp := Parse_Format_layoutAttr v.Time hy0 hy1 hn hm ho0 ho1
  simp only [XMLTVTime.MarshalXMLAttr, hz, Bool.false_eq_true, if_false,
    XMLTVTime.UnmarshalXMLAttr, if_neg hne]
  simp only [Time.Format, hp]

theorem C1_time_attr_round_trip_witness :
    XMLTVTime.UnmarshalXMLAttr XMLTVTime.zero
      (XMLTVTime.MarshalXMLAttr (some ⟨⟨63784368000, 0, -18000⟩⟩) ⟨"", "start"⟩).1 =
        (⟨⟨63784368000, 0, -18000⟩⟩, none) :=
  C1_time_attr_round_trip ⟨⟨63784368000, 0, -18000⟩⟩ XMLTVTime.zero ⟨"", "start"⟩
    (by decide) (by decide) (by decide) (by decide) (by decide) (by decide) (by decide)

/-- C2 (as stated, refuted): the element text of a value in year 10000 has nine
digits and does not decode. -/
theorem C2_counterexample :
    (Date 10000 1 1 0 0 0 0).IsZero = false ∧
    XMLTVTime.MarshalXML (some ⟨Date 10000 1 1 0 0 0 0⟩) (fun v _ => v) ⟨⟨"", "date"⟩, []⟩ =
      xml.ElemValue.text "100000101" ∧
    XMLTVTime.UnmarshalXML XMLTVTime.zero (.ok "100000101") ⟨⟨"", "date"⟩, []⟩ =
      (XMLTVTime.zero, some (Error.parse "20060102" "100000101")) := by
  decide

/-- C2 (amended): for a non-zero value whose year, read in its own offset, is in
0..9999, the element text `MarshalXML` emits decodes without error to a value
with the year, month and day of the original in its own offset; when the
original is a midnight-UTC date the decoded value is the original. -/
theorem C2_time_elem_round_trip (v r : XMLTVTime) (start : xml.StartElement)
    (hz : v.Time.IsZero = false) (hy0 : 0 ≤ v.Time.Year) (hy1 : v.Time.Year ≤ 9999) :
    ∃ (s : String) (tt : Time),
      (∀ (ε : Type) (enc : xml.ElemValue → xml.StartElement → ε),
        XMLTVTime.MarshalXML (some v) enc start = enc (xml.ElemValue.text s) start) ∧
      XMLTVTime.UnmarshalXML r (.ok s) start = (⟨tt⟩, none) ∧
      tt.Year = v.Time.Year ∧ tt.Month = v.Time.Month ∧ tt.Day = v.Time.Day ∧
      (v.Time.offset = 0 ∧ v.Time.nsec = 0 ∧ v.Time.sec % 86400 = 0 → tt = v.Time) := by
  have hne := Format_layoutElem_ne_empty v.Time hy0 hy1
  have hp := Parse_Format_layoutElem v.Time hy0 hy1
  have hd := absDate_day_start v.Time.abs
  refine ⟨v.Time.Format layoutElem, ⟨v.Time.abs / 86400 * 86400, 0, 0⟩, ?_, ?_, ?_, ?_, ?_, ?_⟩
  · intro ε enc
    simp only [XMLTVTime.MarshalXML, hz, Bool.false_eq_true, if_false]
  · simp only [XMLTVTime.UnmarshalXML, if_neg hne]
    simp only [Time.Format, hp]
  · simp only [Time.Year, Time.abs, add_zero] at hd ⊢
    rw [hd]
  · simp only [Time.Month, Time.abs, add_zero] at hd ⊢
    rw [hd]
  · simp only [Time.Day, Time.abs, add_zero] at hd ⊢
    rw [hd]
  · rintro ⟨h1, h2, h3⟩
    obtain ⟨⟨sec, nsec, offset⟩⟩ := v
    simp only [Time.abs] at h1 h2 h3 ⊢
    subst h1 h2
    simp only [add_zero, Time.mk.injEq, and_true]
    omega

theorem C2_time_elem_round_trip_witness :
    ∃ (s : String) (tt : Time),
      (∀ (ε : Type) (enc : xml.ElemValue → xml.StartElement → ε),
        XMLTVTime.MarshalXML (some ⟨⟨63784450800, 0, -18000⟩⟩) enc ⟨⟨"", "date"⟩, []⟩ =
          enc (xml.ElemValue.text s) ⟨⟨"", "date"⟩, []⟩) ∧
      XMLTVTime.UnmarshalXML XMLTVTime.zero (.ok s) ⟨⟨"", "date"⟩, []⟩ = (⟨tt⟩, none) ∧
      tt.Year = (⟨63784450800, 0, -18000⟩ : Time).Year ∧
      tt.Month = (⟨63784450800, 0, -18000⟩ : Time).Month ∧
      tt.Day = (⟨63784450800, 0, -18000⟩ : Time).Day ∧
      ((⟨63784450800, 0, -18000⟩ : Time).offset = 0 ∧
        (⟨63784450800, 0, -18000⟩ : Time).nsec = 0 ∧
        (⟨63784450800, 0, -18000⟩ : Time).sec % 86400 = 0 → tt = ⟨63784450800, 0, -18000⟩) :=
  C2_time_elem_round_trip ⟨⟨63784450800, 0, -18000⟩⟩ XMLTVTime.zero ⟨⟨"", "date"⟩, []⟩
    (by decide) (by decide) (by decide)

/-- C3: the attribute a boolean is encoded to decodes back to that boolean,
whatever the attribute name and whatever the receiver held before. -/
theorem C3_bool_attr_round_trip (b : XMLTVBool) (n : xml.Name) (r : XMLTVBool) :
    XMLTVBool.UnmarshalXMLAttr r (XMLTVBool.MarshalXMLAttr (some b) n).1 = (b, none) := by
  cases b <;> simp [XMLTVBool.UnmarshalXMLAttr, XMLTVBool.MarshalXMLAttr]

/-- C4: for an element whose local name is not "new", the text `MarshalXML`
hands to the encoder for `b` is decoded by `UnmarshalXML` to `b`, with no
error. -/
theorem C4_bool_elem_round_trip (b : XMLTVBool) (start : xml.StartElement) (r : XMLTVBool)
    (h : start.Name.Local ≠ "new") :
    ∃ s : String,
      (∀ (ε : Type) (enc : xml.ElemValue → xml.StartElement → ε),
        XMLTVBool.MarshalXML (some b) enc start = enc (xml.ElemValue.text s) start) ∧
      XMLTVBool.UnmarshalXML r (.ok s) start = (b, none) := by
  cases b
  · exact ⟨"no", fun _ _ => by simp [XMLTVBool.MarshalXML, h],
      by simp [XMLTVBool.UnmarshalXML, h]⟩
  · exact ⟨"yes", fun _ _ => by simp [XMLTVBool.MarshalXML, h],
      by simp [XMLTVBool.UnmarshalXML, h]⟩

theorem C4_bool_elem_round_trip_witness :
    ∃ s : String,
      (∀ (ε : Type) (enc : xml.ElemValue → xml.StartElement → ε),
        XMLTVBool.MarshalXML (some true) enc ⟨⟨"", "premiere"⟩, []⟩ =
          enc (xml.ElemValue.text s) ⟨⟨"", "premiere"⟩, []⟩) ∧
      XMLTVBool.UnmarshalXML false (.ok s) ⟨⟨"", "premiere"⟩, []⟩ = (true, none) :=
  C4_bool_elem_round_trip true ⟨⟨"", "premiere"⟩, []⟩ false (by decide)

/-- C5 (as stated, refuted): the attribute value of a value in year 10000 has
21 characters, with 15 digits before the space. -/
theorem C5_counterexample :
    (Date 10000 1 1 0 0 0 0).IsZero = false ∧
    XMLTVTime.MarshalXMLAttr (some ⟨Date 10000 1 1 0 0 0 0⟩) ⟨"", "start"⟩ =
      ({ Name := ⟨"", "start"⟩, Value := "100000101000000 +0000" }, none) ∧
    ("100000101000000 +0000" : String).length ≠ 20 := by
  decide

/-- C5 (amended): for a non-nil, non-zero value whose year, read in its own
offset, is in 0..9999 and whose offset is under 100 hours either way,
`MarshalXMLAttr` returns an attribute of the given name whose value has exactly
20 characters: year in 4 digits, month, day, hour, minute and second in 2 digits
each, a space, the sign of the offset and its hours and minutes in 2 digits
each. -/
theorem C5_time_attr_format (v : XMLTVTime) (n : xml.Name) (hz : v.Time.IsZero = false)
    (hy0 : 0 ≤ v.Time.Year) (hy1 : v.Time.Year ≤ 9999)
    (ho0 : -360000 < v.Time.offset) (ho1 : v.Time.offset < 360000) :
    XMLTVTime.MarshalXMLAttr (some v) n =
      ({ Name := n,
         Value := String.mk
          (decimal 4 v.Time.Year.toNat ++ (decimal 2 v.Time.Month.toNat ++
            (decimal 2 v.Time.Day.toNat ++ (decimal 2 v.Time.Hour.toNat ++
              (decimal 2 v.Time.Minute.toNat ++ (decimal 2 v.Time.Second.toNat ++
                ' ' :: (if v.Time.offset ≤ -60 then '-' else '+') ::
                  (decimal 2 (v.Time.offset.natAbs / 3600) ++
                    decimal 2 (v.Time.offset.natAbs / 60 % 60)))))))) }, none) ∧
    (XMLTVTime.MarshalXMLAttr (some v) n).1.Value.length = 20 := by
  have hf := appendFormat_layoutAttr v.Time hy0 hy1 ho0 ho1
  have e : XMLTVTime.MarshalXMLAttr (some v) n =
      ({ Name := n, Value := String.mk (appendFormat [] v.Time layoutAttr) }, none) := by
    simp only [XMLTVTime.MarshalXMLAttr, hz, Bool.false_eq_true, if_false, Time.Format]
  refine ⟨by rw [e, hf], ?_⟩
  rw [e, hf]
  simp [String.length, decimal_length]

theorem C5_time_attr_format_witness :
    XMLTVTime.MarshalXMLAttr (some ⟨Date 2022 4 1 0 0 0 0⟩) ⟨"", "start"⟩ =
      ({ Name := ⟨"", "start"⟩, Value := "20220401000000 +0000" }, none) ∧
    (XMLTVTime.MarshalXMLAttr (some ⟨Date 2022 4 1 0 0 0 0⟩) ⟨"", "start"⟩).1.Value.length = 20 :=
  C5_time_attr_format ⟨Date 2022 4 1 0 0 0 0⟩ ⟨"", "start"⟩ (by decide) (by decide) (by decide)
    (by decide) (by decide)

/-- C6 (as stated, refuted): the element text of a value in year 10000 has nine
digits. -/
theorem C6_counterexample :
    (Date 10000 1 1 0 0 0 0).IsZero = false ∧
    XMLTVTime.MarshalXML (some ⟨Date 10000 1 1 0 0 0 0⟩) (fun v _ => v) ⟨⟨"", "date"⟩, []⟩ =
      xml.ElemValue.text "100000101" ∧
    ("100000101" : String).length ≠ 8 := by
  decide

/-- C6 (amended): for a non-nil, non-zero value whose year, read in its own
offset, is in 0..9999, `MarshalXML` emits element text of exactly 8 characters:
the year in 4 digits, the month and the day in 2 digits each, nothing else. -/
theorem C6_time_elem_format (v : XMLTVTime) (start : xml.StartElement)
    (hz : v.Time.IsZero = false) (hy0 : 0 ≤ v.Time.Year) (hy1 : v.Time.Year ≤ 9999) :
    ∃ s : String,
      (∀ (ε : Type) (enc : xml.ElemValue → xml.StartElement → ε),
        XMLTVTime.MarshalXML (some v) enc start = enc (xml.ElemValue.text s) start) ∧
      s = String.mk (decimal 4 v.Time.Year.toNat ++ (decimal 2 v.Time.Month.toNat ++
            decimal 2 v.Time.Day.toNat)) ∧
      s.length = 8 := by
  have hf := appendFormat_layoutElem v.Time hy0 hy1
  rw [List.append_nil] at hf
  refine ⟨v.Time.Format layoutElem, ?_, ?_, ?_⟩
  · intro ε enc
    simp only [XMLTVTime.MarshalXML, hz, Bool.false_eq_true, if_false]
  · rw [Time.Format, hf]
  · rw [Time.Format, hf]
    simp [String.length, decimal_length]

theorem C6_time_elem_format_witness :
    ∃ s : String,
      (∀ (ε : Type) (enc : xml.ElemValue → xml.StartElement → ε),
        XMLTVTime.MarshalXML (some ⟨Date 1990 10 11 0 0 0 0⟩) enc ⟨⟨"", "date"⟩, []⟩ =
          enc (xml.ElemValue.text s) ⟨⟨"", "date"⟩, []⟩) ∧
      s = "19901011" ∧ s.length = 8 :=
  C6_time_elem_format ⟨Date 1990 10 11 0 0 0 0⟩ ⟨⟨"", "date"⟩, []⟩ (by decide) (by decide)
    (by decide)

/-- C7: on a nil receiver and on a zero value `MarshalXMLAttr` returns the empty
attribute and a nil error, for every attribute name. -/
theorem C7_time_attr_zero_omitted (n : xml.Name) :
    XMLTVTime.MarshalXMLAttr none n = (xml.Attr.zero, none) ∧
    ∀ t : XMLTVTime, t.Time.IsZero = true →
      XMLTVTime.MarshalXMLAttr (some t) n = (xml.Attr.zero, none) := by
  refine ⟨rfl, fun t h => ?_⟩
  simp [XMLTVTime.MarshalXMLAttr, h]

theorem C7_time_attr_zero_omitted_witness :
    XMLTVTime.MarshalXMLAttr (some ⟨⟨0, 0, 18000⟩⟩) ⟨"", "start"⟩ = (xml.Attr.zero, none) :=
  (C7_time_attr_zero_omitted ⟨"", "start"⟩).2 ⟨⟨0, 0, 18000⟩⟩ (by decide)

/-- C8: on a non-nil zero value `MarshalXML` hands the encoder the empty text
for the element, for every element name: the element is emitted, empty. -/
theorem C8_time_elem_zero_empty (t : XMLTVTime) (start : xml.StartElement)
    (h : t.Time.IsZero = true) (ε : Type) (enc : xml.ElemValue → xml.StartElement → ε) :
    XMLTVTime.MarshalXML (some t) enc start = enc (xml.ElemValue.text "") start := by
  simp [XMLTVTime.MarshalXML, h]

theorem C8_time_elem_zero_empty_witness :
    XMLTVTime.MarshalXML (some XMLTVTime.zero) (fun v _ => v) ⟨⟨"", "date"⟩, []⟩ =
      xml.ElemValue.text "" :=
  C8_time_elem_zero_empty XMLTVTime.zero ⟨⟨"", "date"⟩, []⟩ (by decide) xml.ElemValue
    (fun v _ => v)

/-- C9: `UnmarshalXMLAttr` on an attribute with the empty value returns a nil
error and sets the receiver to the zero value, whatever it held before. -/
theorem C9_time_attr_empty_zero (r : XMLTVTime) (n : xml.Name) :
    XMLTVTime.UnmarshalXMLAttr r { Name := n, Value := "" } = (XMLTVTime.zero, none) := by
  simp [XMLTVTime.UnmarshalXMLAttr]

/-- C10: `UnmarshalXML` on an element whose text is empty returns a nil error
and sets the receiver to the zero value, whatever it held before. -/
theorem C10_time_elem_empty_zero (r : XMLTVTime) (start : xml.StartElement) :
    XMLTVTime.UnmarshalXML r (.ok "") start = (XMLTVTime.zero, none) := by
  simp [XMLTVTime.UnmarshalXML]

/-- C11 (as stated, refuted): a text with a fractional second, and a text with
two spaces before the offset, are both decoded without error although neither
is 14 digits, one space, a sign and 4 digits. -/
theorem C11_counterexample :
    (XMLTVTime.UnmarshalXMLAttr XMLTVTime.zero
        { Name := ⟨"", "start"⟩, Value := "20220401000000.5 +0000" } =
        (⟨⟨63784368000, 500000000, 0⟩⟩, none) ∧
      strictTimestampGrammar "20220401000000.5 +0000".data = false) ∧
    (XMLTVTime.UnmarshalXMLAttr XMLTVTime.zero
        { Name := ⟨"", "start"⟩, Value := "20220401000000  +0000" } =
        (⟨⟨63784368000, 0, 0⟩⟩, none) ∧
      strictTimestampGrammar "20220401000000  +0000".data = false) := by
  decide

/-- C11 (amended): `UnmarshalXMLAttr` succeeds on a non-empty text only if the
text is 14 ASCII digits, then optionally a fractional second (a period or a
comma and one or more digits), then one or more spaces, then a sign and 4 ASCII
digits; every other non-empty text, such as one without offset or with trailing
characters, is a decode failure. -/
theorem C11_time_attr_strict (r : XMLTVTime) (n : xml.Name) (s : String) (hne : s ≠ "")
    (hok : (XMLTVTime.UnmarshalXMLAttr r { Name := n, Value := s }).2 = none) :
    timestampGrammar s.data = true := by
  simp only [XMLTVTime.UnmarshalXMLAttr, if_neg hne] at hok
  cases hp : Parse layoutAttr s.data with
  | none => simp [hp] at hok
  | some t => exact Parse_layoutAttr_grammar s.data t hp

theorem C11_time_attr_strict_witness :
    timestampGrammar "20220401000000 +0000".data = true :=
  C11_time_attr_strict XMLTVTime.zero ⟨"", "start"⟩ "20220401000000 +0000" (by decide)
    (by decide)

/-- C12: on a non-empty text `UnmarshalXML` succeeds if and only if the text is
exactly 8 ASCII digits `YYYYMMDD` with the month in 01..12 and the day in
01..(days of that month in that year). -/
theorem C12_time_elem_strict (r : XMLTVTime) (s : String) (start : xml.StartElement)
    (hne : s ≠ "") :
    (XMLTVTime.UnmarshalXML r (.ok s) start).2 = none ↔ dateGrammar s.data = true := by
  have h := Parse_layoutElem_isSome s.data
  simp only [XMLTVTime.UnmarshalXML, if_neg hne]
  cases hp : Parse layoutElem s.data with
  | none =>
    rw [hp] at h
    simp [← h]
  | some t =>
    rw [hp] at h
    simp [← h]

theorem C12_time_elem_strict_witness :
    (XMLTVTime.UnmarshalXML XMLTVTime.zero (.ok "20000229") ⟨⟨"", "date"⟩, []⟩).2 = none :=
  (C12_time_elem_strict XMLTVTime.zero "20000229" ⟨⟨"", "date"⟩, []⟩ (by decide)).mpr
    (by decide)

/-- C13: a text whose first character is not an ASCII digit, such as
"not-a-date", makes both `UnmarshalXMLAttr` and `UnmarshalXML` return a parse
error; the receiver is left as it was, not set to the zero value. -/
theorem C13_malformed_text_fails (r : XMLTVTime) (n : xml.Name) (start : xml.StartElement)
    (c : Char) (rest : List Char) (h : isAsciiDigit c = false) :
    XMLTVTime.UnmarshalXMLAttr r { Name := n, Value := String.mk (c :: rest) } =
      (r, some (Error.parse "20060102150405 -0700" (String.mk (c :: rest)))) ∧
    XMLTVTime.UnmarshalXML r (.ok (String.mk (c :: rest))) start =
      (r, some (Error.parse "20060102" (String.mk (c :: rest)))) := by
  have hne : String.mk (c :: rest) ≠ "" := String_mk_cons_ne_empty c rest
  simp only [XMLTVTime.UnmarshalXMLAttr, XMLTVTime.UnmarshalXML, if_neg hne,
    Parse_layoutAttr_not_digit c rest h, Parse_layoutElem_not_digit c rest h, and_self]

theorem C13_malformed_text_fails_witness :
    XMLTVTime.UnmarshalXMLAttr ⟨⟨63784368000, 0, 0⟩⟩ { Name := ⟨"", "start"⟩, Value := "not-a-date" } =
      (⟨⟨63784368000, 0, 0⟩⟩, some (Error.parse "20060102150405 -0700" "not-a-date")) ∧
    XMLTVTime.UnmarshalXML ⟨⟨63784368000, 0, 0⟩⟩ (.ok "not-a-date") ⟨⟨"", "date"⟩, []⟩ =
      (⟨⟨63784368000, 0, 0⟩⟩, some (Error.parse "20060102" "not-a-date")) :=
  C13_malformed_text_fails ⟨⟨63784368000, 0, 0⟩⟩ ⟨"", "start"⟩ ⟨⟨"", "date"⟩, []⟩ 'n'
    "ot-a-date".data (by decide)

/-- C14 (as stated, refuted): the element text "00010101" and the attribute
text "00010101000000 +0000" are accepted and decode to the zero value. -/
theorem C14_counterexample :
    XMLTVTime.UnmarshalXML ⟨⟨63784368000, 0, 0⟩⟩ (.ok "00010101") ⟨⟨"", "date"⟩, []⟩ =
      (⟨⟨0, 0, 0⟩⟩, none) ∧
    XMLTVTime.UnmarshalXMLAttr ⟨⟨63784368000, 0, 0⟩⟩
      { Name := ⟨"", "start"⟩, Value := "00010101000000 +0000" } = (⟨⟨0, 0, 0⟩⟩, none) ∧
    (⟨0, 0, 0⟩ : Time).IsZero = true := by
  decide

/-- C14 (amended): a non-empty text accepted by `UnmarshalXML` decodes to the
zero value if and only if it is "00010101"; a non-empty text accepted by
`UnmarshalXMLAttr` decodes to the zero value only if its year is 0000 or 0001.
Every other accepted text decodes to a value that is not zero. -/
theorem C14_zero_only_at_year_one (r : XMLTVTime) (n : xml.Name) (start : xml.StartElement)
    (sa se : String) (ta te : Time) :
    (sa ≠ "" → XMLTVTime.UnmarshalXMLAttr r { Name := n, Value := sa } = (⟨ta⟩, none) →
      ta.IsZero = true →
      sa.data.take 4 = ['0', '0', '0', '0'] ∨ sa.data.take 4 = ['0', '0', '0', '1']) ∧
    (se ≠ "" → XMLTVTime.UnmarshalXML r (.ok se) start = (⟨te⟩, none) →
      (te.IsZero = true ↔ se = "00010101")) := by
  constructor
  · intro hne hok hz
    simp only [XMLTVTime.UnmarshalXMLAttr, if_neg hne] at hok
    cases hp : Parse layoutAttr sa.data with
    | none => simp [hp] at hok
    | some t =>
      simp only [hp, Prod.mk.injEq, XMLTVTime.mk.injEq, and_true] at hok
      subst hok
      exact Parse_layoutAttr_zero_year sa.data t hp hz
  · intro hne hok
    simp only [XMLTVTime.UnmarshalXML, if_neg hne] at hok
    cases hp : Parse layoutElem se.data with
    | none => simp [hp] at hok
    | some t =>
      simp only [hp, Prod.mk.injEq, XMLTVTime.mk.injEq, and_true] at hok
      subst hok
      rw [Parse_layoutElem_zero se.data t hp]
      constructor
      · intro h
        have : se = String.mk se.data := rfl
        rw [this, h]
      · intro h
        rw [h]

theorem C14_zero_only_at_year_one_witness :
    (("00001231230000 -0100" : String).data.take 4 = ['0', '0', '0', '0'] ∨
      ("00001231230000 -0100" : String).data.take 4 = ['0', '0', '0', '1']) ∧
    ((⟨62791200000, 0, 0⟩ : Time).IsZero = true ↔ ("19901011" : String) = "00010101") :=
  ⟨(C14_zero_only_at_year_one XMLTVTime.zero ⟨"", "start"⟩ ⟨⟨"", "date"⟩, []⟩
      "00001231230000 -0100" "19901011" ⟨0, 0, -3600⟩ ⟨62791200000, 0, 0⟩).1
      (by decide) (by decide) (by decide),
   (C14_zero_only_at_year_one XMLTVTime.zero ⟨"", "start"⟩ ⟨⟨"", "date"⟩, []⟩
      "00001231230000 -0100" "19901011" ⟨0, 0, -3600⟩ ⟨62791200000, 0, 0⟩).2
      (by decide) (by decide)⟩

/-- C15: for a non-zero value whose offset is zero the attribute value ends with
the six characters " +0000". -/
theorem C15_utc_offset_suffix (v : XMLTVTime) (n : xml.Name) (hz : v.Time.IsZero = false)
    (ho : v.Time.offset = 0) :
    ∃ p : String, (XMLTVTime.MarshalXMLAttr (some v) n).1.Value = p ++ " +0000" := by
  obtain ⟨b, hb⟩ := appendFormat_layoutAttr_utc v.Time ho
  refine ⟨String.mk b, ?_⟩
  simp only [XMLTVTime.MarshalXMLAttr, hz, Bool.false_eq_true, if_false, Time.Format, hb]
  rfl

theorem C15_utc_offset_suffix_witness :
    ∃ p : String,
      (XMLTVTime.MarshalXMLAttr (some ⟨Date 2022 4 1 0 0 0 0⟩) ⟨"", "start"⟩).1.Value =
        p ++ " +0000" :=
  C15_utc_offset_suffix ⟨Date 2022 4 1 0 0 0 0⟩ ⟨"", "start"⟩ (by decide) (by decide)

/-- C16: for a non-nil boolean `MarshalXMLAttr` returns an attribute with the
given name and the value "yes" for true, "no" for false. -/
theorem C16_bool_attr_value (b : XMLTVBool) (n : xml.Name) :
    XMLTVBool.MarshalXMLAttr (some b) n =
      ({ Name := n, Value := if b = true then "yes" else "no" }, none) := by
  cases b <;> rfl

/-- C17: on a nil receiver `MarshalXMLAttr` returns the empty attribute, with
empty name and empty value, and a nil error, for every attribute name. -/
theorem C17_bool_attr_nil (n : xml.Name) :
    XMLTVBool.MarshalXMLAttr none n = (xml.Attr.zero, none) ∧
    xml.Attr.zero.Name = ⟨"", ""⟩ ∧ xml.Attr.zero.Value = "" :=
  ⟨rfl, rfl, rfl⟩

/-- C18: `UnmarshalXMLAttr` returns a nil error and sets the receiver to true
exactly when the attribute value is "yes", to false otherwise, whatever the
name and whatever the receiver held before. -/
theorem C18_bool_attr_decode (r : XMLTVBool) (attr : xml.Attr) :
    (XMLTVBool.UnmarshalXMLAttr r attr).2 = none ∧
    ((XMLTVBool.UnmarshalXMLAttr r attr).1 = true ↔ attr.Value = "yes") ∧
    ((XMLTVBool.UnmarshalXMLAttr r attr).1 = false ↔ attr.Value ≠ "yes") := by
  by_cases h : attr.Value = "yes" <;> simp [XMLTVBool.UnmarshalXMLAttr, h]

/-- C19: for a non-nil boolean and an element whose local name is not "new",
`MarshalXML` hands the encoder the text "yes" for true and "no" for false. -/
theorem C19_bool_elem_text (b : XMLTVBool) (start : xml.StartElement)
    (h : start.Name.Local ≠ "new") (ε : Type) (enc : xml.ElemValue → xml.StartElement → ε) :
    XMLTVBool.MarshalXML (some b) enc start =
      enc (xml.ElemValue.text (if b = true then "yes" else "no")) start := by
  cases b <;> simp [XMLTVBool.MarshalXML, h]

theorem C19_bool_elem_text_witness :
    XMLTVBool.MarshalXML (some false) (fun v _ => v) ⟨⟨"", "premiere"⟩, []⟩ =
      xml.ElemValue.text "no" :=
  C19_bool_elem_text false ⟨⟨"", "premiere"⟩, []⟩ (by decide) xml.ElemValue (fun v _ => v)

/-- C20: for a non-nil boolean, true or false, and an element whose local name
is "new", `MarshalXML` hands the encoder the empty text. -/
theorem C20_bool_elem_new_empty (b : XMLTVBool) (start : xml.StartElement)
    (h : start.Name.Local = "new") (ε : Type) (enc : xml.ElemValue → xml.StartElement → ε) :
    XMLTVBool.MarshalXML (some b) enc start = enc (xml.ElemValue.text "") start := by
  simp [XMLTVBool.MarshalXML, h]

theorem C20_bool_elem_new_empty_witness :
    XMLTVBool.MarshalXML (some true) (fun v _ => v) ⟨⟨"", "new"⟩, []⟩ = xml.ElemValue.text "" :=
  C20_bool_elem_new_empty true ⟨⟨"", "new"⟩, []⟩ (by decide) xml.ElemValue (fun v _ => v)

/-- C21: for an element whose local name is "new" and for every element text,
`UnmarshalXML` sets the receiver to true and returns no error once the text has
been read. -/
theorem C21_bool_elem_new_true (r : XMLTVBool) (start : xml.StartElement) (s : String)
    (h : start.Name.Local = "new") :
    XMLTVBool.UnmarshalXML r (.ok s) start = (true, none) := by
  simp [XMLTVBool.UnmarshalXML, h]

theorem C21_bool_elem_new_true_witness :
    XMLTVBool.UnmarshalXML false (.ok "no") ⟨⟨"", "new"⟩, []⟩ = (true, none) :=
  C21_bool_elem_new_true false ⟨⟨"", "new"⟩, []⟩ "no" (by decide)

/-- C22: for an element whose local name is not "new" and for every element
text, `UnmarshalXML` sets the receiver to true exactly when the text is "yes",
to false otherwise, and returns no error once the text has been read. -/
theorem C22_bool_elem_yes (r : XMLTVBool) (start : xml.StartElement) (s : String)
    (h : start.Name.Local ≠ "new") :
    (XMLTVBool.UnmarshalXML r (.ok s) start).2 = none ∧
    ((XMLTVBool.UnmarshalXML r (.ok s) start).1 = true ↔ s = "yes") ∧
    ((XMLTVBool.UnmarshalXML r (.ok s) start).1 = false ↔ s ≠ "yes") := by
  by_cases hs : s = "yes" <;> simp [XMLTVBool.UnmarshalXML, h, hs]

theorem C22_bool_elem_yes_witness :
    (XMLTVBool.UnmarshalXML true (.ok "Yes") ⟨⟨"", "premiere"⟩, []⟩).2 = none ∧
    ((XMLTVBool.UnmarshalXML true (.ok "Yes") ⟨⟨"", "premiere"⟩, []⟩).1 = true ↔
      ("Yes" : String) = "yes") ∧
    ((XMLTVBool.UnmarshalXML true (.ok "Yes") ⟨⟨"", "premiere"⟩, []⟩).1 = false ↔
      ("Yes" : String) ≠ "yes") :=
  C22_bool_elem_yes true ⟨⟨"", "premiere"⟩, []⟩ "Yes" (by decide)

/-- C23 (as stated, refuted): on an element named "new" the text "no", which is
not "yes", decodes to true. -/
theorem C23_counterexample :
    ("no" : String) ≠ "yes" ∧
    XMLTVBool.UnmarshalXML false (.ok "no") ⟨⟨"", "new"⟩, []⟩ = (true, none) := by
  decide

/-- C23 (amended): boolean decoding never fails, and it decodes to false every
element text other than "yes" on an element whose local name is not "new", and
every attribute value other than "yes". -/
theorem C23_bool_decode_false (r : XMLTVBool) (start : xml.StartElement) (attr : xml.Attr)
    (s : String) :
    (start.Name.Local ≠ "new" → s ≠ "yes" →
      XMLTVBool.UnmarshalXML r (.ok s) start = (false, none)) ∧
    (attr.Value ≠ "yes" → XMLTVBool.UnmarshalXMLAttr r attr = (false, none)) ∧
    (XMLTVBool.UnmarshalXML r (.ok s) start).2 = none ∧
    (XMLTVBool.UnmarshalXMLAttr r attr).2 = none := by
  refine ⟨fun h hs => by simp [XMLTVBool.UnmarshalXML, h, hs],
    fun h => by simp [XMLTVBool.UnmarshalXMLAttr, h], by simp [XMLTVBool.UnmarshalXML],
    by simp [XMLTVBool.UnmarshalXMLAttr]⟩

theorem C23_bool_decode_false_witness :
    XMLTVBool.UnmarshalXML true (.ok "true") ⟨⟨"", "premiere"⟩, []⟩ = (false, none) ∧
    XMLTVBool.UnmarshalXMLAttr true ⟨⟨"", "guest"⟩, "1"⟩ = (false, none) :=
  ⟨(C23_bool_decode_false true ⟨⟨"", "premiere"⟩, []⟩ ⟨⟨"", "guest"⟩, "1"⟩ "true").1
      (by decide) (by decide),
   (C23_bool_decode_false true ⟨⟨"", "premiere"⟩, []⟩ ⟨⟨"", "guest"⟩, "1"⟩ "true").2.1
      (by decide)⟩

/-- C24: on a nil receiver `MarshalXML` hands the encoder the nil marker and no
text, for every element name, the name "new" included: the nil check comes
before the rule for "new". -/
theorem C24_bool_elem_nil (start : xml.StartElement) (ε : Type)
    (enc : xml.ElemValue → xml.StartElement → ε) :
    XMLTVBool.MarshalXML none enc start = enc xml.ElemValue.nil start ∧
    XMLTVBool.MarshalXML none enc ⟨⟨"", "new"⟩, []⟩ = enc xml.ElemValue.nil ⟨⟨"", "new"⟩, []⟩ :=
  ⟨rfl, rfl⟩

/-- C25: the attribute encoders return a nil error for every receiver and every
name; what an element encoder returns is what the one `EncodeElement` call it
makes on the given start element returns. -/
theorem C25_encoding_never_fails (b : Option XMLTVBool) (t : Option XMLTVTime) (n : xml.Name)
    (start : xml.StartElement) (ε : Type) (enc : xml.ElemValue → xml.StartElement → ε) :
    (XMLTVBool.MarshalXMLAttr b n).2 = none ∧ (XMLTVTime.MarshalXMLAttr t n).2 = none ∧
    (∃ v, XMLTVBool.MarshalXML b enc start = enc v start) ∧
    (∃ v, XMLTVTime.MarshalXML t enc start = enc v start) := by
  refine ⟨?_, ?_, ?_, ?_⟩
  · cases b <;> rfl
  · cases t with
    | none => rfl
    | some t => simp only [XMLTVTime.MarshalXMLAttr]; split <;> rfl
  · cases b with
    | none => exact ⟨_, rfl⟩
    | some b => exact ⟨_, rfl⟩
  · cases t with
    | none => exact ⟨_, rfl⟩
    | some t => simp only [XMLTVTime.MarshalXML]; split <;> exact ⟨_, rfl⟩

/-- C26 (as stated, refuted): a `Programme` with `IsNew` true that is marshalled
by value, as in `xml.Marshal(Programme{IsNew: true})`, gets a `new` element
with the text "true", not the empty text. -/
theorem C26_counterexample :
    Programme.marshalIsNew false true (fun v _ => v) = some (xml.ElemValue.text "true") ∧
    Programme.newElements false true = [(Programme.startIsNew, "true")] := by
  decide

/-- C26 (amended): marshalling a `Programme` writes a `new` element exactly
when `IsNew` is true, and with empty text when the `Programme` is addressable;
unmarshalling leaves `IsNew` true exactly when it was true before or a child
element with local name `new` is there; so `IsNew` decodes back to itself in a
new `Programme`, however the `Programme` was marshalled. -/
theorem C26_is_new_round_trip (b prior CanAddr : Bool)
    (children : List (xml.StartElement × String)) (ε : Type)
    (enc : xml.ElemValue → xml.StartElement → ε) :
    (Programme.marshalIsNew CanAddr b enc).isSome = b ∧
    Programme.marshalIsNew true b enc =
      (if b = true then some (enc (xml.ElemValue.text "") Programme.startIsNew) else none) ∧
    Programme.newElements true b = (if b = true then [(Programme.startIsNew, "")] else []) ∧
    Programme.unmarshalIsNew prior children =
      (prior || children.any (fun c => decide (c.1.Name.Local = "new")), none) ∧
    Programme.unmarshalIsNew false (Programme.newElements CanAddr b) = (b, none) := by
  have hu : ∀ l : List (xml.StartElement × String), ∀ c : XMLTVBool,
      List.foldl (fun acc child =>
        match acc with
        | (b, some err) => (b, some err)
        | (b, none) =>
          if child.1.Name.Local = "new" then XMLTVBool.UnmarshalXML b (.ok child.2) child.1
          else (b, none)) (c, none) l =
        (c || l.any (fun c => decide (c.1.Name.Local = "new")), none) := by
    intro l
    induction l with
    | nil => intro c; simp
    | cons x xs ih =>
      intro c
      simp only [List.foldl_cons, List.any_cons]
      by_cases hx : x.1.Name.Local = "new"
      · have hstep : XMLTVBool.UnmarshalXML c (.ok x.2) x.1 = (true, none) := by
          simp [XMLTVBool.UnmarshalXML, hx]
        rw [if_pos hx, hstep, ih true]
        simp [hx]
      · rw [if_neg hx, ih c]
        simp [hx]
  refine ⟨?_, ?_, ?_, hu children prior, ?_⟩
  · cases b <;> cases CanAddr <;> rfl
  · cases b <;> rfl
  · cases b <;> rfl
  · cases b <;> cases CanAddr <;> decide

/-- C28: when `UnmarshalXMLAttr` or `UnmarshalXML` returns an error, the
receiver holds the value it held before the call. -/
theorem C28_failed_decode_keeps_receiver (r : XMLTVTime) (attr : xml.Attr)
    (decoded : Except Error String) (start : xml.StartElement) :
    ((XMLTVTime.UnmarshalXMLAttr r attr).2 ≠ none → (XMLTVTime.UnmarshalXMLAttr r attr).1 = r) ∧
    ((XMLTVTime.UnmarshalXML r decoded start).2 ≠ none →
      (XMLTVTime.UnmarshalXML r decoded start).1 = r) := by
  constructor
  · intro h
    by_cases hv : attr.Value = ""
    · simp [XMLTVTime.UnmarshalXMLAttr, hv] at h
    · cases hp : Parse layoutAttr attr.Value.data with
      | none => simp [XMLTVTime.UnmarshalXMLAttr, hv, hp]
      | some t => simp [XMLTVTime.UnmarshalXMLAttr, hv, hp] at h
  · intro h
    cases decoded with
    | error err => rfl
    | ok v =>
      by_cases hv : v = ""
      · simp [XMLTVTime.UnmarshalXML, hv] at h
      · cases hp : Parse layoutElem v.data with
        | none => simp [XMLTVTime.UnmarshalXML, hv, hp]
        | some t => simp [XMLTVTime.UnmarshalXML, hv, hp] at h

theorem C28_failed_decode_keeps_receiver_witness :
    (XMLTVTime.UnmarshalXMLAttr ⟨⟨63784368000, 0, 0⟩⟩ ⟨⟨"", "start"⟩, "2022"⟩).1 =
      ⟨⟨63784368000, 0, 0⟩⟩ ∧
    (XMLTVTime.UnmarshalXML ⟨⟨63784368000, 0, 0⟩⟩ (.ok "20221341") ⟨⟨"", "date"⟩, []⟩).1 =
      ⟨⟨63784368000, 0, 0⟩⟩ :=
  ⟨(C28_failed_decode_keeps_receiver ⟨⟨63784368000, 0, 0⟩⟩ ⟨⟨"", "start"⟩, "2022"⟩
      (.ok "20221341") ⟨⟨"", "date"⟩, []⟩).1 (by decide),
   (C28_failed_decode_keeps_receiver ⟨⟨63784368000, 0, 0⟩⟩ ⟨⟨"", "start"⟩, "2022"⟩
      (.ok "20221341") ⟨⟨"", "date"⟩, []⟩).2 (by decide)⟩

/-- C29: a text `YYYYMMDDhhmmss ±HHMM` that `UnmarshalXMLAttr` accepts decodes
to a value whose year, month, day, hour, minute and second in its own offset
are the numbers the digits write, without nanoseconds, whose offset is
±(HH hours and MM minutes), and whose instant is that wall-clock reading less
the offset. -/
theorem C29_time_attr_fields (r : XMLTVTime) (n : xml.Name) (s : String) (tt : Time)
    (hs : strictTimestampGrammar s.data = true)
    (hok : XMLTVTime.UnmarshalXMLAttr r { Name := n, Value := s } = (⟨tt⟩, none)) :
    tt.Year = fieldValue s.data 0 4 ∧ tt.Month = fieldValue s.data 4 2 ∧
    tt.Day = fieldValue s.data 6 2 ∧ tt.Hour = fieldValue s.data 8 2 ∧
    tt.Minute = fieldValue s.data 10 2 ∧ tt.Second = fieldValue s.data 12 2 ∧
    tt.nsec = 0 ∧
    tt.offset = (if s.data.get? 15 = some '-' then -1 else 1) *
      (((fieldValue s.data 16 2 * 60 + fieldValue s.data 18 2) * 60 : Nat) : Int) ∧
    tt.sec = (Date (fieldValue s.data 0 4) (fieldValue s.data 4 2) (fieldValue s.data 6 2)
      (fieldValue s.data 8 2) (fieldValue s.data 10 2) (fieldValue s.data 12 2) 0).sec -
        tt.offset := by
  have hne : s ≠ "" := by
    intro h
    rw [h] at hs
    exact absurd hs (by decide)
  simp only [XMLTVTime.UnmarshalXMLAttr, if_neg hne] at hok
  cases hp : Parse layoutAttr s.data with
  | none => simp [hp] at hok
  | some t =>
    simp only [hp, Prod.mk.injEq, XMLTVTime.mk.injEq, and_true] at hok
    subst hok
    exact Parse_layoutAttr_strict s.data t hs hp

theorem C29_time_attr_fields_witness :
    (⟨63784404000, 0, -18000⟩ : Time).Year = fieldValue "20220401050000 -0500".data 0 4 ∧
    (⟨63784404000, 0, -18000⟩ : Time).Month = fieldValue "20220401050000 -0500".data 4 2 ∧
    (⟨63784404000, 0, -18000⟩ : Time).Day = fieldValue "20220401050000 -0500".data 6 2 ∧
    (⟨63784404000, 0, -18000⟩ : Time).Hour = fieldValue "20220401050000 -0500".data 8 2 ∧
    (⟨63784404000, 0, -18000⟩ : Time).Minute = fieldValue "20220401050000 -0500".data 10 2 ∧
    (⟨63784404000, 0, -18000⟩ : Time).Second = fieldValue "20220401050000 -0500".data 12 2 ∧
    (⟨63784404000, 0, -18000⟩ : Time).nsec = 0 ∧
    (⟨63784404000, 0, -18000⟩ : Time).offset =
      (if "20220401050000 -0500".data.get? 15 = some '-' then -1 else 1) *
      (((fieldValue "20220401050000 -0500".data 16 2 * 60 +
        fieldValue "20220401050000 -0500".data 18 2) * 60 : Nat) : Int) ∧
    (⟨63784404000, 0, -18000⟩ : Time).sec =
      (Date (fieldValue "20220401050000 -0500".data 0 4)
        (fieldValue "20220401050000 -0500".data 4 2) (fieldValue "20220401050000 -0500".data 6 2)
        (fieldValue "20220401050000 -0500".data 8 2) (fieldValue "20220401050000 -0500".data 10 2)
        (fieldValue "20220401050000 -0500".data 12 2) 0).sec -
        (⟨63784404000, 0, -18000⟩ : Time).offset :=
  C29_time_attr_fields XMLTVTime.zero ⟨"", "start"⟩ "20220401050000 -0500"
    ⟨63784404000, 0, -18000⟩ (by decide) (by decide)

/-- C30: a non-empty text `UnmarshalXML` accepts decodes to the year, month and
day its digits write, at time of day 00:00:00 with offset zero. -/
theorem C30_time_elem_fields (r : XMLTVTime) (s : String) (start : xml.StartElement)
    (tt : Time) (hne : s ≠ "")
    (hok : XMLTVTime.UnmarshalXML r (.ok s) start = (⟨tt⟩, none)) :
    tt.Year = fieldValue s.data 0 4 ∧ tt.Month = fieldValue s.data 4 2 ∧
    tt.Day = fieldValue s.data 6 2 ∧ tt.Hour = 0 ∧ tt.Minute = 0 ∧ tt.Second = 0 ∧
    tt.nsec = 0 ∧ tt.offset = 0 := by
  simp only [XMLTVTime.UnmarshalXML, if_neg hne] at hok
  cases hp : Parse layoutElem s.data with
  | none => simp [hp] at hok
  | some t =>
    simp only [hp, Prod.mk.injEq, XMLTVTime.mk.injEq, and_true] at hok
    subst hok
    cases hl : parseLoop layoutElem s.data Fields.init with
    | none => simp [Parse, hl] at hp
    | some g =>
      obtain ⟨y1, y2, y3, y4, m1, m2, d1, d2, e, hy1, hy2, hy3, hy4, hm1, hm2, hd1, hd2, r1,
        r2, hg⟩ := parseLoop_layoutElem_some s.data g hl
      rw [e] at hp ⊢
      rw [Parse_layoutElem_digits y1 y2 y3 y4 m1 m2 d1 d2 hy1 hy2 hy3 hy4 hm1 hm2 hd1 hd2
        r1 r2] at hp
      split at hp
      · rename_i hd
        have hdi := daysIn_daysOfMonth (digitValue y1 * 1000 + digitValue y2 * 100 +
          digitValue y3 * 10 + digitValue y4) (digitValue m1 * 10 + digitValue m2) r1 r2
        simp only [Option.some.injEq] at hp
        have f1 : fieldValue [y1, y2, y3, y4, m1, m2, d1, d2] 0 4 =
            digitValue y1 * 1000 + digitValue y2 * 100 + digitValue y3 * 10 + digitValue y4 := by
          simp only [fieldValue, List.drop_zero, List.take_succ_cons, List.take_zero,
            decimalValue_four]
        have f2 : fieldValue [y1, y2, y3, y4, m1, m2, d1, d2] 4 2 =
            digitValue m1 * 10 + digitValue m2 := by
          simp only [fieldValue, List.drop_succ_cons, List.drop_zero, List.take_succ_cons,
            List.take_zero, decimalValue_two]
        have f3 : fieldValue [y1, y2, y3, y4, m1, m2, d1, d2] 6 2 =
            digitValue d1 * 10 + digitValue d2 := by
          simp only [fieldValue, List.drop_succ_cons, List.drop_zero, List.take_succ_cons,
            List.take_zero, List.take_nil, decimalValue_two]
        rw [f1, f2, f3]
        obtain ⟨Y, hY⟩ : ∃ Y, Y = digitValue y1 * 1000 + digitValue y2 * 100 +
          digitValue y3 * 10 + digitValue y4 := ⟨_, rfl⟩
        obtain ⟨M, hM⟩ : ∃ M, M = digitValue m1 * 10 + digitValue m2 := ⟨_, rfl⟩
        obtain ⟨D, hD⟩ : ∃ D, D = digitValue d1 * 10 + digitValue d2 := ⟨_, rfl⟩
        rw [← hY, ← hM] at hdi
        rw [← hY, ← hM, ← hD] at hp hd ⊢
        rw [← hM] at r1 r2
        rw [Date_valid _ _ _ _ _ _ _ (by omega) (by omega) (by omega) (by omega) (by omega)]
          at hp
        obtain ⟨k1, k2, k3, k4, k5, k6⟩ := fields_of_valid (Y : Int) (M : Int) (D : Int) 0 0 0 0 0
          (by omega) (by omega) (by omega) (by omega) (by omega) (by omega) t
          (by rw [← hp]; simp)
        refine ⟨k1, k2, k3, k4, k5, k6, ?_, ?_⟩ <;> rw [← hp]
      · simp at hp

theorem C30_time_elem_fields_witness :
    (Date 1990 10 11 0 0 0 0).Year = fieldValue "19901011".data 0 4 ∧
    (Date 1990 10 11 0 0 0 0).Month = fieldValue "19901011".data 4 2 ∧
    (Date 1990 10 11 0 0 0 0).Day = fieldValue "19901011".data 6 2 ∧
    (Date 1990 10 11 0 0 0 0).Hour = 0 ∧ (Date 1990 10 11 0 0 0 0).Minute = 0 ∧
    (Date 1990 10 11 0 0 0 0).Second = 0 ∧ (Date 1990 10 11 0 0 0 0).nsec = 0 ∧
    (Date 1990 10 11 0 0 0 0).offset = 0 :=
  C30_time_elem_fields XMLTVTime.zero "19901011" ⟨⟨"", "date"⟩, []⟩ (Date 1990 10 11 0 0 0 0)
    (by decide) (by decide)

/-- C31: a text `UnmarshalXML` accepts and decodes to a value that is not zero
is the text `MarshalXML` hands the encoder for the decoded value, whatever the
element and whatever the receiver held before. -/
theorem C31_time_elem_text_round_trip (r v : XMLTVTime) (s : String)
    (start start2 : xml.StartElement) (ε : Type) (enc : xml.ElemValue → xml.StartElement → ε)
    (hok : XMLTVTime.UnmarshalXML r (.ok s) start = (v, none))
    (hz : v.Time.IsZero = false) :
    XMLTVTime.MarshalXML (some v) enc start2 = enc (xml.ElemValue.text s) start2 := by
  by_cases hne : s = ""
  · subst hne
    simp only [XMLTVTime.UnmarshalXML, if_true, Prod.mk.injEq, and_true] at hok
    subst hok
    exact absurd hz (by decide)
  · simp only [XMLTVTime.UnmarshalXML, if_neg hne] at hok
    cases hp : Parse layoutElem s.data with
    | none => simp [hp] at hok
    | some t =>
      simp only [hp, Prod.mk.injEq, and_true] at hok
      subst hok
      have hf := Format_Parse_layoutElem s.data t hp
      simp only [XMLTVTime.MarshalXML, hz, Bool.false_eq_true, if_false, Time.Format, hf]

theorem C31_time_elem_text_round_trip_witness :
    XMLTVTime.UnmarshalXML XMLTVTime.zero (.ok "20220331") ⟨⟨"", "date"⟩, []⟩ =
      (⟨Date 2022 3 31 0 0 0 0⟩, none) ∧
    (Date 2022 3 31 0 0 0 0).IsZero = false ∧
    XMLTVTime.MarshalXML (some ⟨Date 2022 3 31 0 0 0 0⟩) (fun x _ => x) ⟨⟨"", "date"⟩, []⟩ =
      xml.ElemValue.text "20220331" :=
  ⟨by decide, by decide,
    C31_time_elem_text_round_trip XMLTVTime.zero ⟨Date 2022 3 31 0 0 0 0⟩ "20220331"
      ⟨⟨"", "date"⟩, []⟩ ⟨⟨"", "date"⟩, []⟩ xml.ElemValue (fun x _ => x) (by decide) (by decide)⟩

/-- C32: a non-nil value is omitted by `MarshalXMLAttr`, and encoded as the
empty text by `MarshalXML`, if and only if its instant is that of
0001-01-01 00:00:00 UTC, whatever offset it carries: 0001-01-01 05:00:00 at
offset +0500 is omitted, 0001-01-01 00:00:00 at offset -0500 is formatted. -/
theorem C32_zero_by_instant (v : XMLTVTime) (n : xml.Name) (start : xml.StartElement) :
    (XMLTVTime.MarshalXMLAttr (some v) n = (xml.Attr.zero, none) ↔
      v.Time.sec = (Date 1 1 1 0 0 0 0).sec ∧ v.Time.nsec = (Date 1 1 1 0 0 0 0).nsec) ∧
    (XMLTVTime.MarshalXML (some v) (fun x _ => x) start = xml.ElemValue.text "" ↔
      v.Time.sec = (Date 1 1 1 0 0 0 0).sec ∧ v.Time.nsec = (Date 1 1 1 0 0 0 0).nsec) ∧
    ((⟨0, 0, 18000⟩ : Time).Year = 1 ∧ (⟨0, 0, 18000⟩ : Time).Month = 1 ∧
      (⟨0, 0, 18000⟩ : Time).Day = 1 ∧ (⟨0, 0, 18000⟩ : Time).Hour = 5 ∧
      (⟨0, 0, 18000⟩ : Time).Minute = 0 ∧ (⟨0, 0, 18000⟩ : Time).Second = 0 ∧
      XMLTVTime.MarshalXMLAttr (some ⟨⟨0, 0, 18000⟩⟩) n = (xml.Attr.zero, none) ∧
      XMLTVTime.MarshalXML (some ⟨⟨0, 0, 18000⟩⟩) (fun x _ => x) start = xml.ElemValue.text "") ∧
    ((⟨18000, 0, -18000⟩ : Time).Year = 1 ∧ (⟨18000, 0, -18000⟩ : Time).Month = 1 ∧
      (⟨18000, 0, -18000⟩ : Time).Day = 1 ∧ (⟨18000, 0, -18000⟩ : Time).Hour = 0 ∧
      (⟨18000, 0, -18000⟩ : Time).Minute = 0 ∧ (⟨18000, 0, -18000⟩ : Time).Second = 0 ∧
      XMLTVTime.MarshalXMLAttr (some ⟨⟨18000, 0, -18000⟩⟩) n =
        ({ Name := n, Value := "00010101000000 -0500" }, none) ∧
      XMLTVTime.MarshalXML (some ⟨⟨18000, 0, -18000⟩⟩) (fun x _ => x) start =
        xml.ElemValue.text "00010101") := by
  have hd : (Date 1 1 1 0 0 0 0).sec = 0 ∧ (Date 1 1 1 0 0 0 0).nsec = 0 := by decide
  have hz := IsZero_iff v.Time
  have ha := Format_ne_empty v.Time layoutAttr (by decide)
  have he := Format_ne_empty v.Time layoutElem (by decide)
  rw [hd.1, hd.2]
  refine ⟨?_, ?_, ?_, ?_⟩
  · rw [← hz]
    cases h : v.Time.IsZero
    · simp only [XMLTVTime.MarshalXMLAttr, h, Bool.false_eq_true, if_false, Prod.mk.injEq,
        and_true, iff_false]
      intro e
      exact ha (congrArg xml.Attr.Value e)
    · simp only [XMLTVTime.MarshalXMLAttr, h, if_true]
  · rw [← hz]
    cases h : v.Time.IsZero
    · simp only [XMLTVTime.MarshalXML, h, Bool.false_eq_true, if_false,
        xml.ElemValue.text.injEq, iff_false]
      exact he
    · simp only [XMLTVTime.MarshalXML, h, if_true]
  · refine ⟨by decide, by decide, by decide, by decide, by decide, by decide, ?_, ?_⟩
    · have e : (⟨0, 0, 18000⟩ : Time).IsZero = true := by decide
      simp only [XMLTVTime.MarshalXMLAttr, e, if_true]
    · have e : (⟨0, 0, 18000⟩ : Time).IsZero = true := by decide
      simp only [XMLTVTime.MarshalXML, e, if_true]
  · refine ⟨by decide, by decide, by decide, by decide, by decide, by decide, ?_, ?_⟩
    · have e : (⟨18000, 0, -18000⟩ : Time).IsZero = false := by decide
      have f : (⟨18000, 0, -18000⟩ : Time).Format layoutAttr = "00010101000000 -0500" := by
        decide
      simp only [XMLTVTime.MarshalXMLAttr, e, Bool.false_eq_true, if_false, f]
    · have e : (⟨18000, 0, -18000⟩ : Time).IsZero = false := by decide
      have f : (⟨18000, 0, -18000⟩ : Time).Format layoutElem = "00010101" := by decide
      simp only [XMLTVTime.MarshalXML, e, Bool.false_eq_true, if_false, f]

/-- C33: two non-zero values with the same year, month and day, each read in
its own offset, are encoded by `MarshalXML` as the same element text, whatever
their time of day, their sub-second part and their offset. -/
theorem C33_elem_text_by_local_date (v w : XMLTVTime) (start : xml.StartElement) (ε : Type)
    (enc : xml.ElemValue → xml.StartElement → ε)
    (hv : v.Time.IsZero = false) (hw : w.Time.IsZero = false)
    (hy : v.Time.Year = w.Time.Year) (hm : v.Time.Month = w.Time.Month)
    (hd : v.Time.Day = w.Time.Day) :
    XMLTVTime.MarshalXML (some v) enc start = XMLTVTime.MarshalXML (some w) enc start := by
  simp only [XMLTVTime.MarshalXML, hv, hw, Bool.false_eq_true, if_false, Time.Format,
    layoutElem, appendFormat, appendStd, hy, hm, hd]

theorem C33_elem_text_by_local_date_witness :
    (⟨63784382400, 7, -18000⟩ : Time).IsZero = false ∧
    (Date 2022 3 31 0 0 0 0).IsZero = false ∧
    (⟨63784382400, 7, -18000⟩ : Time).Year = (Date 2022 3 31 0 0 0 0).Year ∧
    (⟨63784382400, 7, -18000⟩ : Time).Month = (Date 2022 3 31 0 0 0 0).Month ∧
    (⟨63784382400, 7, -18000⟩ : Time).Day = (Date 2022 3 31 0 0 0 0).Day ∧
    (⟨63784382400, 7, -18000⟩ : Time).Hour = 23 ∧
    (⟨63784382400, 7, 0⟩ : Time).Day = 1 ∧
    XMLTVTime.MarshalXML (some ⟨⟨63784382400, 7, -18000⟩⟩) (fun x _ => x) ⟨⟨"", "date"⟩, []⟩ =
      xml.ElemValue.text "20220331" :=
  ⟨by decide, by decide, by decide, by decide, by decide, by decide, by decide,
    (C33_elem_text_by_local_date ⟨⟨63784382400, 7, -18000⟩⟩ ⟨Date 2022 3 31 0 0 0 0⟩
      ⟨⟨"", "date"⟩, []⟩ xml.ElemValue (fun x _ => x) (by decide) (by decide) (by decide)
      (by decide) (by decide)).trans (by decide)⟩

/-- C34: whatever the namespace and the attributes of the element, the two
element codecs of the boolean apply the rule of the element "new" (empty text
on encode, true on decode) exactly when the local name is the string "new";
with any other local name, such as "New", "NEW" and "new ", they encode to "yes"
or "no" and decode to true on "yes" alone. -/
theorem C34_sentinel_exactly_new (sp loc : String) (attrs : List xml.Attr) (b r : XMLTVBool)
    (s : String) (ε : Type) (enc : xml.ElemValue → xml.StartElement → ε) :
    XMLTVBool.MarshalXML (some b) enc ⟨⟨sp, loc⟩, attrs⟩ =
      enc (xml.ElemValue.text (if loc = "new" then "" else if b = true then "yes" else "no"))
        ⟨⟨sp, loc⟩, attrs⟩ ∧
    XMLTVBool.UnmarshalXML r (.ok s) ⟨⟨sp, loc⟩, attrs⟩ =
      (if loc = "new" then true else decide (s = "yes"), none) ∧
    ((∀ x : XMLTVBool, XMLTVBool.MarshalXML (some x) (fun y _ => y) ⟨⟨sp, loc⟩, attrs⟩ =
        xml.ElemValue.text "") ↔ loc = "new") ∧
    ((∀ (x : XMLTVBool) (t : String),
        XMLTVBool.UnmarshalXML x (.ok t) ⟨⟨sp, loc⟩, attrs⟩ = (true, none)) ↔ loc = "new") ∧
    XMLTVBool.MarshalXML (some b) enc ⟨⟨sp, "New"⟩, attrs⟩ =
      enc (xml.ElemValue.text (if b = true then "yes" else "no")) ⟨⟨sp, "New"⟩, attrs⟩ ∧
    XMLTVBool.MarshalXML (some b) enc ⟨⟨sp, "NEW"⟩, attrs⟩ =
      enc (xml.ElemValue.text (if b = true then "yes" else "no")) ⟨⟨sp, "NEW"⟩, attrs⟩ ∧
    XMLTVBool.MarshalXML (some b) enc ⟨⟨sp, "new "⟩, attrs⟩ =
      enc (xml.ElemValue.text (if b = true then "yes" else "no")) ⟨⟨sp, "new "⟩, attrs⟩ ∧
    XMLTVBool.UnmarshalXML r (.ok s) ⟨⟨sp, "New"⟩, attrs⟩ = (decide (s = "yes"), none) ∧
    XMLTVBool.UnmarshalXML r (.ok s) ⟨⟨sp, "NEW"⟩, attrs⟩ = (decide (s = "yes"), none) ∧
    XMLTVBool.UnmarshalXML r (.ok s) ⟨⟨sp, "new "⟩, attrs⟩ = (decide (s = "yes"), none) := by
  have n1 : ¬ (("New" : String) = "new") := by decide
  have n2 : ¬ (("NEW" : String) = "new") := by decide
  have n3 : ¬ (("new " : String) = "new") := by decide
  have n4 : ¬ (("no" : String) = "yes") := by decide
  refine ⟨?_, ?_, ?_, ?_, ?_, ?_, ?_, ?_, ?_, ?_⟩
  · simp only [XMLTVBool.MarshalXML]
  · by_cases hl : loc = "new"
    · simp only [XMLTVBool.UnmarshalXML, hl, if_true]
    · by_cases hs : s = "yes" <;> simp [XMLTVBool.UnmarshalXML, hl, hs]
  · constructor
    · intro h
      by_contra hl
      have := h true
      simp [XMLTVBool.MarshalXML, hl] at this
    · intro hl x
      simp only [XMLTVBool.MarshalXML, hl, if_true]
  · constructor
    · intro h
      by_contra hl
      have := h false "no"
      simp [XMLTVBool.UnmarshalXML, hl] at this
    · intro hl x t
      simp only [XMLTVBool.UnmarshalXML, hl, if_true]
  · simp only [XMLTVBool.MarshalXML, if_neg n1]
  · simp only [XMLTVBool.MarshalXML, if_neg n2]
  · simp only [XMLTVBool.MarshalXML, if_neg n3]
  · by_cases hs : s = "yes" <;> simp [XMLTVBool.UnmarshalXML, hs]
  · by_cases hs : s = "yes" <;> simp [XMLTVBool.UnmarshalXML, hs]
  · by_cases hs : s = "yes" <;> simp [XMLTVBool.UnmarshalXML, hs]
